import Mathlib

/-!
Verification development for the bidirectional Google-Calendar reconciliation
engine of this repository (`event-utils.ts`, `sync-core.ts` in its optimized
form, the legacy `google-calendar-sync/src/sync-core.ts` variant, and the
batched sheet operations).  Pure functions are embedded directly; the calls to
the external Calendar and Sheets APIs are embedded by passing the outcome of
each call as an explicit oracle argument, and `Promise.allSettled` results as
an explicit `Settled` sum.
-/

namespace CalSync

/-! ### String helpers

JavaScript `String.prototype.includes` over the character list of a string. -/

/-- `leadsWith pat s` is true when `pat` is an initial segment of `s`. -/
def leadsWith : List Char → List Char → Bool
  | [], _ => true
  | _ :: _, [] => false
  | p :: ps, c :: cs => p == c && leadsWith ps cs

/-- Occurrence of `pat` anywhere in `s` (at the current position or later). -/
def inclAux (pat : List Char) : List Char → Bool
  | [] => leadsWith pat []
  | c :: cs => leadsWith pat (c :: cs) || inclAux pat cs

/-- Embedding of JavaScript `s.includes(pat)`. -/
def strIncludes (s pat : String) : Bool :=
  inclAux pat.data s.data

/-- Embedding of JavaScript `parts.join(sep)`. -/
def joinParts (sep : String) : List String → String
  | [] => ""
  | [p] => p
  | p :: q :: rest => p ++ sep ++ joinParts sep (q :: rest)

/-! ### Data model (`types.ts`) -/

/-- Google Calendar start/end: either an instant (with optional timezone) or a
whole-day date.  This is the `EventDateTime` union of `types.ts`. -/
inductive EventDateTime where
  | instant (dateTime : String) (timeZone : Option String)
  | allDay (date : String)
deriving DecidableEq

/-- One attendee entry of a calendar event. -/
structure Attendee where
  email : Option String
  displayName : Option String
  resource : Option Bool
deriving DecidableEq

/-- One event as returned by the Calendar API (`GoogleCalendarEvent`).
A missing `id` is represented by the empty string (the source only tests
falsiness of `event.id`). -/
structure GoogleCalendarEvent where
  id : String
  summary : Option String
  start : Option EventDateTime
  stop : Option EventDateTime
  location : Option String
  description : Option String
  attendees : Option (List Attendee)
  hangoutLink : Option String
  transparency : Option String
  status : Option String
deriving DecidableEq

/-- One row of the `synced_events` sheet (`SyncedEventRecord`), with its
positional row id. -/
structure SyncedEventRecord where
  id : Nat
  primary_calendar : String
  primary_event_id : String
  secondary_calendar : String
  secondary_event_id : String
  event_summary : String
  event_start : String
  event_end : String
  event_signature : String
  created_at : String
  last_updated : String
  last_checked : String
deriving DecidableEq

/-- Result of `analyzeEvents` (`SyncAnalysis`). -/
structure SyncAnalysis where
  toCreate : List GoogleCalendarEvent
  toUpdate : List (GoogleCalendarEvent × SyncedEventRecord)
  unchanged : Nat
  skippedDuplicate : Nat
deriving DecidableEq

/-! ### `event-utils.ts` -/

/-- The sync metadata tag placed in every synced copy's description. -/
def SYNC_TAG : String := "🔄 SYNCED FROM:"

/-- `JSON.stringify` of an optional `EventDateTime` as it appears inside the
template literal of `computeSignature` (`undefined` prints as the word
`undefined`; object keys print in insertion order). -/
def stringifyDateTime : Option EventDateTime → String
  | none => "undefined"
  | some (.instant dt none) => "\x7b\"dateTime\":\"" ++ dt ++ "\"\x7d"
  | some (.instant dt (some tz)) =>
      "\x7b\"dateTime\":\"" ++ dt ++ "\",\"timeZone\":\"" ++ tz ++ "\"\x7d"
  | some (.allDay d) => "\x7b\"date\":\"" ++ d ++ "\"\x7d"

/-- `computeSignature(event)`: pipe-separated concatenation of the
sync-relevant fields. -/
def computeSignature (event : GoogleCalendarEvent) : String :=
  (event.summary.getD "") ++ "|" ++ stringifyDateTime event.start ++ "|" ++
    stringifyDateTime event.stop ++ "|" ++ (event.location.getD "") ++ "|" ++
    (event.transparency.getD "") ++ "|" ++ (event.hangoutLink.getD "") ++ "|" ++
    (event.description.getD "")

/-- `normalizeDateTime(dt)`: keep only the recognised keys. -/
def normalizeDateTime : Option EventDateTime → Option EventDateTime
  | none => none
  | some (.allDay d) => some (.allDay d)
  | some (.instant dt tz) =>
      match tz with
      | some tz => some (.instant dt (some tz))
      | none => some (.instant dt none)

/-- `isSyncedCopy(event)`: the description carries the sync tag. -/
def isSyncedCopy (event : GoogleCalendarEvent) : Bool :=
  strIncludes (event.description.getD "") SYNC_TAG

/-- `isTargetCalendarInAttendees(event, targetCalendarId)`. -/
def isTargetCalendarInAttendees (event : GoogleCalendarEvent)
    (targetCalendarId : String) : Bool :=
  match event.attendees with
  | none => false
  | some attendees => attendees.any (fun a => a.email == some targetCalendarId)

/-- The resource-room attendees of an event
(`(event.attendees ?? []).filter(a => a.resource === true)`). -/
def resourceRooms (event : GoogleCalendarEvent) : List Attendee :=
  (event.attendees.getD []).filter (fun a => a.resource == some true)

/-- `buildSyncedDescription(event, prefix, sourceCalendarId)`. -/
def buildSyncedDescription (event : GoogleCalendarEvent) (pfx : String)
    (sourceCalendarId : String) : String :=
  let rooms := resourceRooms event
  let roomParts : List String :=
    if rooms.length > 0 then
      ["📍 Room: " ++ joinParts ", " (rooms.map (fun r => r.displayName.getD (r.email.getD "")))]
    else []
  let meetParts : List String :=
    match event.hangoutLink with
    | some link => ["🔗 Meeting: " ++ link]
    | none => []
  let descParts : List String :=
    match event.description with
    | some d => if d ≠ "" then ["\n" ++ d] else []
    | none => []
  let tagPart : String := "\n" ++ SYNC_TAG ++ " " ++ pfx ++ " (" ++ sourceCalendarId ++ ")"
  joinParts "\n" (roomParts ++ meetParts ++ descParts ++ [tagPart])

/-- The body sent to the Calendar API when creating/updating a synced copy
(`buildSyncedEventBody`): no attendees, no id, the description always carrying
the sync tag, location resolved from the original location or the rooms. -/
structure EventBody where
  summary : String
  description : String
  start : Option EventDateTime
  stop : Option EventDateTime
  transparency : String
  location : Option String
deriving DecidableEq

/-- `buildSyncedEventBody(event, prefix, sourceCalendarId)`. -/
def buildSyncedEventBody (event : GoogleCalendarEvent) (pfx : String)
    (sourceCalendarId : String) : EventBody :=
  let rooms := resourceRooms event
  let roomName : Option String :=
    if rooms.length > 0 then
      some (joinParts ", " (rooms.map (fun r => r.displayName.getD (r.email.getD ""))))
    else none
  let location : Option String :=
    match event.location with
    | some loc =>
        if loc ≠ "" then some loc
        else match roomName with
          | some rn => if rn ≠ "" then some rn else none
          | none => none
    | none =>
        match roomName with
        | some rn => if rn ≠ "" then some rn else none
        | none => none
  { summary := pfx ++ " " ++ (event.summary.getD "")
    description := buildSyncedDescription event pfx sourceCalendarId
    start := normalizeDateTime event.start
    stop := normalizeDateTime event.stop
    transparency := event.transparency.getD "opaque"
    location := location }

/-- The string key `record.primary_event_id + ":" + record.primary_calendar`
under which `analyzeEvents` stores a record in its map. -/
def recordKey (record : SyncedEventRecord) : String :=
  record.primary_event_id ++ ":" ++ record.primary_calendar

/-- The map built by `analyzeEvents` (insertion via `Map.set`, so the record
loaded last under a key wins), followed by `Map.get`. -/
def lookupRecord (syncedRecords : List SyncedEventRecord) (key : String) :
    Option SyncedEventRecord :=
  syncedRecords.foldl
    (fun acc record => if recordKey record == key then some record else acc) none

/-- One iteration of the `for (const event of events)` loop of
`analyzeEvents`. -/
def analyzeStep (syncedRecords : List SyncedEventRecord)
    (sourceCalendarId targetCalendarId : String) (acc : SyncAnalysis)
    (event : GoogleCalendarEvent) : SyncAnalysis :=
  if event.id == "" then acc
  else if isSyncedCopy event then
    { acc with skippedDuplicate := acc.skippedDuplicate + 1 }
  else if isTargetCalendarInAttendees event targetCalendarId then
    { acc with skippedDuplicate := acc.skippedDuplicate + 1 }
  else
    match lookupRecord syncedRecords (event.id ++ ":" ++ sourceCalendarId) with
    | some dbRecord =>
        if dbRecord.event_signature == computeSignature event then
          { acc with unchanged := acc.unchanged + 1 }
        else
          { acc with toUpdate := acc.toUpdate ++ [(event, dbRecord)] }
    | none => { acc with toCreate := acc.toCreate ++ [event] }

/-- `analyzeEvents(events, syncedRecords, sourceCalendarId, targetCalendarId)`. -/
def analyzeEvents (events : List GoogleCalendarEvent)
    (syncedRecords : List SyncedEventRecord)
    (sourceCalendarId targetCalendarId : String) : SyncAnalysis :=
  events.foldl (analyzeStep syncedRecords sourceCalendarId targetCalendarId)
    ⟨[], [], 0, 0⟩

/-! ### `sync-core.ts` (optimized workflow, `src/unnamed/part_012`) -/

/-- One settled outcome of `Promise.allSettled`. -/
inductive Settled (ε ρ : Type) where
  | fulfilled (value : ρ)
  | rejected (reason : ε)
deriving DecidableEq

/-- Settle one async call: an exception becomes a `rejected` entry. -/
def settleCall {τ ε ρ : Type} (fn : τ → Except ε ρ) (item : τ) : Settled ε ρ :=
  match fn item with
  | .ok v => .fulfilled v
  | .error e => .rejected e

/-- Is a settled result `fulfilled`?  (`result.status === "fulfilled"`). -/
def Settled.isFulfilled {ε ρ : Type} : Settled ε ρ → Bool
  | .fulfilled _ => true
  | .rejected _ => false

def CONCURRENCY : Nat := 5

def BATCH_DELAY_MS : Nat := 1000

/-- One observable action of `processInBatches`: a pacing delay, or one chunk
handed to `Promise.allSettled`. -/
inductive BatchEvent (τ : Type) where
  | delayMs (ms : Nat)
  | runChunk (chunk : List τ)
deriving DecidableEq

/-- The loop of `processInBatches`, with explicit fuel; `isFirst` records
whether `i > 0` yet.  `none` means the fuel ran out, which (as shown below)
happens for every fuel exactly when `batchSize = 0` and items remain: the
source's `i += batchSize` then makes no progress and the loop never ends. -/
def processInBatchesGo {τ ε ρ : Type} (fn : τ → Except ε ρ) (batchSize : Nat) :
    Nat → Bool → List τ → Option (List (Settled ε ρ) × List (BatchEvent τ))
  | _, _, [] => some ([], [])
  | 0, _, _ :: _ => none
  | fuel + 1, isFirst, item :: rest =>
      let batch := (item :: rest).take batchSize
      let remaining := (item :: rest).drop batchSize
      match processInBatchesGo fn batchSize fuel false remaining with
      | none => none
      | some (results, trace) =>
          some (batch.map (settleCall fn) ++ results,
            (if isFirst then [] else [.delayMs BATCH_DELAY_MS]) ++
              [.runChunk batch] ++ trace)

/-- `processInBatches(items, batchSize, fn)`: the settled results plus the
trace of chunk executions and inter-chunk delays.  Fuel `items.length`
suffices whenever `batchSize ≥ 1`. -/
def processInBatches {τ ε ρ : Type} (items : List τ) (batchSize : Nat)
    (fn : τ → Except ε ρ) :
    Option (List (Settled ε ρ) × List (BatchEvent τ)) :=
  processInBatchesGo fn batchSize items.length true items

/-- The chunk partition `slice(i, i + batchSize)` produces, with fuel. -/
def chunksOfGo {τ : Type} (batchSize : Nat) : Nat → List τ → List (List τ)
  | _, [] => []
  | 0, _ :: _ => []
  | fuel + 1, item :: rest =>
      (item :: rest).take batchSize :: chunksOfGo batchSize fuel ((item :: rest).drop batchSize)

/-- The consecutive chunks of `items` of size at most `batchSize`. -/
def chunksOf {τ : Type} (batchSize : Nat) (items : List τ) : List (List τ) :=
  chunksOfGo batchSize items.length items

/-- The expected trace for a chunk list: every chunk after the first one is
preceded by the fixed pacing delay. -/
def restTrace {τ : Type} : List (List τ) → List (BatchEvent τ)
  | [] => []
  | c :: cs => .delayMs BATCH_DELAY_MS :: .runChunk c :: restTrace cs

/-- Expected full trace of `processInBatches` for a chunk partition. -/
def traceOfChunks {τ : Type} : List (List τ) → List (BatchEvent τ)
  | [] => []
  | c :: cs => .runChunk c :: restTrace cs

/-- `getDateString(dt)` of `sync-core.ts`. -/
def getDateString : Option EventDateTime → String
  | none => ""
  | some (.instant dt _) => dt
  | some (.allDay d) => d

/-- Statistics of one sync direction (`SyncStats`). -/
structure SyncStats where
  created : Nat
  updated : Nat
  deleted : Nat
  errors : Nat
deriving DecidableEq

/-- A deferred sheet insert (`PendingSheetInsert`). -/
structure PendingSheetInsert where
  primary_calendar : String
  primary_event_id : String
  secondary_calendar : String
  secondary_event_id : String
  event_summary : String
  event_start : String
  event_end : String
  event_signature : String
deriving DecidableEq

/-- A deferred sheet row rewrite (`PendingSheetUpdate`). -/
structure PendingSheetUpdate where
  rowId : Nat
  primary_calendar : String
  primary_event_id : String
  secondary_calendar : String
  secondary_event_id : String
  event_summary : String
  event_start : String
  event_end : String
  event_signature : String
  created_at : String
deriving DecidableEq

/-- A deferred sheet row deletion (`PendingSheetDelete`). -/
structure PendingSheetDelete where
  rowId : Nat
deriving DecidableEq

/-- Result of `syncDirection` (`SyncDirectionResult`). -/
structure SyncDirectionResult where
  stats : SyncStats
  pendingInserts : List PendingSheetInsert
  pendingUpdates : List PendingSheetUpdate
deriving DecidableEq

/-- Result of `detectAndDeleteOrphans` (`OrphanDetectionResult`). -/
structure OrphanDetectionResult where
  deleted : Nat
  errors : Nat
  pendingDeletes : List PendingSheetDelete
deriving DecidableEq

/-- The pending insert pushed after a successful create (`sync-core.ts`,
create loop). -/
def mkPendingInsert (sourceCalendarId targetCalendarId : String)
    (event : GoogleCalendarEvent) (createdId : String) : PendingSheetInsert :=
  { primary_calendar := sourceCalendarId
    primary_event_id := event.id
    secondary_calendar := targetCalendarId
    secondary_event_id := createdId
    event_summary := event.summary.getD ""
    event_start := getDateString event.start
    event_end := getDateString event.stop
    event_signature := computeSignature event }

/-- The pending update pushed after a successful update (`sync-core.ts`,
update loop). -/
def mkPendingUpdate (event : GoogleCalendarEvent)
    (dbRecord : SyncedEventRecord) : PendingSheetUpdate :=
  { rowId := dbRecord.id
    primary_calendar := dbRecord.primary_calendar
    primary_event_id := dbRecord.primary_event_id
    secondary_calendar := dbRecord.secondary_calendar
    secondary_event_id := dbRecord.secondary_event_id
    event_summary := event.summary.getD ""
    event_start := getDateString event.start
    event_end := getDateString event.stop
    event_signature := computeSignature event
    created_at := dbRecord.created_at }

/-- The `for (const result of createResults)` accumulation loop. -/
def foldCreateResults (sourceCalendarId targetCalendarId : String)
    (stats : SyncStats) (results : List (Settled String (GoogleCalendarEvent × String))) :
    SyncStats × List PendingSheetInsert :=
  results.foldl
    (fun acc result =>
      match result with
      | .fulfilled (event, createdId) =>
          ({ acc.1 with created := acc.1.created + 1 },
            acc.2 ++ [mkPendingInsert sourceCalendarId targetCalendarId event createdId])
      | .rejected _ => ({ acc.1 with errors := acc.1.errors + 1 }, acc.2))
    (stats, [])

/-- The `for (const result of updateResults)` accumulation loop. -/
def foldUpdateResults (stats : SyncStats)
    (results : List (Settled String (GoogleCalendarEvent × SyncedEventRecord))) :
    SyncStats × List PendingSheetUpdate :=
  results.foldl
    (fun acc result =>
      match result with
      | .fulfilled (event, dbRecord) =>
          ({ acc.1 with updated := acc.1.updated + 1 },
            acc.2 ++ [mkPendingUpdate event dbRecord])
      | .rejected _ => ({ acc.1 with errors := acc.1.errors + 1 }, acc.2))
    (stats, [])

/-- `syncDirection`: the outcome of each Calendar API call is supplied by the
oracles `createCall` (returning the created event, of which only the id is
used) and `updateCall`. -/
def syncDirection
    (createCall : String → EventBody → Except String GoogleCalendarEvent)
    (updateCall : String → String → EventBody → Except String Unit)
    (sourceEvents : List GoogleCalendarEvent)
    (syncedRecords : List SyncedEventRecord)
    (sourceCalendarId targetCalendarId pfx : String) :
    Option SyncDirectionResult :=
  let analysis := analyzeEvents sourceEvents syncedRecords sourceCalendarId targetCalendarId
  match processInBatches analysis.toCreate CONCURRENCY
      (fun event =>
        (createCall targetCalendarId (buildSyncedEventBody event pfx sourceCalendarId)).map
          (fun created => (event, created.id))) with
  | none => none
  | some (createResults, _) =>
      match processInBatches analysis.toUpdate CONCURRENCY
          (fun p =>
            (updateCall targetCalendarId p.2.secondary_event_id
                (buildSyncedEventBody p.1 pfx sourceCalendarId)).map
              (fun _ => p)) with
      | none => none
      | some (updateResults, _) =>
          let afterCreates := foldCreateResults sourceCalendarId targetCalendarId
            ⟨0, 0, 0, 0⟩ createResults
          let afterUpdates := foldUpdateResults afterCreates.1 updateResults
          some ⟨afterUpdates.1, afterCreates.2, afterUpdates.2⟩

/-- `deleteEvent` of `google-calendar.ts`: a 410 Gone response is treated as
success, every other thrown code is re-thrown. -/
def deleteEvent (raw : Except Nat Unit) : Except Nat Unit :=
  match raw with
  | .ok _ => .ok ()
  | .error code => if code == 410 then .ok () else .error code

/-- The orphan filter of `detectAndDeleteOrphans`: the record's primary
calendar is one of the two configured calendars and that calendar's currently
fetched id-set misses the record's primary event id. -/
def isOrphanRecord (calAEventIds calBEventIds : List String)
    (calendarAId calendarBId : String) (record : SyncedEventRecord) : Bool :=
  if record.primary_calendar == calendarAId &&
      !(calAEventIds.contains record.primary_event_id) then true
  else if record.primary_calendar == calendarBId &&
      !(calBEventIds.contains record.primary_event_id) then true
  else false

/-- The orphan list collected by `detectAndDeleteOrphans` before deleting. -/
def orphanList (eventsA eventsB : List GoogleCalendarEvent)
    (syncedRecords : List SyncedEventRecord) (calendarAId calendarBId : String) :
    List SyncedEventRecord :=
  syncedRecords.filter
    (isOrphanRecord (eventsA.map (·.id)) (eventsB.map (·.id)) calendarAId calendarBId)

/-- The secondary-calendar delete calls `detectAndDeleteOrphans` attempts,
in order: one per orphan, on the orphan's secondary calendar and event. -/
def attemptedOrphanDeletes (eventsA eventsB : List GoogleCalendarEvent)
    (syncedRecords : List SyncedEventRecord) (calendarAId calendarBId : String) :
    List (String × String) :=
  (orphanList eventsA eventsB syncedRecords calendarAId calendarBId).map
    (fun record => (record.secondary_calendar, record.secondary_event_id))

/-- `detectAndDeleteOrphans`: `deleteCall` supplies the raw Calendar API
outcome of each delete (then filtered through `deleteEvent`'s 410 handling). -/
def detectAndDeleteOrphans (deleteCall : String → String → Except Nat Unit)
    (eventsA eventsB : List GoogleCalendarEvent)
    (syncedRecords : List SyncedEventRecord)
    (calendarAId calendarBId : String) : Option OrphanDetectionResult :=
  let orphans := orphanList eventsA eventsB syncedRecords calendarAId calendarBId
  match processInBatches orphans CONCURRENCY
      (fun record =>
        (deleteEvent (deleteCall record.secondary_calendar record.secondary_event_id)).map
          (fun _ => record)) with
  | none => none
  | some (deleteResults, _) =>
      some (deleteResults.foldl
        (fun acc result =>
          match result with
          | .fulfilled record =>
              { acc with
                  deleted := acc.deleted + 1
                  pendingDeletes := acc.pendingDeletes ++ [⟨record.id⟩] }
          | .rejected _ => { acc with errors := acc.errors + 1 })
        ⟨0, 0, []⟩)

/-- Configuration read once per pass. -/
structure SyncConfig where
  calendarAId : String
  calendarBId : String
  prefA : String
  prefB : String
deriving DecidableEq

/-- Oracles for the external Calendar API: the outcome of each create, update
and (raw) delete call during the pass. -/
structure CalendarApi where
  createCall : String → EventBody → Except String GoogleCalendarEvent
  updateCall : String → String → EventBody → Except String Unit
  deleteCall : String → String → Except Nat Unit

/-- Result of one full pass of the optimized workflow. -/
structure PassResult where
  aToB : SyncDirectionResult
  bToA : SyncDirectionResult
  orphan : OrphanDetectionResult
deriving DecidableEq

/-- Total error count reported by the summary step
(`aToBStats.errors + bToAStats.errors + deletionStats.errors`). -/
def PassResult.totalErrors (out : PassResult) : Nat :=
  out.aToB.stats.errors + out.bToA.stats.errors + out.orphan.errors

/-- The degradation of a settled fetch: a rejected fetch yields the empty
event list for that side (lines surrounding `fetchAResult.status` in the
workflow). -/
def fetchedOrEmpty (result : Settled String (List GoogleCalendarEvent)) :
    List GoogleCalendarEvent :=
  match result with
  | .fulfilled v => v
  | .rejected _ => []

/-- `syncGoogleCalendarsWorkflow` of the optimized `sync-core.ts`
(`src/unnamed/part_012`), from the point where both fetches have settled: a
rejected fetch degrades to the empty event list; the ledger snapshot
`syncedRecords` is loaded once and handed unchanged to A→B, B→A and the
orphan detector. -/
def syncGoogleCalendarsWorkflow (cfg : SyncConfig) (api : CalendarApi)
    (fetchAResult fetchBResult : Settled String (List GoogleCalendarEvent))
    (syncedRecords : List SyncedEventRecord) : Option PassResult :=
  let eventsA := fetchedOrEmpty fetchAResult
  let eventsB := fetchedOrEmpty fetchBResult
  match syncDirection api.createCall api.updateCall eventsA syncedRecords
      cfg.calendarAId cfg.calendarBId cfg.prefA with
  | none => none
  | some aToBResult =>
      match syncDirection api.createCall api.updateCall eventsB syncedRecords
          cfg.calendarBId cfg.calendarAId cfg.prefB with
      | none => none
      | some bToAResult =>
          match detectAndDeleteOrphans api.deleteCall eventsA eventsB
              syncedRecords cfg.calendarAId cfg.calendarBId with
          | none => none
          | some orphanResult => some ⟨aToBResult, bToAResult, orphanResult⟩

/-! ### Workflow step traces (for the ledger-read pattern)

Each constructor stands for one `SolidActions.runStep` call (or settled fetch
group) of a workflow, in program order. -/

inductive WorkflowStep where
  | fetchCalendarA
  | fetchCalendarB
  | loadLedger
  | syncAToB
  | batchWriteAToB
  | syncBToA
  | batchWriteBToA
  | detectOrphans
  | batchDeleteOrphanRows
  | logSummary
deriving DecidableEq

/-- Step sequence of the optimized `syncGoogleCalendarsWorkflow`
(`src/unnamed/part_012`): `fetch-calendar-a-events`, `fetch-calendar-b-events`,
`load-synced-records`, `sync-a-to-b`, `batch-write-a-to-b`, `sync-b-to-a`,
`batch-write-b-to-a`, `detect-and-delete-orphans`, `batch-delete-orphan-rows`,
`log-summary`.  Only `load-synced-records` calls `loadSheetRecords`. -/
def optimizedPassSteps : List WorkflowStep :=
  [.fetchCalendarA, .fetchCalendarB, .loadLedger, .syncAToB, .batchWriteAToB,
    .syncBToA, .batchWriteBToA, .detectOrphans, .batchDeleteOrphanRows,
    .logSummary]

/-- Step sequence of the legacy `syncGoogleCalendarsWorkflow`
(`google-calendar-sync/src/sync-core.ts`): `fetch-calendar-a-events`,
`fetch-calendar-b-events`, `load-synced-records`, `sync-a-to-b`,
`reload-synced-records`, `sync-b-to-a`, `reload-synced-records-for-orphans`,
`detect-and-delete-orphans`, `log-summary`.  The steps `load-synced-records`,
`reload-synced-records` and `reload-synced-records-for-orphans` all call
`loadSheetRecords`, i.e. they read the ledger. -/
def legacyPassSteps : List WorkflowStep :=
  [.fetchCalendarA, .fetchCalendarB, .loadLedger, .syncAToB, .loadLedger,
    .syncBToA, .loadLedger, .detectOrphans, .logSummary]

/-! ### `sheets.ts` batched deletion (modelled) -/

/-- Insert `x` into a descending-sorted list. -/
def insertDesc (x : Nat) : List Nat → List Nat
  | [] => [x]
  | y :: ys => if y ≤ x then x :: y :: ys else y :: insertDesc x ys

/-- Sort row ids in descending order (highest first), as
`rowIds.sort((a, b) => b - a)`. -/
def sortDesc : List Nat → List Nat
  | [] => []
  | x :: xs => insertDesc x (sortDesc xs)

/-- One `deleteDimension` entry inside a structural batch-update request. -/
structure DeleteDimensionEntry where
  sheetId : Nat
  startIndex : Nat
  endIndex : Nat
deriving DecidableEq

/-- Modelled from the spec: `batchDeleteSyncedEventRows(sheets, spreadsheetId,
sheetId, rowIds)` of the repository's `sheets.ts`, which is not among the
provided sources (only its callers and its implementation plan are).  Per the
spec it is a no-op on an empty input (`none` here: no request issued), and
otherwise issues one structural delete request whose `deleteDimension` entries
process the row ids in descending order, each covering
`startIndex = rowId - 1`, `endIndex = rowId`. -/
def batchDeleteSyncedEventRows (sheetId : Nat) (rowIds : List Nat) :
    Option (List DeleteDimensionEntry) :=
  if rowIds.isEmpty then none
  else some ((sortDesc rowIds).map (fun rowId => ⟨sheetId, rowId - 1, rowId⟩))

/-! ### Outcome helpers -/

/-- Did an API call succeed? -/
def exceptOk {ε α : Type} : Except ε α → Bool
  | .ok _ => true
  | .error _ => false

/-- Outcome of the create call `syncDirection` issues for one `toCreate`
event. -/
def createOk (createCall : String → EventBody → Except String GoogleCalendarEvent)
    (sourceCalendarId targetCalendarId pfx : String) (event : GoogleCalendarEvent) : Bool :=
  exceptOk (createCall targetCalendarId (buildSyncedEventBody event pfx sourceCalendarId))

/-- The id of the created copy, when the create call succeeded. -/
def createdIdOf (createCall : String → EventBody → Except String GoogleCalendarEvent)
    (sourceCalendarId targetCalendarId pfx : String) (event : GoogleCalendarEvent) :
    Option String :=
  match createCall targetCalendarId (buildSyncedEventBody event pfx sourceCalendarId) with
  | .ok created => some created.id
  | .error _ => none

/-- Outcome of the update call `syncDirection` issues for one `toUpdate`
pair. -/
def updateOk (updateCall : String → String → EventBody → Except String Unit)
    (sourceCalendarId targetCalendarId pfx : String)
    (p : GoogleCalendarEvent × SyncedEventRecord) : Bool :=
  exceptOk (updateCall targetCalendarId p.2.secondary_event_id
    (buildSyncedEventBody p.1 pfx sourceCalendarId))

/-- Outcome of one orphan's secondary-calendar delete, after the 410
handling of `deleteEvent`. -/
def orphanDeleteOk (deleteCall : String → String → Except Nat Unit)
    (record : SyncedEventRecord) : Bool :=
  exceptOk (deleteEvent (deleteCall record.secondary_calendar record.secondary_event_id))

/-! ### External-world evolution model

The claims about idempotence quantify over "the resulting state" of a pass
with no external changes.  The following functions model how the two
calendars and the ledger sheet evolve when the pass's successful operations
— and nothing else — take effect: the Calendar API stores exactly the body it
was sent and returns the new id it assigned, deletions remove the event with
the deleted id, and reloading the sheet re-derives positional row ids. -/

/-- A created (or rewritten) event as the next fetch returns it: the body the
engine sent, carrying the id assigned by (or passed to) the server. -/
def eventFromBody (body : EventBody) (newId : String) : GoogleCalendarEvent :=
  { id := newId
    summary := some body.summary
    start := body.start
    stop := body.stop
    location := body.location
    description := some body.description
    attendees := none
    hangoutLink := none
    transparency := some body.transparency
    status := none }

/-- The `toCreate` events of one direction whose create call succeeded,
paired with the created copy's id. -/
def successfulCreates
    (createCall : String → EventBody → Except String GoogleCalendarEvent)
    (sourceEvents : List GoogleCalendarEvent)
    (syncedRecords : List SyncedEventRecord)
    (sourceCalendarId targetCalendarId pfx : String) :
    List (GoogleCalendarEvent × String) :=
  (analyzeEvents sourceEvents syncedRecords sourceCalendarId targetCalendarId).toCreate.filterMap
    (fun event =>
      (createdIdOf createCall sourceCalendarId targetCalendarId pfx event).map
        (fun createdId => (event, createdId)))

/-- The `toUpdate` pairs of one direction whose update call succeeded. -/
def successfulUpdates
    (updateCall : String → String → EventBody → Except String Unit)
    (sourceEvents : List GoogleCalendarEvent)
    (syncedRecords : List SyncedEventRecord)
    (sourceCalendarId targetCalendarId pfx : String) :
    List (GoogleCalendarEvent × SyncedEventRecord) :=
  (analyzeEvents sourceEvents syncedRecords sourceCalendarId targetCalendarId).toUpdate.filter
    (updateOk updateCall sourceCalendarId targetCalendarId pfx)

/-- The orphans whose secondary-calendar delete was confirmed (or accepted as
already gone). -/
def successfulOrphans (deleteCall : String → String → Except Nat Unit)
    (eventsA eventsB : List GoogleCalendarEvent)
    (syncedRecords : List SyncedEventRecord) (calendarAId calendarBId : String) :
    List SyncedEventRecord :=
  (orphanList eventsA eventsB syncedRecords calendarAId calendarBId).filter
    (orphanDeleteOk deleteCall)

/-- The content an event on the direction's target calendar has after the
direction's successful updates were written: the update rewriting it last
wins; untouched events keep their content (and every event keeps its id). -/
def contentAfterUpdates (updPairs : List (GoogleCalendarEvent × SyncedEventRecord))
    (sourceCalendarId pfx : String) (event : GoogleCalendarEvent) :
    GoogleCalendarEvent :=
  match updPairs.reverse.find? (fun p => p.2.secondary_event_id == event.id) with
  | some p => eventFromBody (buildSyncedEventBody p.1 pfx sourceCalendarId) event.id
  | none => event

/-- Calendar A after the pass: orphan-deleted events removed, B→A updates
applied, B→A created copies appended. -/
def afterEventsA (cfg : SyncConfig) (api : CalendarApi)
    (eventsA eventsB : List GoogleCalendarEvent)
    (ledger : List SyncedEventRecord) : List GoogleCalendarEvent :=
  let updBA := successfulUpdates api.updateCall eventsB ledger cfg.calendarBId
    cfg.calendarAId cfg.prefB
  let creBA := successfulCreates api.createCall eventsB ledger cfg.calendarBId
    cfg.calendarAId cfg.prefB
  let deadOnA := ((successfulOrphans api.deleteCall eventsA eventsB ledger
      cfg.calendarAId cfg.calendarBId).filter
    (fun r => r.secondary_calendar == cfg.calendarAId)).map (·.secondary_event_id)
  (eventsA.filter (fun e => !(deadOnA.contains e.id))).map
      (contentAfterUpdates updBA cfg.calendarBId cfg.prefB) ++
    creBA.map (fun p => eventFromBody
      (buildSyncedEventBody p.1 cfg.prefB cfg.calendarBId) p.2)

/-- Calendar B after the pass: orphan-deleted events removed, A→B updates
applied, A→B created copies appended. -/
def afterEventsB (cfg : SyncConfig) (api : CalendarApi)
    (eventsA eventsB : List GoogleCalendarEvent)
    (ledger : List SyncedEventRecord) : List GoogleCalendarEvent :=
  let updAB := successfulUpdates api.updateCall eventsA ledger cfg.calendarAId
    cfg.calendarBId cfg.prefA
  let creAB := successfulCreates api.createCall eventsA ledger cfg.calendarAId
    cfg.calendarBId cfg.prefA
  let deadOnB := ((successfulOrphans api.deleteCall eventsA eventsB ledger
      cfg.calendarAId cfg.calendarBId).filter
    (fun r => r.secondary_calendar == cfg.calendarBId)).map (·.secondary_event_id)
  (eventsB.filter (fun e => !(deadOnB.contains e.id))).map
      (contentAfterUpdates updAB cfg.calendarAId cfg.prefA) ++
    creAB.map (fun p => eventFromBody
      (buildSyncedEventBody p.1 cfg.prefA cfg.calendarAId) p.2)

/-- The sheet row appended for a pending insert (timestamps are the write
time; the row id is re-derived positionally on the next load). -/
def recordOfInsert (ins : PendingSheetInsert) : SyncedEventRecord :=
  { id := 0
    primary_calendar := ins.primary_calendar
    primary_event_id := ins.primary_event_id
    secondary_calendar := ins.secondary_calendar
    secondary_event_id := ins.secondary_event_id
    event_summary := ins.event_summary
    event_start := ins.event_start
    event_end := ins.event_end
    event_signature := ins.event_signature
    created_at := ""
    last_updated := ""
    last_checked := "" }

/-- The sheet row after a pending update rewrote its range. -/
def recordOfUpdate (u : PendingSheetUpdate) : SyncedEventRecord :=
  { id := u.rowId
    primary_calendar := u.primary_calendar
    primary_event_id := u.primary_event_id
    secondary_calendar := u.secondary_calendar
    secondary_event_id := u.secondary_event_id
    event_summary := u.event_summary
    event_start := u.event_start
    event_end := u.event_end
    event_signature := u.event_signature
    created_at := u.created_at
    last_updated := ""
    last_checked := "" }

/-- Apply the batched row rewrites to one row (the last range written to a
row id wins). -/
def applyRowUpdates (upds : List PendingSheetUpdate)
    (record : SyncedEventRecord) : SyncedEventRecord :=
  match upds.reverse.find? (fun u => u.rowId == record.id) with
  | some u => recordOfUpdate u
  | none => record

/-- Re-derive positional row ids, as `loadSyncedEvents` does on the next
load (data rows start at sheet row 2, below the header). -/
def reindexFrom (n : Nat) : List SyncedEventRecord → List SyncedEventRecord
  | [] => []
  | r :: rs => { r with id := n } :: reindexFrom (n + 1) rs

/-- The ledger as the next pass loads it: batched updates applied, orphan
rows removed, batched inserts appended, row ids re-derived. -/
def afterLedger (cfg : SyncConfig) (api : CalendarApi)
    (eventsA eventsB : List GoogleCalendarEvent)
    (ledger : List SyncedEventRecord) : List SyncedEventRecord :=
  let updAB := (successfulUpdates api.updateCall eventsA ledger cfg.calendarAId
    cfg.calendarBId cfg.prefA).map (fun p => mkPendingUpdate p.1 p.2)
  let updBA := (successfulUpdates api.updateCall eventsB ledger cfg.calendarBId
    cfg.calendarAId cfg.prefB).map (fun p => mkPendingUpdate p.1 p.2)
  let insAB := (successfulCreates api.createCall eventsA ledger cfg.calendarAId
    cfg.calendarBId cfg.prefA).map
    (fun p => recordOfInsert (mkPendingInsert cfg.calendarAId cfg.calendarBId p.1 p.2))
  let insBA := (successfulCreates api.createCall eventsB ledger cfg.calendarBId
    cfg.calendarAId cfg.prefB).map
    (fun p => recordOfInsert (mkPendingInsert cfg.calendarBId cfg.calendarAId p.1 p.2))
  let delIds := (successfulOrphans api.deleteCall eventsA eventsB ledger
    cfg.calendarAId cfg.calendarBId).map (·.id)
  reindexFrom 2
    (((ledger.map (applyRowUpdates (updAB ++ updBA))).filter
        (fun r => !(delIds.contains r.id))) ++ insAB ++ insBA)

/-! ### Well-formedness of a pass's inputs -/

/-- `s` contains no colon (the separator of the analyzer's map key). -/
def colonFree (s : String) : Bool := !(s.data.contains ':')

/-- Well-formed inputs of a pass: the two calendars are distinct; event ids
and the ledger's primary key fields are colon-free (so the analyzer's string
key agrees with the `(calendar, id)` pair); fetched event ids are unique per
calendar; sheet row ids are unique; and every orphan's secondary event is a
genuine synced copy — it is not the primary event of a surviving ledger
record, and any fetched event carrying its id on the orphan's secondary
calendar is marked with the sync tag. -/
structure WellFormedPass (cfg : SyncConfig)
    (eventsA eventsB : List GoogleCalendarEvent)
    (ledger : List SyncedEventRecord) : Prop where
  calNe : cfg.calendarAId ≠ cfg.calendarBId
  calAFree : colonFree cfg.calendarAId = true
  calBFree : colonFree cfg.calendarBId = true
  idsAFree : ∀ e ∈ eventsA, colonFree e.id = true
  idsBFree : ∀ e ∈ eventsB, colonFree e.id = true
  idsANodup : ((eventsA.filter (fun e => e.id ≠ "")).map (·.id)).Nodup
  idsBNodup : ((eventsB.filter (fun e => e.id ≠ "")).map (·.id)).Nodup
  rowIdsNodup : (ledger.map (·.id)).Nodup
  recPrimFree : ∀ r ∈ ledger,
    colonFree r.primary_event_id = true ∧ colonFree r.primary_calendar = true
  orphanSecondaryNotPrimary :
    ∀ o ∈ orphanList eventsA eventsB ledger cfg.calendarAId cfg.calendarBId,
      ∀ r ∈ ledger,
        isOrphanRecord (eventsA.map (·.id)) (eventsB.map (·.id))
          cfg.calendarAId cfg.calendarBId r = false →
        ¬(r.primary_calendar = o.secondary_calendar ∧
          r.primary_event_id = o.secondary_event_id)
  orphanSecondaryTaggedA :
    ∀ o ∈ orphanList eventsA eventsB ledger cfg.calendarAId cfg.calendarBId,
      o.secondary_calendar = cfg.calendarAId →
        ∀ e ∈ eventsA, e.id = o.secondary_event_id → isSyncedCopy e = true
  orphanSecondaryTaggedB :
    ∀ o ∈ orphanList eventsA eventsB ledger cfg.calendarAId cfg.calendarBId,
      o.secondary_calendar = cfg.calendarBId →
        ∀ e ∈ eventsB, e.id = o.secondary_event_id → isSyncedCopy e = true

/-! ### Characterization of `analyzeEvents` -/

/-- The analyzer's map key for one source event. -/
def analyzerKey (sourceCalendarId : String) (e : GoogleCalendarEvent) : String :=
  e.id ++ ":" ++ sourceCalendarId

/-- The event has a non-empty id and passes both duplicate filters. -/
def passesFilters (targetCalendarId : String) (e : GoogleCalendarEvent) : Bool :=
  !(e.id == "") && !isSyncedCopy e && !isTargetCalendarInAttendees e targetCalendarId

/-- The event is counted as `skippedDuplicate`. -/
def skipPred (targetCalendarId : String) (e : GoogleCalendarEvent) : Bool :=
  !(e.id == "") && (isSyncedCopy e || isTargetCalendarInAttendees e targetCalendarId)

/-- The event lands in `toCreate`. -/
def createPred (syncedRecords : List SyncedEventRecord)
    (sourceCalendarId targetCalendarId : String) (e : GoogleCalendarEvent) : Bool :=
  passesFilters targetCalendarId e &&
    (lookupRecord syncedRecords (analyzerKey sourceCalendarId e)).isNone

/-- The `toUpdate` entry the event contributes, if any. -/
def updateEntry (syncedRecords : List SyncedEventRecord)
    (sourceCalendarId targetCalendarId : String) (e : GoogleCalendarEvent) :
    Option (GoogleCalendarEvent × SyncedEventRecord) :=
  if passesFilters targetCalendarId e then
    match lookupRecord syncedRecords (analyzerKey sourceCalendarId e) with
    | some r => if r.event_signature == computeSignature e then none else some (e, r)
    | none => none
  else none

/-- The event is counted as `unchanged`. -/
def unchangedPred (syncedRecords : List SyncedEventRecord)
    (sourceCalendarId targetCalendarId : String) (e : GoogleCalendarEvent) : Bool :=
  passesFilters targetCalendarId e &&
    (match lookupRecord syncedRecords (analyzerKey sourceCalendarId e) with
     | some r => r.event_signature == computeSignature e
     | none => false)

theorem analyzeEvents_foldl (syncedRecords : List SyncedEventRecord)
    (s t : String) (events : List GoogleCalendarEvent) :
    ∀ acc : SyncAnalysis,
      events.foldl (analyzeStep syncedRecords s t) acc =
        ⟨acc.toCreate ++ events.filter (createPred syncedRecords s t),
         acc.toUpdate ++ events.filterMap (updateEntry syncedRecords s t),
         acc.unchanged + (events.filter (unchangedPred syncedRecords s t)).length,
         acc.skippedDuplicate + (events.filter (skipPred t)).length⟩ := by
  induction events with
  | nil => intro acc; simp [List.filter, List.filterMap]
  | cons e es ih =>
    intro acc
    rw [List.foldl_cons, ih]
    cases hid : (e.id == "") with
    | true =>
      simp [analyzeStep, createPred, updateEntry, unchangedPred, skipPred,
        passesFilters, analyzerKey, hid]
    | false =>
      cases htag : isSyncedCopy e with
      | true =>
        simp [analyzeStep, createPred, updateEntry, unchangedPred, skipPred,
          passesFilters, analyzerKey, hid, htag, Nat.add_assoc, Nat.add_comm,
          Nat.add_left_comm]
      | false =>
        cases hatt : isTargetCalendarInAttendees e t with
        | true =>
          simp [analyzeStep, createPred, updateEntry, unchangedPred, skipPred,
            passesFilters, analyzerKey, hid, htag, hatt, Nat.add_assoc,
            Nat.add_comm, Nat.add_left_comm]
        | false =>
          cases hlook : lookupRecord syncedRecords (e.id ++ ":" ++ s) with
          | none =>
            simp [analyzeStep, createPred, updateEntry, unchangedPred, skipPred,
              passesFilters, analyzerKey, hid, htag, hatt, hlook,
              List.append_assoc]
          | some r =>
            cases hsig : (r.event_signature == computeSignature e) with
            | true =>
              simp [analyzeStep, createPred, updateEntry, unchangedPred,
                skipPred, passesFilters, analyzerKey, hid, htag, hatt, hlook,
                hsig, Nat.add_assoc, Nat.add_comm, Nat.add_left_comm]
            | false =>
              simp [analyzeStep, createPred, updateEntry, unchangedPred,
                skipPred, passesFilters, analyzerKey, hid, htag, hatt, hlook,
                hsig, List.append_assoc]

/-- Closed form of `analyzeEvents`. -/
theorem analyzeEvents_eq (events : List GoogleCalendarEvent)
    (syncedRecords : List SyncedEventRecord) (s t : String) :
    analyzeEvents events syncedRecords s t =
      ⟨events.filter (createPred syncedRecords s t),
       events.filterMap (updateEntry syncedRecords s t),
       (events.filter (unchangedPred syncedRecords s t)).length,
       (events.filter (skipPred t)).length⟩ := by
  have h := analyzeEvents_foldl syncedRecords s t events ⟨[], [], 0, 0⟩
  simpa [analyzeEvents] using h

/-! ### Lookup lemmas -/

theorem lookupRecord_foldl_init (key : String) (l : List SyncedEventRecord) :
    ∀ init : Option SyncedEventRecord,
      l.foldl (fun acc record => if recordKey record == key then some record else acc) init =
        match lookupRecord l key with
        | some r => some r
        | none => init := by
  induction l with
  | nil => intro init; simp [lookupRecord]
  | cons r rs ih =>
    intro init
    rw [List.foldl_cons]
    rw [ih]
    show _ = (match lookupRecord (r :: rs) key with | some x => some x | none => init)
    have hcons : lookupRecord (r :: rs) key =
        rs.foldl (fun acc record => if recordKey record == key then some record else acc)
          (if recordKey r == key then some r else none) := rfl
    rw [hcons, ih]
    cases hlook : lookupRecord rs key with
    | some x => simp
    | none =>
      cases hk : (recordKey r == key) with
      | true => simp [hk]
      | false => simp [hk]

theorem lookupRecord_append (l₁ l₂ : List SyncedEventRecord) (key : String) :
    lookupRecord (l₁ ++ l₂) key =
      match lookupRecord l₂ key with
      | some r => some r
      | none => lookupRecord l₁ key := by
  unfold lookupRecord
  rw [List.foldl_append]
  exact lookupRecord_foldl_init key l₂ _

theorem lookupRecord_eq_none_iff (l : List SyncedEventRecord) (key : String) :
    lookupRecord l key = none ↔ ∀ r ∈ l, recordKey r ≠ key := by
  induction l with
  | nil => simp [lookupRecord]
  | cons r rs ih =>
    have hcons : lookupRecord (r :: rs) key =
        rs.foldl (fun acc record => if recordKey record == key then some record else acc)
          (if recordKey r == key then some r else none) := rfl
    rw [hcons, lookupRecord_foldl_init]
    cases hlook : lookupRecord rs key with
    | some x =>
      simp only [List.mem_cons]
      constructor
      · intro h; exact absurd h (by simp)
      · intro h
        exact absurd (ih.mpr (fun q hq => h q (Or.inr hq))) (by simp [hlook])
    | none =>
      cases hk : (recordKey r == key) with
      | true =>
        simp only [List.mem_cons]
        constructor
        · intro h; simp at h
        · intro h
          exact absurd (by simpa using hk) (h r (Or.inl rfl))
      | false =>
        simp only [List.mem_cons]
        constructor
        · intro _ q hq
          rcases hq with rfl | hq
          · simpa using hk
          · exact (ih.mp hlook) q hq
        · intro _; rfl

theorem lookupRecord_mem (l : List SyncedEventRecord) (key : String)
    (r : SyncedEventRecord) (h : lookupRecord l key = some r) :
    r ∈ l ∧ recordKey r = key := by
  induction l with
  | nil => simp [lookupRecord] at h
  | cons q qs ih =>
    have hcons : lookupRecord (q :: qs) key =
        qs.foldl (fun acc record => if recordKey record == key then some record else acc)
          (if recordKey q == key then some q else none) := rfl
    rw [hcons, lookupRecord_foldl_init] at h
    cases hlook : lookupRecord qs key with
    | some x =>
      rw [hlook] at h
      simp at h
      subst h
      rcases ih hlook with ⟨hmem, hkey⟩
      exact ⟨List.mem_cons_of_mem _ hmem, hkey⟩
    | none =>
      rw [hlook] at h
      cases hk : (recordKey q == key) with
      | true =>
        rw [hk] at h
        simp at h
        subst h
        exact ⟨List.mem_cons_self _ _, by simpa using hk⟩
      | false =>
        rw [hk] at h
        simp at h

/-! ### `processInBatches` lemmas -/

theorem processInBatchesGo_zero {τ ε ρ : Type} (fn : τ → Except ε ρ)
    (x : τ) (xs : List τ) :
    ∀ (fuel : Nat) (flag : Bool),
      processInBatchesGo fn 0 fuel flag (x :: xs) = none := by
  intro fuel
  induction fuel with
  | zero => intro flag; rfl
  | succ fuel ih =>
    intro flag
    simp only [processInBatchesGo, List.drop_zero, ih false]

theorem chunksOfGo_fuel_eq {τ : Type} (batchSize : Nat) (hn : 0 < batchSize) :
    ∀ (f₁ : Nat) (items : List τ) (f₂ : Nat), items.length ≤ f₁ → items.length ≤ f₂ →
      chunksOfGo batchSize f₁ items = chunksOfGo batchSize f₂ items := by
  intro f₁
  induction f₁ with
  | zero =>
    intro items f₂ h₁ _
    have : items = [] := List.length_eq_zero.mp (Nat.le_zero.mp h₁)
    subst this
    cases f₂ <;> rfl
  | succ f₁ ih =>
    intro items f₂ h₁ h₂
    cases items with
    | nil => cases f₂ <;> rfl
    | cons x xs =>
      cases f₂ with
      | zero => simp at h₂
      | succ f₂ =>
        simp only [chunksOfGo]
        have hdrop₁ : ((x :: xs).drop batchSize).length ≤ f₁ := by
          rw [List.length_drop]
          have : (x :: xs).length ≤ f₁ + 1 := h₁
          simp only [List.length_cons] at this ⊢
          omega
        have hdrop₂ : ((x :: xs).drop batchSize).length ≤ f₂ := by
          rw [List.length_drop]
          have : (x :: xs).length ≤ f₂ + 1 := h₂
          simp only [List.length_cons] at this ⊢
          omega
        rw [ih _ f₂ hdrop₁ hdrop₂]

/-- Unfolding of the chunk partition on a non-empty list. -/
theorem chunksOf_cons {τ : Type} (batchSize : Nat) (hn : 0 < batchSize)
    (x : τ) (xs : List τ) :
    chunksOf batchSize (x :: xs) =
      (x :: xs).take batchSize :: chunksOf batchSize ((x :: xs).drop batchSize) := by
  show chunksOfGo batchSize (xs.length + 1) (x :: xs) = _
  simp only [chunksOfGo]
  have hdrop : ((x :: xs).drop batchSize).length ≤ xs.length := by
    rw [List.length_drop]
    simp only [List.length_cons]
    omega
  rw [chunksOfGo_fuel_eq batchSize hn xs.length _ _ hdrop (Nat.le_refl _)]
  rfl

theorem processInBatchesGo_spec {τ ε ρ : Type} (fn : τ → Except ε ρ)
    (batchSize : Nat) (hn : 0 < batchSize) :
    ∀ (fuel : Nat) (items : List τ), items.length ≤ fuel →
      processInBatchesGo fn batchSize fuel true items =
        some (items.map (settleCall fn), traceOfChunks (chunksOf batchSize items)) ∧
      processInBatchesGo fn batchSize fuel false items =
        some (items.map (settleCall fn), restTrace (chunksOf batchSize items)) := by
  intro fuel
  induction fuel with
  | zero =>
    intro items h
    have : items = [] := List.length_eq_zero.mp (Nat.le_zero.mp h)
    subst this
    exact ⟨rfl, rfl⟩
  | succ fuel ih =>
    intro items h
    cases items with
    | nil => exact ⟨rfl, rfl⟩
    | cons x xs =>
      have hdroplen : ((x :: xs).drop batchSize).length ≤ fuel := by
        rw [List.length_drop]
        have : (x :: xs).length ≤ fuel + 1 := h
        simp only [List.length_cons] at this ⊢
        omega
      rcases ih _ hdroplen with ⟨_, hfalse⟩
      have hchunks := chunksOf_cons batchSize hn x xs
      have hmapsplit :
          ((x :: xs).take batchSize).map (settleCall fn) ++
            ((x :: xs).drop batchSize).map (settleCall fn) =
          (x :: xs).map (settleCall fn) := by
        rw [← List.map_append, List.take_append_drop]
      have hdrop' : ((x :: xs).drop batchSize).length ≤ xs.length := by
        rw [List.length_drop]
        simp only [List.length_cons]
        omega
      have hfix : chunksOfGo batchSize xs.length ((x :: xs).drop batchSize) =
          chunksOf batchSize ((x :: xs).drop batchSize) :=
        chunksOfGo_fuel_eq batchSize hn xs.length _ _ hdrop' (Nat.le_refl _)
      constructor
      · simp only [processInBatchesGo, hfalse, hchunks, traceOfChunks]
        rw [hmapsplit]
        simp [hfix]
      · simp only [processInBatchesGo, hfalse, hchunks, restTrace]
        rw [hmapsplit]
        simp [hfix]

/-- For every positive batch size, `processInBatches` terminates with one
settled outcome per item, in input order, and the expected chunked trace. -/
theorem processInBatches_spec {τ ε ρ : Type} (items : List τ) (batchSize : Nat)
    (fn : τ → Except ε ρ) (hn : 0 < batchSize) :
    processInBatches items batchSize fn =
      some (items.map (settleCall fn), traceOfChunks (chunksOf batchSize items)) :=
  (processInBatchesGo_spec fn batchSize hn items.length items (Nat.le_refl _)).1

theorem chunksOf_flatten {τ : Type} (batchSize : Nat) (hn : 0 < batchSize)
    (items : List τ) :
    (chunksOf batchSize items).flatten = items := by
  have H : ∀ (fuel : Nat) (l : List τ), l.length ≤ fuel →
      (chunksOf batchSize l).flatten = l := by
    intro fuel
    induction fuel with
    | zero =>
      intro l h
      have : l = [] := List.length_eq_zero.mp (Nat.le_zero.mp h)
      subst this
      rfl
    | succ fuel ih =>
      intro l h
      cases l with
      | nil => rfl
      | cons x xs =>
        rw [chunksOf_cons batchSize hn, List.flatten_cons]
        have hdroplen : ((x :: xs).drop batchSize).length ≤ fuel := by
          rw [List.length_drop]
          have : (x :: xs).length ≤ fuel + 1 := h
          simp only [List.length_cons] at this ⊢
          omega
        rw [ih _ hdroplen, List.take_append_drop]
  exact H items.length items (Nat.le_refl _)

theorem chunksOf_mem {τ : Type} (batchSize : Nat) (hn : 0 < batchSize)
    (items : List τ) :
    ∀ c ∈ chunksOf batchSize items, c.length ≤ batchSize ∧ c ≠ [] := by
  have H : ∀ (fuel : Nat) (l : List τ), l.length ≤ fuel →
      ∀ c ∈ chunksOf batchSize l, c.length ≤ batchSize ∧ c ≠ [] := by
    intro fuel
    induction fuel with
    | zero =>
      intro l h
      have : l = [] := List.length_eq_zero.mp (Nat.le_zero.mp h)
      subst this
      intro c hc
      simp [chunksOf, chunksOfGo] at hc
    | succ fuel ih =>
      intro l h
      cases l with
      | nil => intro c hc; simp [chunksOf, chunksOfGo] at hc
      | cons x xs =>
        rw [chunksOf_cons batchSize hn]
        intro c hc
        rcases List.mem_cons.mp hc with rfl | hc
        · constructor
          · rw [List.length_take]; omega
          · cases hb : batchSize with
            | zero => omega
            | succ b => simp [List.take]
        · have hdroplen : ((x :: xs).drop batchSize).length ≤ fuel := by
            rw [List.length_drop]
            have : (x :: xs).length ≤ fuel + 1 := h
            simp only [List.length_cons] at this ⊢
            omega
          exact ih _ hdroplen c hc
  exact H items.length items (Nat.le_refl _)

/-! ### Closed forms of `syncDirection` and `detectAndDeleteOrphans` -/

/-- The pending insert one settled create result contributes. -/
def insOf (s t : String) : Settled String (GoogleCalendarEvent × String) →
    Option PendingSheetInsert
  | .fulfilled (event, createdId) => some (mkPendingInsert s t event createdId)
  | .rejected _ => none

/-- The pending update one settled update result contributes. -/
def updOf : Settled String (GoogleCalendarEvent × SyncedEventRecord) →
    Option PendingSheetUpdate
  | .fulfilled (event, dbRecord) => some (mkPendingUpdate event dbRecord)
  | .rejected _ => none

theorem filterMap_ite {α β : Type} (p : α → Bool) (g : α → β) (l : List α) :
    l.filterMap (fun a => if p a then some (g a) else none) =
      (l.filter p).map g := by
  induction l with
  | nil => rfl
  | cons a l ih =>
    cases hp : p a with
    | true => simp [List.filterMap_cons, List.filter_cons, hp, ih]
    | false => simp [List.filterMap_cons, List.filter_cons, hp, ih]

theorem foldCreateResults_eq (s t : String) (stats : SyncStats)
    (results : List (Settled String (GoogleCalendarEvent × String))) :
    foldCreateResults s t stats results =
      (⟨stats.created + results.countP Settled.isFulfilled, stats.updated,
          stats.deleted,
          stats.errors + results.countP (fun r => !r.isFulfilled)⟩,
        results.filterMap (insOf s t)) := by
  have H : ∀ (results : List (Settled String (GoogleCalendarEvent × String)))
      (st : SyncStats) (pend : List PendingSheetInsert),
      results.foldl
        (fun acc result =>
          match result with
          | .fulfilled (event, createdId) =>
              ({ acc.1 with created := acc.1.created + 1 },
                acc.2 ++ [mkPendingInsert s t event createdId])
          | .rejected _ => ({ acc.1 with errors := acc.1.errors + 1 }, acc.2))
        (st, pend) =
      (⟨st.created + results.countP Settled.isFulfilled, st.updated, st.deleted,
          st.errors + results.countP (fun r => !r.isFulfilled)⟩,
        pend ++ results.filterMap (insOf s t)) := by
    intro results
    induction results with
    | nil => intro st pend; simp [Settled.isFulfilled]
    | cons r rs ih =>
      intro st pend
      cases r with
      | fulfilled v =>
        rw [List.foldl_cons]
        rw [ih]
        simp [Settled.isFulfilled, insOf, List.countP_cons, Nat.add_comm,
          Nat.add_assoc, Nat.add_left_comm]
      | rejected m =>
        rw [List.foldl_cons]
        rw [ih]
        simp [Settled.isFulfilled, insOf, List.countP_cons, Nat.add_comm,
          Nat.add_assoc, Nat.add_left_comm]
  have := H results stats []
  simpa [foldCreateResults] using this

theorem foldUpdateResults_eq (stats : SyncStats)
    (results : List (Settled String (GoogleCalendarEvent × SyncedEventRecord))) :
    foldUpdateResults stats results =
      (⟨stats.created, stats.updated + results.countP Settled.isFulfilled,
          stats.deleted,
          stats.errors + results.countP (fun r => !r.isFulfilled)⟩,
        results.filterMap updOf) := by
  have H : ∀ (results : List (Settled String (GoogleCalendarEvent × SyncedEventRecord)))
      (st : SyncStats) (pend : List PendingSheetUpdate),
      results.foldl
        (fun acc result =>
          match result with
          | .fulfilled (event, dbRecord) =>
              ({ acc.1 with updated := acc.1.updated + 1 },
                acc.2 ++ [mkPendingUpdate event dbRecord])
          | .rejected _ => ({ acc.1 with errors := acc.1.errors + 1 }, acc.2))
        (st, pend) =
      (⟨st.created, st.updated + results.countP Settled.isFulfilled, st.deleted,
          st.errors + results.countP (fun r => !r.isFulfilled)⟩,
        pend ++ results.filterMap updOf) := by
    intro results
    induction results with
    | nil => intro st pend; simp [Settled.isFulfilled]
    | cons r rs ih =>
      intro st pend
      cases r with
      | fulfilled v =>
        rw [List.foldl_cons, ih]
        simp [Settled.isFulfilled, updOf, List.countP_cons, Nat.add_comm,
          Nat.add_assoc, Nat.add_left_comm]
      | rejected m =>
        rw [List.foldl_cons, ih]
        simp [Settled.isFulfilled, updOf, List.countP_cons, Nat.add_comm,
          Nat.add_assoc, Nat.add_left_comm]
  have := H results stats []
  simpa [foldUpdateResults] using this

theorem CONCURRENCY_pos : 0 < CONCURRENCY := by
  norm_num [CONCURRENCY]

/-- Closed form of `syncDirection`: stats count the successful/failed create
and update calls, and the pending mutations are exactly those of the
successful calls, in analyzer order. -/
theorem syncDirection_eq
    (createCall : String → EventBody → Except String GoogleCalendarEvent)
    (updateCall : String → String → EventBody → Except String Unit)
    (sourceEvents : List GoogleCalendarEvent)
    (syncedRecords : List SyncedEventRecord) (s t pfx : String) :
    syncDirection createCall updateCall sourceEvents syncedRecords s t pfx =
      some
        ⟨⟨(analyzeEvents sourceEvents syncedRecords s t).toCreate.countP
              (createOk createCall s t pfx),
            (analyzeEvents sourceEvents syncedRecords s t).toUpdate.countP
              (updateOk updateCall s t pfx),
            0,
            (analyzeEvents sourceEvents syncedRecords s t).toCreate.countP
                (fun e => !createOk createCall s t pfx e) +
              (analyzeEvents sourceEvents syncedRecords s t).toUpdate.countP
                (fun q => !updateOk updateCall s t pfx q)⟩,
          (successfulCreates createCall sourceEvents syncedRecords s t pfx).map
            (fun q => mkPendingInsert s t q.1 q.2),
          (successfulUpdates updateCall sourceEvents syncedRecords s t pfx).map
            (fun q => mkPendingUpdate q.1 q.2)⟩ := by
  unfold syncDirection
  simp only [processInBatches_spec _ _ _ CONCURRENCY_pos]
  simp only [foldCreateResults_eq, foldUpdateResults_eq]
  have hcreateFul : ∀ e, Settled.isFulfilled
      (settleCall (fun event =>
        (createCall t (buildSyncedEventBody event pfx s)).map
          (fun created => (event, created.id))) e) = createOk createCall s t pfx e := by
    intro e
    cases hc : createCall t (buildSyncedEventBody e pfx s) with
    | ok c => simp [settleCall, Settled.isFulfilled, createOk, exceptOk, hc, Except.map]
    | error m => simp [settleCall, Settled.isFulfilled, createOk, exceptOk, hc, Except.map]
  have hcreateIns : ∀ e, insOf s t
      (settleCall (fun event =>
        (createCall t (buildSyncedEventBody event pfx s)).map
          (fun created => (event, created.id))) e) =
      ((createdIdOf createCall s t pfx e).map (fun q => (e, q))).map
        (fun q => mkPendingInsert s t q.1 q.2) := by
    intro e
    cases hc : createCall t (buildSyncedEventBody e pfx s) with
    | ok c => simp [settleCall, insOf, createdIdOf, hc, Except.map]
    | error m => simp [settleCall, insOf, createdIdOf, hc, Except.map]
  have hupdFul : ∀ q, Settled.isFulfilled
      (settleCall (fun p =>
        (updateCall t p.2.secondary_event_id
            (buildSyncedEventBody p.1 pfx s)).map (fun _ => p)) q) =
      updateOk updateCall s t pfx q := by
    intro q
    cases hc : updateCall t q.2.secondary_event_id (buildSyncedEventBody q.1 pfx s) with
    | ok c => simp [settleCall, Settled.isFulfilled, updateOk, exceptOk, hc, Except.map]
    | error m => simp [settleCall, Settled.isFulfilled, updateOk, exceptOk, hc, Except.map]
  have hupdEnt : ∀ q, updOf
      (settleCall (fun p =>
        (updateCall t p.2.secondary_event_id
            (buildSyncedEventBody p.1 pfx s)).map (fun _ => p)) q) =
      (if updateOk updateCall s t pfx q then some q else none).map
        (fun p => mkPendingUpdate p.1 p.2) := by
    intro q
    cases hc : updateCall t q.2.secondary_event_id (buildSyncedEventBody q.1 pfx s) with
    | ok c => simp [settleCall, updOf, updateOk, exceptOk, hc, Except.map]
    | error m => simp [settleCall, updOf, updateOk, exceptOk, hc, Except.map]
  have e1 : List.countP Settled.isFulfilled
      (((analyzeEvents sourceEvents syncedRecords s t).toCreate).map
        (settleCall (fun event =>
          (createCall t (buildSyncedEventBody event pfx s)).map
            (fun created => (event, created.id))))) =
      List.countP (createOk createCall s t pfx)
        (analyzeEvents sourceEvents syncedRecords s t).toCreate := by
    rw [List.countP_map]
    exact List.countP_congr (fun e _ => by rw [Function.comp_apply, hcreateFul])
  have e2 : List.countP (fun r => !r.isFulfilled)
      (((analyzeEvents sourceEvents syncedRecords s t).toCreate).map
        (settleCall (fun event =>
          (createCall t (buildSyncedEventBody event pfx s)).map
            (fun created => (event, created.id))))) =
      List.countP (fun e => !createOk createCall s t pfx e)
        (analyzeEvents sourceEvents syncedRecords s t).toCreate := by
    rw [List.countP_map]
    exact List.countP_congr (fun e _ => by rw [Function.comp_apply, hcreateFul])
  have e3 : List.countP Settled.isFulfilled
      (((analyzeEvents sourceEvents syncedRecords s t).toUpdate).map
        (settleCall (fun p =>
          (updateCall t p.2.secondary_event_id
              (buildSyncedEventBody p.1 pfx s)).map (fun _ => p)))) =
      List.countP (updateOk updateCall s t pfx)
        (analyzeEvents sourceEvents syncedRecords s t).toUpdate := by
    rw [List.countP_map]
    exact List.countP_congr (fun q _ => by rw [Function.comp_apply, hupdFul])
  have e4 : List.countP (fun r => !r.isFulfilled)
      (((analyzeEvents sourceEvents syncedRecords s t).toUpdate).map
        (settleCall (fun p =>
          (updateCall t p.2.secondary_event_id
              (buildSyncedEventBody p.1 pfx s)).map (fun _ => p)))) =
      List.countP (fun q => !updateOk updateCall s t pfx q)
        (analyzeEvents sourceEvents syncedRecords s t).toUpdate := by
    rw [List.countP_map]
    exact List.countP_congr (fun q _ => by rw [Function.comp_apply, hupdFul])
  have e5 : List.filterMap (insOf s t)
      (((analyzeEvents sourceEvents syncedRecords s t).toCreate).map
        (settleCall (fun event =>
          (createCall t (buildSyncedEventBody event pfx s)).map
            (fun created => (event, created.id))))) =
      (successfulCreates createCall sourceEvents syncedRecords s t pfx).map
        (fun q => mkPendingInsert s t q.1 q.2) := by
    rw [List.filterMap_map]
    unfold successfulCreates
    rw [List.map_filterMap]
    exact List.filterMap_congr (fun e _ => by
      rw [Function.comp_apply, hcreateIns, Option.map_map])
  have e6 : List.filterMap updOf
      (((analyzeEvents sourceEvents syncedRecords s t).toUpdate).map
        (settleCall (fun p =>
          (updateCall t p.2.secondary_event_id
              (buildSyncedEventBody p.1 pfx s)).map (fun _ => p)))) =
      (successfulUpdates updateCall sourceEvents syncedRecords s t pfx).map
        (fun q => mkPendingUpdate q.1 q.2) := by
    rw [List.filterMap_map]
    unfold successfulUpdates
    rw [← filterMap_ite (updateOk updateCall s t pfx) (fun p => mkPendingUpdate p.1 p.2)]
    exact List.filterMap_congr (fun q _ => by
      rw [Function.comp_apply, hupdEnt]
      cases hh : updateOk updateCall s t pfx q <;> simp [hh])
  rw [e1, e2, e3, e4, e5, e6]
  simp only [Nat.zero_add]

/-- The pending delete one settled orphan-delete result contributes. -/
def delOf : Settled Nat SyncedEventRecord → Option PendingSheetDelete
  | .fulfilled record => some ⟨record.id⟩
  | .rejected _ => none

/-- Closed form of `detectAndDeleteOrphans`. -/
theorem detectAndDeleteOrphans_eq (deleteCall : String → String → Except Nat Unit)
    (eventsA eventsB : List GoogleCalendarEvent)
    (syncedRecords : List SyncedEventRecord) (calendarAId calendarBId : String) :
    detectAndDeleteOrphans deleteCall eventsA eventsB syncedRecords
        calendarAId calendarBId =
      some
        ⟨(orphanList eventsA eventsB syncedRecords calendarAId calendarBId).countP
            (orphanDeleteOk deleteCall),
          (orphanList eventsA eventsB syncedRecords calendarAId calendarBId).countP
            (fun r => !orphanDeleteOk deleteCall r),
          (successfulOrphans deleteCall eventsA eventsB syncedRecords
              calendarAId calendarBId).map (fun r => ⟨r.id⟩)⟩ := by
  unfold detectAndDeleteOrphans
  simp only [processInBatches_spec _ _ _ CONCURRENCY_pos]
  have hful : ∀ r, Settled.isFulfilled
      (settleCall (fun record =>
        (deleteEvent (deleteCall record.secondary_calendar record.secondary_event_id)).map
          (fun _ => record)) r) = orphanDeleteOk deleteCall r := by
    intro r
    cases hc : deleteEvent (deleteCall r.secondary_calendar r.secondary_event_id) with
    | ok c => simp [settleCall, Settled.isFulfilled, orphanDeleteOk, exceptOk, hc, Except.map]
    | error m => simp [settleCall, Settled.isFulfilled, orphanDeleteOk, exceptOk, hc, Except.map]
  have hdel : ∀ r, delOf
      (settleCall (fun record =>
        (deleteEvent (deleteCall record.secondary_calendar record.secondary_event_id)).map
          (fun _ => record)) r) =
      if orphanDeleteOk deleteCall r then some (⟨r.id⟩ : PendingSheetDelete) else none := by
    intro r
    cases hc : deleteEvent (deleteCall r.secondary_calendar r.secondary_event_id) with
    | ok c => simp [settleCall, delOf, orphanDeleteOk, exceptOk, hc, Except.map]
    | error m => simp [settleCall, delOf, orphanDeleteOk, exceptOk, hc, Except.map]
  have H : ∀ (results : List (Settled Nat SyncedEventRecord))
      (acc : OrphanDetectionResult),
      results.foldl
        (fun acc result =>
          match result with
          | .fulfilled record =>
              { acc with
                  deleted := acc.deleted + 1
                  pendingDeletes := acc.pendingDeletes ++ [⟨record.id⟩] }
          | .rejected _ => { acc with errors := acc.errors + 1 })
        acc =
      ⟨acc.deleted + results.countP Settled.isFulfilled,
        acc.errors + results.countP (fun r => !r.isFulfilled),
        acc.pendingDeletes ++ results.filterMap delOf⟩ := by
    intro results
    induction results with
    | nil => intro acc; simp [Settled.isFulfilled]
    | cons r rs ih =>
      intro acc
      cases r with
      | fulfilled v =>
        rw [List.foldl_cons, ih]
        simp [Settled.isFulfilled, delOf, List.countP_cons, Nat.add_comm,
          Nat.add_assoc, Nat.add_left_comm]
      | rejected m =>
        rw [List.foldl_cons, ih]
        simp [Settled.isFulfilled, delOf, List.countP_cons, Nat.add_comm,
          Nat.add_assoc, Nat.add_left_comm]
  rw [H]
  have e1 : List.countP Settled.isFulfilled
      ((orphanList eventsA eventsB syncedRecords calendarAId calendarBId).map
        (settleCall (fun record =>
          (deleteEvent (deleteCall record.secondary_calendar record.secondary_event_id)).map
            (fun _ => record)))) =
      List.countP (orphanDeleteOk deleteCall)
        (orphanList eventsA eventsB syncedRecords calendarAId calendarBId) := by
    rw [List.countP_map]
    exact List.countP_congr (fun r _ => by rw [Function.comp_apply, hful])
  have e2 : List.countP (fun r => !r.isFulfilled)
      ((orphanList eventsA eventsB syncedRecords calendarAId calendarBId).map
        (settleCall (fun record =>
          (deleteEvent (deleteCall record.secondary_calendar record.secondary_event_id)).map
            (fun _ => record)))) =
      List.countP (fun r => !orphanDeleteOk deleteCall r)
        (orphanList eventsA eventsB syncedRecords calendarAId calendarBId) := by
    rw [List.countP_map]
    exact List.countP_congr (fun r _ => by rw [Function.comp_apply, hful])
  have e3 : List.filterMap delOf
      ((orphanList eventsA eventsB syncedRecords calendarAId calendarBId).map
        (settleCall (fun record =>
          (deleteEvent (deleteCall record.secondary_calendar record.secondary_event_id)).map
            (fun _ => record)))) =
      (successfulOrphans deleteCall eventsA eventsB syncedRecords
          calendarAId calendarBId).map (fun r => (⟨r.id⟩ : PendingSheetDelete)) := by
    rw [List.filterMap_map]
    unfold successfulOrphans
    rw [← filterMap_ite (orphanDeleteOk deleteCall) (fun r => (⟨r.id⟩ : PendingSheetDelete))]
    exact List.filterMap_congr (fun r _ => by rw [Function.comp_apply, hdel])
  rw [e1, e2, e3]
  simp only [Nat.zero_add, List.nil_append]

/-! ### Inclusion of the sync tag in built descriptions -/

theorem leadsWith_self_append (p r : List Char) : leadsWith p (p ++ r) = true := by
  induction p with
  | nil => rfl
  | cons a q ih => simp [leadsWith, ih]

theorem inclAux_of_leadsWith {p l : List Char} (h : leadsWith p l = true) :
    inclAux p l = true := by
  cases l with
  | nil => simpa [inclAux] using h
  | cons c cs => simp [inclAux, h]

theorem inclAux_cons {p l : List Char} (c : Char) (h : inclAux p l = true) :
    inclAux p (c :: l) = true := by
  simp [inclAux, h]

theorem inclAux_append {p t : List Char} (s : List Char) (h : inclAux p t = true) :
    inclAux p (s ++ t) = true := by
  induction s with
  | nil => simpa using h
  | cons c cs ih => exact inclAux_cons c ih

theorem strIncludes_append_right {t pat : String} (s : String)
    (h : strIncludes t pat = true) : strIncludes (s ++ t) pat = true := by
  unfold strIncludes at h ⊢
  rw [String.data_append]
  exact inclAux_append s.data h

/-- The final part of every built description starts (after a newline) with
the sync tag. -/
theorem strIncludes_tagPart (pfx sourceCalendarId : String) :
    strIncludes ("\n" ++ SYNC_TAG ++ " " ++ pfx ++ " (" ++ sourceCalendarId ++ ")")
      SYNC_TAG = true := by
  unfold strIncludes
  simp only [String.data_append]
  rw [List.append_assoc "\n".data SYNC_TAG.data, List.append_assoc,
    List.append_assoc, List.append_assoc]
  exact inclAux_append "\n".data
    (inclAux_of_leadsWith (leadsWith_self_append SYNC_TAG.data _))

theorem strIncludes_joinParts_last (sep pat : String) (parts : List String)
    (tail : String) (h : strIncludes tail pat = true) :
    strIncludes (joinParts sep (parts ++ [tail])) pat = true := by
  induction parts with
  | nil => simpa [joinParts] using h
  | cons p rest ih =>
    cases rest with
    | nil =>
      show strIncludes (p ++ sep ++ tail) pat = true
      rw [String.append_assoc]
      exact strIncludes_append_right p (strIncludes_append_right sep h)
    | cons q l =>
      show strIncludes (p ++ sep ++ joinParts sep ((q :: l) ++ [tail])) pat = true
      rw [String.append_assoc]
      exact strIncludes_append_right p (strIncludes_append_right sep ih)

/-- Every description the engine builds carries the sync tag. -/
theorem buildSyncedDescription_tagged (event : GoogleCalendarEvent)
    (pfx sourceCalendarId : String) :
    strIncludes (buildSyncedDescription event pfx sourceCalendarId) SYNC_TAG = true := by
  unfold buildSyncedDescription
  dsimp only
  exact strIncludes_joinParts_last "\n" SYNC_TAG _ _
    (strIncludes_tagPart pfx sourceCalendarId)

/-- Every synced copy the engine writes is recognised by `isSyncedCopy` when
it is fetched back. -/
theorem eventFromBody_isSyncedCopy (event : GoogleCalendarEvent)
    (pfx sourceCalendarId newId : String) :
    isSyncedCopy (eventFromBody (buildSyncedEventBody event pfx sourceCalendarId) newId) = true := by
  show strIncludes (Option.getD (some (buildSyncedEventBody event pfx sourceCalendarId).description) "")
    SYNC_TAG = true
  show strIncludes (buildSyncedEventBody event pfx sourceCalendarId).description SYNC_TAG = true
  exact buildSyncedDescription_tagged event pfx sourceCalendarId

/-! ### Descending sort lemmas -/

theorem insertDesc_perm (x : Nat) (l : List Nat) :
    List.Perm (insertDesc x l) (x :: l) := by
  induction l with
  | nil => rfl
  | cons y ys ih =>
    by_cases h : y ≤ x
    · simp [insertDesc, h]
    · simp only [insertDesc, if_neg h]
      exact ((ih.cons y).trans (List.Perm.swap x y ys))

theorem insertDesc_sorted (x : Nat) (l : List Nat)
    (h : List.Sorted (· ≥ ·) l) : List.Sorted (· ≥ ·) (insertDesc x l) := by
  induction l with
  | nil => simp [insertDesc]
  | cons y ys ih =>
    rw [List.sorted_cons] at h
    by_cases hyx : y ≤ x
    · simp only [insertDesc, if_pos hyx]
      rw [List.sorted_cons]
      refine ⟨?_, ?_⟩
      · intro b hb
        rcases List.mem_cons.mp hb with rfl | hb
        · exact hyx
        · exact Nat.le_trans (h.1 b hb) hyx
      · rw [List.sorted_cons]
        exact h
    · simp only [insertDesc, if_neg hyx]
      rw [List.sorted_cons]
      refine ⟨?_, ih h.2⟩
      intro b hb
      have hb' : b ∈ x :: ys := (insertDesc_perm x ys).mem_iff.mp hb
      rcases List.mem_cons.mp hb' with rfl | hb'
      · exact Nat.le_of_not_le hyx
      · exact h.1 b hb'

theorem sortDesc_perm (l : List Nat) : List.Perm (sortDesc l) l := by
  induction l with
  | nil => rfl
  | cons x xs ih => exact (insertDesc_perm x (sortDesc xs)).trans (ih.cons x)

theorem sortDesc_sorted (l : List Nat) : List.Sorted (· ≥ ·) (sortDesc l) := by
  induction l with
  | nil => simp [sortDesc]
  | cons x xs ih => exact insertDesc_sorted x (sortDesc xs) ih

/-! ### Membership helpers for the analyzer -/

theorem updateEntry_eq_some {records : List SyncedEventRecord} {s t : String}
    {e : GoogleCalendarEvent} {p : GoogleCalendarEvent × SyncedEventRecord}
    (h : updateEntry records s t e = some p) :
    p.1 = e ∧ passesFilters t e = true ∧
      lookupRecord records (analyzerKey s e) = some p.2 ∧
      p.2.event_signature ≠ computeSignature e := by
  unfold updateEntry at h
  cases hf : passesFilters t e with
  | false => rw [hf] at h; simp at h
  | true =>
    rw [hf] at h
    simp only [if_true] at h
    cases hl : lookupRecord records (analyzerKey s e) with
    | none => rw [hl] at h; simp at h
    | some r =>
      rw [hl] at h
      dsimp only at h
      cases hs : (r.event_signature == computeSignature e) with
      | true => rw [hs] at h; simp at h
      | false =>
        rw [hs] at h
        simp only [Bool.false_eq_true, if_false, Option.some.injEq] at h
        subst h
        exact ⟨rfl, rfl, rfl, by simpa using hs⟩

theorem passesFilters_intro {t : String} {e : GoogleCalendarEvent}
    (hid : ¬(e.id = "")) (htag : isSyncedCopy e = false)
    (hatt : isTargetCalendarInAttendees e t = false) :
    passesFilters t e = true := by
  simp [passesFilters, htag, hatt, hid]

theorem passesFilters_not_marked {t : String} {e : GoogleCalendarEvent}
    (h : passesFilters t e = true) :
    isSyncedCopy e = false ∧ isTargetCalendarInAttendees e t = false ∧
      ¬(e.id = "") := by
  simp only [passesFilters, Bool.and_eq_true, Bool.not_eq_true'] at h
  refine ⟨h.1.2, h.2, ?_⟩
  have := h.1.1
  simpa using this

/-- An all-fields-empty event, used to build concrete examples. -/
def emptyEvent : GoogleCalendarEvent :=
  ⟨"", none, none, none, none, none, none, none, none, none⟩

/-! ## Claim C9 -/

/-- C9: `computeSignature` reads only summary, start, end, location,
transparency, conference link and description.  Two events agreeing on those
seven fields — attendees (and any server-managed field such as id or status)
arbitrary — have byte-equal signatures, so an attendee-only change never
triggers an update. -/
theorem computeSignature_attendee_independent (e₁ e₂ : GoogleCalendarEvent)
    (hsum : e₁.summary = e₂.summary) (hstart : e₁.start = e₂.start)
    (hstop : e₁.stop = e₂.stop) (hloc : e₁.location = e₂.location)
    (htrans : e₁.transparency = e₂.transparency)
    (hconf : e₁.hangoutLink = e₂.hangoutLink)
    (hdesc : e₁.description = e₂.description) :
    computeSignature e₁ = computeSignature e₂ := by
  simp [computeSignature, hsum, hstart, hstop, hloc, htrans, hconf, hdesc]

def c9PlainEvent : GoogleCalendarEvent :=
  { emptyEvent with id := "e1", summary := some "Standup" }

def c9AttendeeEvent : GoogleCalendarEvent :=
  { c9PlainEvent with
      attendees := some [⟨some "calendar-b@group.calendar.google.com", none, some false⟩] }

theorem computeSignature_attendee_independent_witness :
    c9PlainEvent.attendees ≠ c9AttendeeEvent.attendees ∧
      computeSignature c9PlainEvent = computeSignature c9AttendeeEvent :=
  ⟨by decide,
    computeSignature_attendee_independent c9PlainEvent c9AttendeeEvent
      rfl rfl rfl rfl rfl rfl rfl⟩

/-! ## Claim C10 -/

/-- C10 (spec-modelled, `sheets.ts` is not among the provided sources): the
batched row deletion issues a single request whose entries process the given
row ids in descending order — the entry list is the descending sort of the
input ids, which is a permutation of them — and on `[3, 7, 2]` the processing
order is `[7, 3, 2]`. -/
theorem batchDelete_descending (sheetId : Nat) (rowIds : List Nat)
    (h : rowIds ≠ []) :
    batchDeleteSyncedEventRows sheetId rowIds =
      some ((sortDesc rowIds).map (fun rowId => ⟨sheetId, rowId - 1, rowId⟩)) ∧
    List.Sorted (· ≥ ·) (sortDesc rowIds) ∧
    List.Perm (sortDesc rowIds) rowIds ∧
    sortDesc [3, 7, 2] = [7, 3, 2] := by
  refine ⟨?_, sortDesc_sorted rowIds, sortDesc_perm rowIds, by decide⟩
  unfold batchDeleteSyncedEventRows
  cases rowIds with
  | nil => exact absurd rfl h
  | cons x xs => rfl

theorem batchDelete_descending_witness :
    ([3, 7, 2] : List Nat) ≠ [] ∧
      (batchDeleteSyncedEventRows 4 [3, 7, 2] =
        some ((sortDesc [3, 7, 2]).map (fun rowId => ⟨4, rowId - 1, rowId⟩)) ∧
      List.Sorted (· ≥ ·) (sortDesc [3, 7, 2]) ∧
      List.Perm (sortDesc [3, 7, 2]) [3, 7, 2] ∧
      sortDesc [3, 7, 2] = [7, 3, 2]) :=
  ⟨by decide, batchDelete_descending 4 [3, 7, 2] (by decide)⟩

/-! ## Claim C4 -/

/-- C4 counterexample: the legacy orchestrator
(`google-calendar-sync/src/sync-core.ts`, cited by the claim) executes three
ledger-reading steps in one pass (`load-synced-records`,
`reload-synced-records`, `reload-synced-records-for-orphans`), so within that
pass the ledger is not loaded exactly once, and B→A and the orphan detector
run against re-read snapshots, not the original one. -/
theorem ledger_reload_legacy_counterexample :
    legacyPassSteps.count WorkflowStep.loadLedger = 3 := by decide

/-- C4 (amended): the optimized workflow (`src/unnamed/part_012`) loads the
ledger exactly once — in the step right after the two fetches and before
every sync/orphan step — and never re-reads it, so B→A and the orphan
detector run against that single snapshot; the legacy
`google-calendar-sync/src/sync-core.ts` variant instead re-reads the ledger
before B→A and again before orphan detection (three reads per pass). -/
theorem ledger_loaded_once_optimized :
    optimizedPassSteps.count WorkflowStep.loadLedger = 1 ∧
    (optimizedPassSteps.take 3).count WorkflowStep.loadLedger = 1 ∧
    (optimizedPassSteps.drop 3).count WorkflowStep.loadLedger = 0 ∧
    legacyPassSteps.count WorkflowStep.loadLedger = 3 := by decide

/-! ## Claim C8 -/

/-- C8 counterexample: the claim quantifies over every batch size, but with
batch size `0` the source loop (`for (i = 0; i < items.length; i += batchSize)`)
makes no progress and never returns a result list; the fuel-indexed embedding
returns `none` for every fuel (`processInBatchesGo_zero`), in particular at
the canonical fuel used by `processInBatches`, already on a one-item list. -/
theorem processInBatches_zero_batch_counterexample :
    processInBatches [(0 : Nat)] 0 (fun _ => (Except.ok 0 : Except Unit Nat)) = none :=
  processInBatchesGo_zero _ 0 [] 1 true

/-- C8 (amended): for every item list, every *positive* batch size and every
per-item operation, `processInBatches` partitions the items into consecutive
non-empty chunks of at most `batchSize` (their concatenation is the input),
executes the chunks in order with the fixed pacing delay before every chunk
but the first, collects every chunk member's settled outcome — success or
failure, never short-circuiting — and returns one result per input item in
input order. -/
theorem processInBatches_contract {τ ε ρ : Type} (items : List τ)
    (batchSize : Nat) (fn : τ → Except ε ρ) (hn : 0 < batchSize) :
    processInBatches items batchSize fn =
      some (items.map (settleCall fn), traceOfChunks (chunksOf batchSize items)) ∧
    (chunksOf batchSize items).flatten = items ∧
    (∀ c ∈ chunksOf batchSize items, c.length ≤ batchSize ∧ c ≠ []) ∧
    (items.map (settleCall fn)).length = items.length :=
  ⟨processInBatches_spec items batchSize fn hn,
    chunksOf_flatten batchSize hn items,
    chunksOf_mem batchSize hn items,
    List.length_map items (settleCall fn)⟩

theorem processInBatches_contract_witness :
    0 < 2 ∧
      (processInBatches [1, 2, 3] 2
          (fun n => if n == 2 then Except.error () else (Except.ok n : Except Unit Nat)) =
        some ([1, 2, 3].map (settleCall
            (fun n => if n == 2 then Except.error () else (Except.ok n : Except Unit Nat))),
          traceOfChunks (chunksOf 2 [1, 2, 3])) ∧
      (chunksOf 2 [1, 2, 3]).flatten = [1, 2, 3] ∧
      (∀ c ∈ chunksOf 2 [1, 2, 3], c.length ≤ 2 ∧ c ≠ []) ∧
      ([1, 2, 3].map (settleCall
          (fun n => if n == 2 then Except.error () else (Except.ok n : Except Unit Nat)))).length =
        [1, 2, 3].length) :=
  ⟨by decide,
    processInBatches_contract [1, 2, 3] 2
      (fun n => if n == 2 then Except.error () else (Except.ok n : Except Unit Nat))
      (by decide)⟩

/-! ## Claim C2 -/

def c2MarkedNoIdEvent : GoogleCalendarEvent :=
  { emptyEvent with description := some "🔄 SYNCED FROM: [B] (b)" }

/-- C2 counterexample: an event with an *empty* id whose description carries
the sync marker is dropped by the `if (!event.id) continue` check *before*
the duplicate filters run, so — although it is indeed never placed in
`toCreate`/`toUpdate` — it is *not* counted as `skippedDuplicate`, contrary
to the claim's "such events are counted as skippedDuplicate instead" for
every input. -/
theorem analyzer_marked_empty_id_counterexample :
    isSyncedCopy c2MarkedNoIdEvent = true ∧
    c2MarkedNoIdEvent.id = "" ∧
    (analyzeEvents [c2MarkedNoIdEvent] [] "cal-a" "cal-b").skippedDuplicate = 0 ∧
    (analyzeEvents [c2MarkedNoIdEvent] [] "cal-a" "cal-b").toCreate = [] ∧
    (analyzeEvents [c2MarkedNoIdEvent] [] "cal-a" "cal-b").toUpdate = [] := by
  decide

/-- C2 (amended): an event whose description contains the sync marker, or
whose attendee list contains the target calendar's identifier, is never
placed in `toCreate` or `toUpdate`; when additionally its id is non-empty
(empty-id events are dropped before the filters and counted nowhere), it is
counted in `skippedDuplicate`, which equals the number of non-empty-id
events satisfying either filter condition. -/
theorem analyzer_marked_events_skipped (events : List GoogleCalendarEvent)
    (records : List SyncedEventRecord) (s t : String) (e : GoogleCalendarEvent)
    (he : e ∈ events)
    (hmark : isSyncedCopy e = true ∨ isTargetCalendarInAttendees e t = true) :
    e ∉ (analyzeEvents events records s t).toCreate ∧
    (∀ r, (e, r) ∉ (analyzeEvents events records s t).toUpdate) ∧
    (analyzeEvents events records s t).skippedDuplicate =
      (events.filter (skipPred t)).length ∧
    (¬(e.id = "") → 0 < (analyzeEvents events records s t).skippedDuplicate) := by
  rw [analyzeEvents_eq]
  refine ⟨?_, ?_, rfl, ?_⟩
  · intro hmem
    have hc : createPred records s t e = true := (List.mem_filter.mp hmem).2
    have hp : passesFilters t e = true := by
      simp only [createPred, Bool.and_eq_true] at hc
      exact hc.1
    rcases passesFilters_not_marked hp with ⟨h1, h2, _⟩
    rcases hmark with hm | hm
    · rw [hm] at h1; exact absurd h1 (by simp)
    · rw [hm] at h2; exact absurd h2 (by simp)
  · intro r hmem
    rcases List.mem_filterMap.mp hmem with ⟨a, _, ha⟩
    rcases updateEntry_eq_some ha with ⟨ha1, hp, _, _⟩
    have hae : e = a := by simpa using ha1
    subst hae
    rcases passesFilters_not_marked hp with ⟨h1, h2, _⟩
    rcases hmark with hm | hm
    · rw [hm] at h1; exact absurd h1 (by simp)
    · rw [hm] at h2; exact absurd h2 (by simp)
  · intro hid
    have hsp : skipPred t e = true := by
      rcases hmark with hm | hm <;> simp [skipPred, hid, hm]
    have hmemf : e ∈ events.filter (skipPred t) := List.mem_filter.mpr ⟨he, hsp⟩
    exact List.length_pos.mpr (List.ne_nil_of_mem hmemf)

def c2MarkedEvent : GoogleCalendarEvent :=
  { emptyEvent with id := "m1", description := some "🔄 SYNCED FROM: [B] (b)" }

theorem analyzer_marked_events_skipped_witness :
    (c2MarkedEvent ∈ [c2MarkedEvent] ∧
      (isSyncedCopy c2MarkedEvent = true ∨
        isTargetCalendarInAttendees c2MarkedEvent "cal-b" = true)) ∧
    (c2MarkedEvent ∉ (analyzeEvents [c2MarkedEvent] [] "cal-a" "cal-b").toCreate ∧
      (∀ r, (c2MarkedEvent, r) ∉ (analyzeEvents [c2MarkedEvent] [] "cal-a" "cal-b").toUpdate) ∧
      (analyzeEvents [c2MarkedEvent] [] "cal-a" "cal-b").skippedDuplicate =
        ([c2MarkedEvent].filter (skipPred "cal-b")).length ∧
      (¬(c2MarkedEvent.id = "") →
        0 < (analyzeEvents [c2MarkedEvent] [] "cal-a" "cal-b").skippedDuplicate)) :=
  ⟨⟨List.mem_singleton.mpr rfl, Or.inl (by decide)⟩,
    analyzer_marked_events_skipped [c2MarkedEvent] [] "cal-a" "cal-b" c2MarkedEvent
      (List.mem_singleton.mpr rfl) (Or.inl (by decide))⟩

/-! ## Claim C3 -/

def c3Event : GoogleCalendarEvent := { emptyEvent with id := "a:b" }

def c3Record : SyncedEventRecord :=
  ⟨2, "b:c", "a", "cal-x", "ev-y", "", "", "", "zzz", "", "", ""⟩

/-- C3 counterexample: the analyzer keys its map on the *string*
`event.id + ":" + sourceCalendarId`, not on the pair.  For the event with id
`"a:b"` analyzed under source calendar `"c"`, no ledger record keyed by the
pair `("c", "a:b")` exists, so the claim requires the event to be appended to
`toCreate`; but the record `(primary_calendar = "b:c", primary_event_id = "a")`
has the same concatenated key `"a:b:c"`, so the code instead pairs the event
with that record in `toUpdate`. -/
theorem analyzer_pair_key_counterexample :
    ([c3Record].filter
      (fun r => r.primary_calendar == "c" && r.primary_event_id == "a:b")) = [] ∧
    passesFilters "cal-t" c3Event = true ∧
    (analyzeEvents [c3Event] [c3Record] "c" "cal-t").toCreate = [] ∧
    (analyzeEvents [c3Event] [c3Record] "c" "cal-t").toUpdate =
      [(c3Event, c3Record)] := by
  decide

/-- C3 (amended): for every source event with a non-empty id that passes the
Duplicate Filter, the analyzer classifies it by ledger lookup keyed on the
concatenated string `event.id ++ ":" ++ sourceCalendarId`, the record loaded
last winning when several records share that key (this coincides with
pair-keying on `(sourceCalendarId, event.id)` whenever ids and calendar ids
are colon-free and keys are unique): no record under the key → the event is
appended to `toCreate`; a record with a differing signature → appended to
`toUpdate` paired with that record; a record with an equal signature →
counted as unchanged.  Exactly one of the three outcomes occurs. -/
theorem analyzer_ledger_classification (events : List GoogleCalendarEvent)
    (records : List SyncedEventRecord) (s t : String) (e : GoogleCalendarEvent)
    (he : e ∈ events) (hid : ¬(e.id = "")) (htag : isSyncedCopy e = false)
    (hatt : isTargetCalendarInAttendees e t = false) :
    (lookupRecord records (analyzerKey s e) = none →
      e ∈ (analyzeEvents events records s t).toCreate ∧
      (∀ r, (e, r) ∉ (analyzeEvents events records s t).toUpdate) ∧
      unchangedPred records s t e = false) ∧
    (∀ r, lookupRecord records (analyzerKey s e) = some r →
      ¬(r.event_signature = computeSignature e) →
      (e, r) ∈ (analyzeEvents events records s t).toUpdate ∧
      e ∉ (analyzeEvents events records s t).toCreate ∧
      unchangedPred records s t e = false) ∧
    (∀ r, lookupRecord records (analyzerKey s e) = some r →
      r.event_signature = computeSignature e →
      e ∉ (analyzeEvents events records s t).toCreate ∧
      (∀ r', (e, r') ∉ (analyzeEvents events records s t).toUpdate) ∧
      unchangedPred records s t e = true ∧
      0 < (analyzeEvents events records s t).unchanged) := by
  have hp : passesFilters t e = true := passesFilters_intro hid htag hatt
  rw [analyzeEvents_eq]
  refine ⟨?_, ?_, ?_⟩
  · intro hnone
    refine ⟨?_, ?_, ?_⟩
    · exact List.mem_filter.mpr ⟨he, by simp [createPred, hp, hnone]⟩
    · intro r hmem
      rcases List.mem_filterMap.mp hmem with ⟨a, _, ha⟩
      rcases updateEntry_eq_some ha with ⟨ha1, _, hl, _⟩
      have hae : e = a := by simpa using ha1
      subst hae
      rw [hnone] at hl
      simp at hl
    · simp [unchangedPred, hnone]
  · intro r hsome hsig
    refine ⟨?_, ?_, ?_⟩
    · refine List.mem_filterMap.mpr ⟨e, he, ?_⟩
      unfold updateEntry
      rw [if_pos hp, hsome]
      dsimp only
      rw [if_neg (by simpa using hsig)]
    · intro hmem
      have hc : createPred records s t e = true := (List.mem_filter.mp hmem).2
      simp only [createPred, Bool.and_eq_true] at hc
      rw [hsome] at hc
      simp at hc
    · simp [unchangedPred, hsome, hsig]
  · intro r hsome hsig
    have hunch : unchangedPred records s t e = true := by
      simp [unchangedPred, hp, hsome, hsig]
    refine ⟨?_, ?_, hunch, ?_⟩
    · intro hmem
      have hc : createPred records s t e = true := (List.mem_filter.mp hmem).2
      simp only [createPred, Bool.and_eq_true] at hc
      rw [hsome] at hc
      simp at hc
    · intro r' hmem
      rcases List.mem_filterMap.mp hmem with ⟨a, _, ha⟩
      rcases updateEntry_eq_some ha with ⟨ha1, _, hl, hne⟩
      have hae : e = a := by simpa using ha1
      subst hae
      rw [hsome] at hl
      have : (e, r').2 = r := by simpa using hl.symm
      exact hne (by rw [this, hsig])
    · have hmemf : e ∈ events.filter (unchangedPred records s t) :=
        List.mem_filter.mpr ⟨he, hunch⟩
      exact List.length_pos.mpr (List.ne_nil_of_mem hmemf)

def c3NormalEvent : GoogleCalendarEvent :=
  { emptyEvent with id := "e9", summary := some "Planning" }

def c3TrackedRecord : SyncedEventRecord :=
  ⟨2, "cal-a", "e9", "cal-b", "copy-9", "Planning", "", "", "old-signature", "", "", ""⟩

theorem analyzer_ledger_classification_witness :
    (c3NormalEvent ∈ [c3NormalEvent] ∧ ¬(c3NormalEvent.id = "") ∧
      isSyncedCopy c3NormalEvent = false ∧
      isTargetCalendarInAttendees c3NormalEvent "cal-b" = false) ∧
    ((lookupRecord [c3TrackedRecord] (analyzerKey "cal-a" c3NormalEvent) = none →
      c3NormalEvent ∈ (analyzeEvents [c3NormalEvent] [c3TrackedRecord] "cal-a" "cal-b").toCreate ∧
      (∀ r, (c3NormalEvent, r) ∉ (analyzeEvents [c3NormalEvent] [c3TrackedRecord] "cal-a" "cal-b").toUpdate) ∧
      unchangedPred [c3TrackedRecord] "cal-a" "cal-b" c3NormalEvent = false) ∧
    (∀ r, lookupRecord [c3TrackedRecord] (analyzerKey "cal-a" c3NormalEvent) = some r →
      ¬(r.event_signature = computeSignature c3NormalEvent) →
      (c3NormalEvent, r) ∈ (analyzeEvents [c3NormalEvent] [c3TrackedRecord] "cal-a" "cal-b").toUpdate ∧
      c3NormalEvent ∉ (analyzeEvents [c3NormalEvent] [c3TrackedRecord] "cal-a" "cal-b").toCreate ∧
      unchangedPred [c3TrackedRecord] "cal-a" "cal-b" c3NormalEvent = false) ∧
    (∀ r, lookupRecord [c3TrackedRecord] (analyzerKey "cal-a" c3NormalEvent) = some r →
      r.event_signature = computeSignature c3NormalEvent →
      c3NormalEvent ∉ (analyzeEvents [c3NormalEvent] [c3TrackedRecord] "cal-a" "cal-b").toCreate ∧
      (∀ r', (c3NormalEvent, r') ∉ (analyzeEvents [c3NormalEvent] [c3TrackedRecord] "cal-a" "cal-b").toUpdate) ∧
      unchangedPred [c3TrackedRecord] "cal-a" "cal-b" c3NormalEvent = true ∧
      0 < (analyzeEvents [c3NormalEvent] [c3TrackedRecord] "cal-a" "cal-b").unchanged)) :=
  ⟨⟨List.mem_singleton.mpr rfl, by decide, by decide, by decide⟩,
    analyzer_ledger_classification [c3NormalEvent] [c3TrackedRecord] "cal-a" "cal-b"
      c3NormalEvent (List.mem_singleton.mpr rfl) (by decide) (by decide) (by decide)⟩

/-! ## Claim C5 -/

theorem length_filterMap_countP {α β : Type} (f : α → Option β) (l : List α) :
    (l.filterMap f).length = l.countP (fun a => (f a).isSome) := by
  induction l with
  | nil => rfl
  | cons a l ih =>
    cases hf : f a with
    | none => simp [List.filterMap_cons, hf, List.countP_cons, ih]
    | some b => simp [List.filterMap_cons, hf, List.countP_cons, ih]

theorem countP_ok_eq_sub {α : Type} (p : α → Bool) (l : List α) :
    l.countP p = l.length - l.countP (fun a => !p a) := by
  have h := List.length_eq_countP_add_countP p l
  have h2 : l.countP (fun a => decide ¬(p a = true)) = l.countP (fun a => !p a) :=
    List.countP_congr (fun a _ => by cases p a <;> simp)
  omega

/-- C5: when the workload handed to the Direction Syncer is a list of N
create operations (no pending updates) of which exactly K fail, the syncer
returns: exactly N−K pending ledger inserts — precisely the inserts of the
successful items, each carrying its own created id, in order — stats counting
exactly N−K creates and K errors, and no update/delete activity.  Each
item's outcome is its own create call's outcome, so a failing item neither
blocks nor reverts any sibling's success. -/
theorem syncDirection_partial_failure_isolation
    (createCall : String → EventBody → Except String GoogleCalendarEvent)
    (updateCall : String → String → EventBody → Except String Unit)
    (sourceEvents : List GoogleCalendarEvent)
    (records : List SyncedEventRecord) (s t pfx : String)
    (hupd : (analyzeEvents sourceEvents records s t).toUpdate = []) :
    syncDirection createCall updateCall sourceEvents records s t pfx =
      some
        ⟨⟨(analyzeEvents sourceEvents records s t).toCreate.length -
            (analyzeEvents sourceEvents records s t).toCreate.countP
              (fun e => !createOk createCall s t pfx e),
          0, 0,
          (analyzeEvents sourceEvents records s t).toCreate.countP
            (fun e => !createOk createCall s t pfx e)⟩,
        (successfulCreates createCall sourceEvents records s t pfx).map
          (fun q => mkPendingInsert s t q.1 q.2),
        []⟩ ∧
    (successfulCreates createCall sourceEvents records s t pfx).length =
      (analyzeEvents sourceEvents records s t).toCreate.length -
        (analyzeEvents sourceEvents records s t).toCreate.countP
          (fun e => !createOk createCall s t pfx e) := by
  have hlen : (successfulCreates createCall sourceEvents records s t pfx).length =
      (analyzeEvents sourceEvents records s t).toCreate.countP
        (createOk createCall s t pfx) := by
    unfold successfulCreates
    rw [length_filterMap_countP]
    exact List.countP_congr (fun e _ => by
      cases hc : createCall t (buildSyncedEventBody e pfx s) with
      | ok c => simp [createdIdOf, createOk, exceptOk, hc]
      | error m => simp [createdIdOf, createOk, exceptOk, hc])
  have hsub := countP_ok_eq_sub (createOk createCall s t pfx)
    (analyzeEvents sourceEvents records s t).toCreate
  constructor
  · rw [syncDirection_eq]
    rw [hupd]
    simp only [List.countP_nil, Nat.add_zero, List.filter_nil]
    rw [hsub]
    have : successfulUpdates updateCall sourceEvents records s t pfx = [] := by
      unfold successfulUpdates
      rw [hupd]
      rfl
    rw [this]
    rfl
  · rw [hlen, hsub]

def c5EventOk : GoogleCalendarEvent :=
  { emptyEvent with id := "c-ok", summary := some "fine" }

def c5EventBad : GoogleCalendarEvent :=
  { emptyEvent with id := "c-bad", summary := some "broken" }

/-- A create oracle that fails exactly on the body built from `c5EventBad`. -/
def c5CreateCall (_cal : String) (body : EventBody) :
    Except String GoogleCalendarEvent :=
  if body.summary = "[A] broken" then .error "quota"
  else .ok { emptyEvent with id := "copy-1" }

def c5UpdateCall (_cal _eventId : String) (_body : EventBody) :
    Except String Unit := .ok ()

theorem syncDirection_partial_failure_isolation_witness :
    (analyzeEvents [c5EventOk, c5EventBad] [] "cal-a" "cal-b").toUpdate = [] ∧
    (syncDirection c5CreateCall c5UpdateCall [c5EventOk, c5EventBad] [] "cal-a" "cal-b" "[A]" =
      some
        ⟨⟨(analyzeEvents [c5EventOk, c5EventBad] [] "cal-a" "cal-b").toCreate.length -
            (analyzeEvents [c5EventOk, c5EventBad] [] "cal-a" "cal-b").toCreate.countP
              (fun e => !createOk c5CreateCall "cal-a" "cal-b" "[A]" e),
          0, 0,
          (analyzeEvents [c5EventOk, c5EventBad] [] "cal-a" "cal-b").toCreate.countP
            (fun e => !createOk c5CreateCall "cal-a" "cal-b" "[A]" e)⟩,
        (successfulCreates c5CreateCall [c5EventOk, c5EventBad] [] "cal-a" "cal-b" "[A]").map
          (fun q => mkPendingInsert "cal-a" "cal-b" q.1 q.2),
        []⟩ ∧
    (successfulCreates c5CreateCall [c5EventOk, c5EventBad] [] "cal-a" "cal-b" "[A]").length =
      (analyzeEvents [c5EventOk, c5EventBad] [] "cal-a" "cal-b").toCreate.length -
        (analyzeEvents [c5EventOk, c5EventBad] [] "cal-a" "cal-b").toCreate.countP
          (fun e => !createOk c5CreateCall "cal-a" "cal-b" "[A]" e)) :=
  ⟨by decide,
    syncDirection_partial_failure_isolation c5CreateCall c5UpdateCall
      [c5EventOk, c5EventBad] [] "cal-a" "cal-b" "[A]" (by decide)⟩

/-! ## Claim C6 -/

/-- C6: a ledger record is classified as an orphan iff its primary calendar
matches one of the two configured calendars and that calendar's currently
fetched id-set does not contain its primary event id; the detector attempts a
secondary-calendar delete for exactly the orphans (each orphan appears
exactly once in the batched deletion work, which concatenates back to the
orphan list); and a pending ledger row delete is produced exactly for the
orphans whose calendar-side delete succeeded — a thrown 410 (already gone)
counting as success — never before the calendar-side outcome. -/
theorem orphan_detector_contract (deleteCall : String → String → Except Nat Unit)
    (eventsA eventsB : List GoogleCalendarEvent)
    (records : List SyncedEventRecord) (calA calB : String) :
    (∀ r, r ∈ orphanList eventsA eventsB records calA calB ↔
      r ∈ records ∧
        ((r.primary_calendar = calA ∧ ¬ r.primary_event_id ∈ eventsA.map (·.id)) ∨
         (¬ r.primary_calendar = calA ∧ r.primary_calendar = calB ∧
           ¬ r.primary_event_id ∈ eventsB.map (·.id)) ∨
         (r.primary_calendar = calA ∧ r.primary_calendar = calB ∧
           ¬ r.primary_event_id ∈ eventsB.map (·.id)))) ∧
    attemptedOrphanDeletes eventsA eventsB records calA calB =
      (orphanList eventsA eventsB records calA calB).map
        (fun r => (r.secondary_calendar, r.secondary_event_id)) ∧
    (chunksOf CONCURRENCY (orphanList eventsA eventsB records calA calB)).flatten =
      orphanList eventsA eventsB records calA calB ∧
    detectAndDeleteOrphans deleteCall eventsA eventsB records calA calB =
      some
        ⟨(orphanList eventsA eventsB records calA calB).countP
            (orphanDeleteOk deleteCall),
          (orphanList eventsA eventsB records calA calB).countP
            (fun r => !orphanDeleteOk deleteCall r),
          (successfulOrphans deleteCall eventsA eventsB records calA calB).map
            (fun r => ⟨r.id⟩)⟩ ∧
    successfulOrphans deleteCall eventsA eventsB records calA calB =
      (orphanList eventsA eventsB records calA calB).filter
        (orphanDeleteOk deleteCall) ∧
    (∀ r : SyncedEventRecord,
      deleteCall r.secondary_calendar r.secondary_event_id = Except.error 410 →
      orphanDeleteOk deleteCall r = true) := by
  refine ⟨?_, rfl, chunksOf_flatten CONCURRENCY CONCURRENCY_pos _,
    detectAndDeleteOrphans_eq deleteCall eventsA eventsB records calA calB,
    rfl, ?_⟩
  · intro r
    rw [orphanList, List.mem_filter]
    constructor
    · rintro ⟨hmem, hcond⟩
      refine ⟨hmem, ?_⟩
      unfold isOrphanRecord at hcond
      by_cases h1 : (r.primary_calendar == calA &&
          !((eventsA.map (·.id)).contains r.primary_event_id)) = true
      · left
        simp only [Bool.and_eq_true, beq_iff_eq, Bool.not_eq_true'] at h1
        refine ⟨h1.1, ?_⟩
        intro hm
        have := h1.2
        simp [hm] at this
      · rw [if_neg h1] at hcond
        by_cases h2 : (r.primary_calendar == calB &&
            !((eventsB.map (·.id)).contains r.primary_event_id)) = true
        · simp only [Bool.and_eq_true, beq_iff_eq, Bool.not_eq_true'] at h2
          have hnb : ¬ r.primary_event_id ∈ eventsB.map (·.id) := by
            intro hm
            have := h2.2
            simp [hm] at this
          by_cases hA : r.primary_calendar = calA
          · right; right; exact ⟨hA, h2.1, hnb⟩
          · right; left; exact ⟨hA, h2.1, hnb⟩
        · rw [if_neg h2] at hcond
          simp at hcond
    · rintro ⟨hmem, hcond⟩
      refine ⟨hmem, ?_⟩
      unfold isOrphanRecord
      rcases hcond with ⟨hA, hnm⟩ | ⟨_, hB, hnm⟩ | ⟨_, hB, hnm⟩
      · rw [if_pos]
        simp only [Bool.and_eq_true, beq_iff_eq, Bool.not_eq_true']
        refine ⟨hA, ?_⟩
        simpa using hnm
      all_goals {
        by_cases h1 : (r.primary_calendar == calA &&
            !((eventsA.map (·.id)).contains r.primary_event_id)) = true
        · rw [if_pos h1]
        · rw [if_neg h1, if_pos]
          simp only [Bool.and_eq_true, beq_iff_eq, Bool.not_eq_true']
          refine ⟨hB, ?_⟩
          simpa using hnm
      }
  · intro r h410
    unfold orphanDeleteOk deleteEvent
    rw [h410]
    rfl

/-! ## Claim C7 -/

/-- C7: when Calendar A's fetch step fails, the pass substitutes the empty
event set for A (`fetchedOrEmpty (.rejected reason) = []`), and consequently
the orphan detector classifies *every* ledger record whose primary calendar
is A as an orphan — its id-set check runs against the empty set — so for
every such record a delete of its secondary event on its secondary calendar
is attempted, and when that delete succeeds (or is accepted as already gone)
the record's ledger row is scheduled for deletion, even though the primary
event may still exist on the unfetched calendar. -/
theorem fetch_failure_orphan_cascade (cfg : SyncConfig) (api : CalendarApi)
    (reason : String) (fetchBResult : Settled String (List GoogleCalendarEvent))
    (records : List SyncedEventRecord) (out : PassResult)
    (hrun : syncGoogleCalendarsWorkflow cfg api (.rejected reason) fetchBResult
      records = some out) :
    fetchedOrEmpty (.rejected reason) = ([] : List GoogleCalendarEvent) ∧
    ∀ r ∈ records, r.primary_calendar = cfg.calendarAId →
      r ∈ orphanList [] (fetchedOrEmpty fetchBResult) records
          cfg.calendarAId cfg.calendarBId ∧
      (r.secondary_calendar, r.secondary_event_id) ∈
        attemptedOrphanDeletes [] (fetchedOrEmpty fetchBResult) records
          cfg.calendarAId cfg.calendarBId ∧
      (orphanDeleteOk api.deleteCall r = true →
        (⟨r.id⟩ : PendingSheetDelete) ∈ out.orphan.pendingDeletes) := by
  refine ⟨rfl, ?_⟩
  intro r hmem hprim
  have horph : r ∈ orphanList [] (fetchedOrEmpty fetchBResult) records
      cfg.calendarAId cfg.calendarBId := by
    refine List.mem_filter.mpr ⟨hmem, ?_⟩
    unfold isOrphanRecord
    rw [if_pos]
    simp [hprim]
  refine ⟨horph, List.mem_map_of_mem _ horph, ?_⟩
  intro hok
  have hout : out.orphan =
      ⟨(orphanList [] (fetchedOrEmpty fetchBResult) records
          cfg.calendarAId cfg.calendarBId).countP (orphanDeleteOk api.deleteCall),
        (orphanList [] (fetchedOrEmpty fetchBResult) records
          cfg.calendarAId cfg.calendarBId).countP
          (fun q => !orphanDeleteOk api.deleteCall q),
        (successfulOrphans api.deleteCall [] (fetchedOrEmpty fetchBResult) records
          cfg.calendarAId cfg.calendarBId).map (fun q => ⟨q.id⟩)⟩ := by
    unfold syncGoogleCalendarsWorkflow at hrun
    rw [show fetchedOrEmpty (.rejected reason) = ([] : List GoogleCalendarEvent) from rfl]
      at hrun
    simp only [syncDirection_eq, detectAndDeleteOrphans_eq] at hrun
    have := Option.some.inj hrun
    rw [← this]
  rw [hout]
  have hsucc : r ∈ successfulOrphans api.deleteCall [] (fetchedOrEmpty fetchBResult)
      records cfg.calendarAId cfg.calendarBId :=
    List.mem_filter.mpr ⟨horph, hok⟩
  exact List.mem_map_of_mem _ hsucc

def c7Record : SyncedEventRecord :=
  ⟨2, "cal-a", "still-there", "cal-b", "copy-0", "", "", "", "sig", "", "", ""⟩

def c7Api : CalendarApi :=
  { createCall := fun _ _ => .ok emptyEvent
    updateCall := fun _ _ _ => .ok ()
    deleteCall := fun _ _ => .ok () }

def c7Cfg : SyncConfig := ⟨"cal-a", "cal-b", "[A]", "[B]"⟩

theorem fetch_failure_orphan_cascade_witness :
    syncGoogleCalendarsWorkflow c7Cfg c7Api (.rejected "boom") (.fulfilled [])
        [c7Record] =
      some
        ⟨⟨⟨0, 0, 0, 0⟩, [], []⟩, ⟨⟨0, 0, 0, 0⟩, [], []⟩, ⟨1, 0, [⟨2⟩]⟩⟩ ∧
    (fetchedOrEmpty (.rejected "boom") = ([] : List GoogleCalendarEvent) ∧
      ∀ r ∈ [c7Record], r.primary_calendar = c7Cfg.calendarAId →
        r ∈ orphanList [] (fetchedOrEmpty (.fulfilled [])) [c7Record]
            c7Cfg.calendarAId c7Cfg.calendarBId ∧
        (r.secondary_calendar, r.secondary_event_id) ∈
          attemptedOrphanDeletes [] (fetchedOrEmpty (.fulfilled [])) [c7Record]
            c7Cfg.calendarAId c7Cfg.calendarBId ∧
        (orphanDeleteOk c7Api.deleteCall r = true →
          (⟨r.id⟩ : PendingSheetDelete) ∈
            (⟨⟨⟨0, 0, 0, 0⟩, [], []⟩, ⟨⟨0, 0, 0, 0⟩, [], []⟩,
              ⟨1, 0, [⟨2⟩]⟩⟩ : PassResult).orphan.pendingDeletes)) :=
  ⟨by decide,
    fetch_failure_orphan_cascade c7Cfg c7Api "boom" (.fulfilled []) [c7Record]
      ⟨⟨⟨0, 0, 0, 0⟩, [], []⟩, ⟨⟨0, 0, 0, 0⟩, [], []⟩, ⟨1, 0, [⟨2⟩]⟩⟩ (by decide)⟩

/-! ## Supporting lemmas for the idempotence claim -/

theorem find?_unique {α : Type} {p : α → Bool} {l : List α} {x : α}
    (hx : x ∈ l) (hpx : p x = true)
    (huniq : ∀ y ∈ l, p y = true → y = x) : l.find? p = some x := by
  induction l with
  | nil => simp at hx
  | cons a as ih =>
    rcases List.mem_cons.mp hx with rfl | hx'
    · rw [List.find?_cons_of_pos _ hpx]
    · cases hpa : p a with
      | true =>
        have : a = x := huniq a (List.mem_cons_self a as) hpa
        subst this
        rw [List.find?_cons_of_pos _ hpa]
      | false =>
        rw [List.find?_cons_of_neg _ (by simp [hpa])]
        exact ih hx' (fun y hy hpy => huniq y (List.mem_cons_of_mem a hy) hpy)

theorem lookupRecord_cons (q : SyncedEventRecord) (qs : List SyncedEventRecord)
    (key : String) :
    lookupRecord (q :: qs) key =
      match lookupRecord qs key with
      | some x => some x
      | none => if recordKey q == key then some q else none := by
  show qs.foldl (fun acc record => if recordKey record == key then some record else acc)
      (if recordKey q == key then some q else none) = _
  rw [lookupRecord_foldl_init]

theorem lookupRecord_reindexFrom (l : List SyncedEventRecord) (key : String) :
    ∀ n : Nat,
      (lookupRecord (reindexFrom n l) key).map (fun r => r.event_signature) =
        (lookupRecord l key).map (fun r => r.event_signature) := by
  induction l with
  | nil => intro n; rfl
  | cons r rs ih =>
    intro n
    show (lookupRecord ({ r with id := n } :: reindexFrom (n + 1) rs) key).map _ = _
    rw [lookupRecord_cons, lookupRecord_cons]
    cases hl : lookupRecord (reindexFrom (n + 1) rs) key with
    | some x =>
      have := ih (n + 1)
      rw [hl] at this
      cases hl' : lookupRecord rs key with
      | some y =>
        rw [hl'] at this
        simpa using this
      | none => rw [hl'] at this; simp at this
    | none =>
      have := ih (n + 1)
      rw [hl] at this
      cases hl' : lookupRecord rs key with
      | some y => rw [hl'] at this; simp at this
      | none =>
        have hkeys : recordKey { r with id := n } = recordKey r := rfl
        rw [hkeys]
        cases hk : (recordKey r == key) with
        | true => simp
        | false => simp

theorem lookupRecord_reindexFrom_none (l : List SyncedEventRecord) (key : String)
    (n : Nat) (h : lookupRecord l key = none) :
    lookupRecord (reindexFrom n l) key = none := by
  have := lookupRecord_reindexFrom l key n
  rw [h] at this
  simpa using this

theorem lookupRecord_filter_map_key {l : List SyncedEventRecord}
    {f : SyncedEventRecord → SyncedEventRecord}
    {p : SyncedEventRecord → Bool} {key : String}
    (hkey : ∀ r ∈ l, recordKey (f r) = recordKey r)
    (hkeep : ∀ r ∈ l, recordKey r = key → p (f r) = true) :
    lookupRecord ((l.map f).filter p) key = (lookupRecord l key).map f := by
  induction l with
  | nil => rfl
  | cons r rs ih =>
    have hkey' : ∀ q ∈ rs, recordKey (f q) = recordKey q :=
      fun q hq => hkey q (List.mem_cons_of_mem r hq)
    have hkeep' : ∀ q ∈ rs, recordKey q = key → p (f q) = true :=
      fun q hq => hkeep q (List.mem_cons_of_mem r hq)
    rw [List.map_cons]
    rw [lookupRecord_cons]
    cases hp : p (f r) with
    | true =>
      rw [List.filter_cons_of_pos hp, lookupRecord_cons, ih hkey' hkeep']
      cases hl : lookupRecord rs key with
      | some x => rfl
      | none =>
        rw [hkey r (List.mem_cons_self r rs)]
        cases hk : (recordKey r == key) with
        | true => simp
        | false => simp
    | false =>
      rw [List.filter_cons_of_neg (by simp [hp]), ih hkey' hkeep']
      cases hl : lookupRecord rs key with
      | some x => rfl
      | none =>
        cases hk : (recordKey r == key) with
        | true =>
          exact absurd (hkeep r (List.mem_cons_self r rs) (by simpa using hk))
            (by simp [hp])
        | false => simp

theorem lookupRecord_eq_some_of_unique {l : List SyncedEventRecord}
    {r : SyncedEventRecord} {key : String} (hr : r ∈ l) (hk : recordKey r = key)
    (huniq : ∀ q ∈ l, recordKey q = key → q = r) :
    lookupRecord l key = some r := by
  induction l with
  | nil => simp at hr
  | cons a as ih =>
    rw [lookupRecord_cons]
    cases hl : lookupRecord as key with
    | some x =>
      rcases lookupRecord_mem as key x hl with ⟨hxmem, hxkey⟩
      rw [huniq x (List.mem_cons_of_mem a hxmem) hxkey]
    | none =>
      rcases List.mem_cons.mp hr with rfl | hr'
      · rw [if_pos (by simpa using hk)]
      · exact absurd hl (by
          rw [ih hr' (fun q hq hqk => huniq q (List.mem_cons_of_mem a hq) hqk)]
          simp)

/-! Colon-separated keys decompose uniquely when the first component is
colon-free. -/

theorem colon_list_inj : ∀ (x z y w : List Char), ¬ ':' ∈ x → ¬ ':' ∈ z →
    x ++ ':' :: y = z ++ ':' :: w → x = z ∧ y = w := by
  intro x
  induction x with
  | nil =>
    intro z y w _ hz h
    cases z with
    | nil => simpa using h
    | cons c cs =>
      simp only [List.nil_append, List.cons_append, List.cons.injEq] at h
      exact absurd (h.1 ▸ List.mem_cons_self c cs) (h.1 ▸ hz)
  | cons a as ih =>
    intro z y w hx hz h
    cases z with
    | nil =>
      simp only [List.nil_append, List.cons_append, List.cons.injEq] at h
      exact absurd (h.1 ▸ List.mem_cons_self a as) (fun hm => hx (h.1 ▸ hm))
    | cons c cs =>
      simp only [List.cons_append, List.cons.injEq] at h
      obtain ⟨rfl, h2⟩ := h
      have hx' : ¬ ':' ∈ as := fun hm => hx (List.mem_cons_of_mem a hm)
      have hz' : ¬ ':' ∈ cs := fun hm => hz (List.mem_cons_of_mem a hm)
      obtain ⟨rfl, rfl⟩ := ih cs y w hx' hz' h2
      exact ⟨rfl, rfl⟩

theorem string_data_inj {a b : String} (h : a.data = b.data) : a = b := by
  cases a
  cases b
  exact congrArg String.mk h

theorem colon_key_inj {a b c d : String} (ha : colonFree a = true)
    (hc : colonFree c = true) (h : a ++ ":" ++ b = c ++ ":" ++ d) :
    a = c ∧ b = d := by
  have hdata : a.data ++ ':' :: b.data = c.data ++ ':' :: d.data := by
    have := congrArg String.data h
    simpa [String.data_append] using this
  have ha' : ¬ ':' ∈ a.data := by
    simp only [colonFree, Bool.not_eq_true'] at ha
    intro hm
    simp [hm] at ha
  have hc' : ¬ ':' ∈ c.data := by
    simp only [colonFree, Bool.not_eq_true'] at hc
    intro hm
    simp [hm] at hc
  obtain ⟨h1, h2⟩ := colon_list_inj a.data c.data b.data d.data ha' hc' hdata
  exact ⟨string_data_inj h1, string_data_inj h2⟩

theorem colon_key_congr {a b c d : String} (h1 : a = c) (h2 : b = d) :
    a ++ ":" ++ b = c ++ ":" ++ d := by rw [h1, h2]

/-! Per-event effect of the world-evolution helpers. -/

theorem contentAfterUpdates_id (updPairs : List (GoogleCalendarEvent × SyncedEventRecord))
    (sourceCalendarId pfx : String) (event : GoogleCalendarEvent) :
    (contentAfterUpdates updPairs sourceCalendarId pfx event).id = event.id := by
  unfold contentAfterUpdates
  cases h : updPairs.reverse.find? (fun p => p.2.secondary_event_id == event.id) with
  | none => rfl
  | some p => rfl

theorem contentAfterUpdates_cases (updPairs : List (GoogleCalendarEvent × SyncedEventRecord))
    (sourceCalendarId pfx : String) (event : GoogleCalendarEvent) :
    contentAfterUpdates updPairs sourceCalendarId pfx event = event ∨
      isSyncedCopy (contentAfterUpdates updPairs sourceCalendarId pfx event) = true := by
  unfold contentAfterUpdates
  cases h : updPairs.reverse.find? (fun p => p.2.secondary_event_id == event.id) with
  | none => exact Or.inl rfl
  | some p => exact Or.inr (eventFromBody_isSyncedCopy p.1 pfx sourceCalendarId event.id)

theorem applyRowUpdates_eq_self {upds : List PendingSheetUpdate}
    {record : SyncedEventRecord} (h : ∀ u ∈ upds, ¬(u.rowId = record.id)) :
    applyRowUpdates upds record = record := by
  unfold applyRowUpdates
  rw [List.find?_eq_none.mpr]
  intro u hu
  simp only [beq_iff_eq]
  exact h u (List.mem_reverse.mp hu)

theorem applyRowUpdates_eq_update {upds : List PendingSheetUpdate}
    {record : SyncedEventRecord} {u : PendingSheetUpdate}
    (hu : u ∈ upds) (hid : u.rowId = record.id)
    (huniq : ∀ v ∈ upds, v.rowId = record.id → v = u) :
    applyRowUpdates upds record = recordOfUpdate u := by
  unfold applyRowUpdates
  rw [find?_unique (List.mem_reverse.mpr hu) (by simpa using hid)
    (fun v hv hpv => huniq v (List.mem_reverse.mp hv) (by simpa using hpv))]

theorem reindexFrom_mem {l : List SyncedEventRecord} {r' : SyncedEventRecord} :
    ∀ {n : Nat}, r' ∈ reindexFrom n l → ∃ r ∈ l, r' = { r with id := r'.id } := by
  induction l with
  | nil => intro n h; simp [reindexFrom] at h
  | cons q qs ih =>
    intro n h
    rcases List.mem_cons.mp h with rfl | h'
    · exact ⟨q, List.mem_cons_self q qs, rfl⟩
    · rcases ih h' with ⟨r, hr, hr'⟩
      exact ⟨r, List.mem_cons_of_mem q hr, hr'⟩

/-! ### Named pieces of the post-pass ledger -/

/-- All pending row rewrites of the pass (A→B then B→A, as batched). -/
def passUpdates (cfg : SyncConfig) (api : CalendarApi)
    (eventsA eventsB : List GoogleCalendarEvent)
    (ledger : List SyncedEventRecord) : List PendingSheetUpdate :=
  (successfulUpdates api.updateCall eventsA ledger cfg.calendarAId cfg.calendarBId
      cfg.prefA).map (fun p => mkPendingUpdate p.1 p.2) ++
    (successfulUpdates api.updateCall eventsB ledger cfg.calendarBId cfg.calendarAId
      cfg.prefB).map (fun p => mkPendingUpdate p.1 p.2)

/-- The rows appended for the A→B direction's successful creates. -/
def passInsAB (cfg : SyncConfig) (api : CalendarApi)
    (eventsA : List GoogleCalendarEvent)
    (ledger : List SyncedEventRecord) : List SyncedEventRecord :=
  (successfulCreates api.createCall eventsA ledger cfg.calendarAId cfg.calendarBId
    cfg.prefA).map
    (fun p => recordOfInsert (mkPendingInsert cfg.calendarAId cfg.calendarBId p.1 p.2))

/-- The rows appended for the B→A direction's successful creates. -/
def passInsBA (cfg : SyncConfig) (api : CalendarApi)
    (eventsB : List GoogleCalendarEvent)
    (ledger : List SyncedEventRecord) : List SyncedEventRecord :=
  (successfulCreates api.createCall eventsB ledger cfg.calendarBId cfg.calendarAId
    cfg.prefB).map
    (fun p => recordOfInsert (mkPendingInsert cfg.calendarBId cfg.calendarAId p.1 p.2))

/-- The row ids scheduled for deletion. -/
def passDelIds (cfg : SyncConfig) (api : CalendarApi)
    (eventsA eventsB : List GoogleCalendarEvent)
    (ledger : List SyncedEventRecord) : List Nat :=
  (successfulOrphans api.deleteCall eventsA eventsB ledger cfg.calendarAId
    cfg.calendarBId).map (·.id)

/-- The original rows that survive the pass, with their rewrites applied. -/
def passKept (cfg : SyncConfig) (api : CalendarApi)
    (eventsA eventsB : List GoogleCalendarEvent)
    (ledger : List SyncedEventRecord) : List SyncedEventRecord :=
  (ledger.map (applyRowUpdates (passUpdates cfg api eventsA eventsB ledger))).filter
    (fun r => !((passDelIds cfg api eventsA eventsB ledger).contains r.id))

theorem afterLedger_eq (cfg : SyncConfig) (api : CalendarApi)
    (eventsA eventsB : List GoogleCalendarEvent)
    (ledger : List SyncedEventRecord) :
    afterLedger cfg api eventsA eventsB ledger =
      reindexFrom 2
        (passKept cfg api eventsA eventsB ledger ++
          passInsAB cfg api eventsA ledger ++ passInsBA cfg api eventsB ledger) := rfl

/-- The ids of the events the pass deleted from calendar A. -/
def passDeadA (cfg : SyncConfig) (api : CalendarApi)
    (eventsA eventsB : List GoogleCalendarEvent)
    (ledger : List SyncedEventRecord) : List String :=
  ((successfulOrphans api.deleteCall eventsA eventsB ledger cfg.calendarAId
      cfg.calendarBId).filter
    (fun r => r.secondary_calendar == cfg.calendarAId)).map (·.secondary_event_id)

/-- The ids of the events the pass deleted from calendar B. -/
def passDeadB (cfg : SyncConfig) (api : CalendarApi)
    (eventsA eventsB : List GoogleCalendarEvent)
    (ledger : List SyncedEventRecord) : List String :=
  ((successfulOrphans api.deleteCall eventsA eventsB ledger cfg.calendarAId
      cfg.calendarBId).filter
    (fun r => r.secondary_calendar == cfg.calendarBId)).map (·.secondary_event_id)

theorem afterEventsA_eq (cfg : SyncConfig) (api : CalendarApi)
    (eventsA eventsB : List GoogleCalendarEvent)
    (ledger : List SyncedEventRecord) :
    afterEventsA cfg api eventsA eventsB ledger =
      (eventsA.filter
          (fun e => !((passDeadA cfg api eventsA eventsB ledger).contains e.id))).map
        (contentAfterUpdates
          (successfulUpdates api.updateCall eventsB ledger cfg.calendarBId
            cfg.calendarAId cfg.prefB) cfg.calendarBId cfg.prefB) ++
      (successfulCreates api.createCall eventsB ledger cfg.calendarBId
        cfg.calendarAId cfg.prefB).map
        (fun p => eventFromBody
          (buildSyncedEventBody p.1 cfg.prefB cfg.calendarBId) p.2) := rfl

theorem afterEventsB_eq (cfg : SyncConfig) (api : CalendarApi)
    (eventsA eventsB : List GoogleCalendarEvent)
    (ledger : List SyncedEventRecord) :
    afterEventsB cfg api eventsA eventsB ledger =
      (eventsB.filter
          (fun e => !((passDeadB cfg api eventsA eventsB ledger).contains e.id))).map
        (contentAfterUpdates
          (successfulUpdates api.updateCall eventsA ledger cfg.calendarAId
            cfg.calendarBId cfg.prefA) cfg.calendarAId cfg.prefA) ++
      (successfulCreates api.createCall eventsA ledger cfg.calendarAId
        cfg.calendarBId cfg.prefA).map
        (fun p => eventFromBody
          (buildSyncedEventBody p.1 cfg.prefA cfg.calendarAId) p.2) := rfl

/-! ### Membership specifications -/

theorem toCreate_mem_iff {events : List GoogleCalendarEvent}
    {records : List SyncedEventRecord} {s t : String} {e : GoogleCalendarEvent} :
    e ∈ (analyzeEvents events records s t).toCreate ↔
      e ∈ events ∧ createPred records s t e = true := by
  rw [analyzeEvents_eq]
  exact List.mem_filter

theorem toUpdate_mem_spec {events : List GoogleCalendarEvent}
    {records : List SyncedEventRecord} {s t : String}
    {p : GoogleCalendarEvent × SyncedEventRecord}
    (h : p ∈ (analyzeEvents events records s t).toUpdate) :
    p.1 ∈ events ∧ passesFilters t p.1 = true ∧
      lookupRecord records (analyzerKey s p.1) = some p.2 ∧
      p.2 ∈ records ∧ recordKey p.2 = analyzerKey s p.1 ∧
      p.2.event_signature ≠ computeSignature p.1 ∧
      updateEntry records s t p.1 = some p := by
  rw [analyzeEvents_eq] at h
  rcases List.mem_filterMap.mp h with ⟨a, hamem, ha⟩
  rcases updateEntry_eq_some ha with ⟨h1, h2, h3, h4⟩
  have hae : a = p.1 := h1.symm
  subst hae
  rcases lookupRecord_mem records (analyzerKey s p.1) p.2 h3 with ⟨hm, hk⟩
  exact ⟨hamem, h2, h3, hm, hk, h4, ha⟩

theorem updateEntry_of_parts {records : List SyncedEventRecord} {s t : String}
    {e : GoogleCalendarEvent} {r : SyncedEventRecord}
    (hp : passesFilters t e = true)
    (hl : lookupRecord records (analyzerKey s e) = some r)
    (hs : ¬(r.event_signature = computeSignature e)) :
    updateEntry records s t e = some (e, r) := by
  unfold updateEntry
  rw [if_pos hp, hl]
  dsimp only
  rw [if_neg (by simpa using hs)]

theorem toUpdate_mem_of_parts {events : List GoogleCalendarEvent}
    {records : List SyncedEventRecord} {s t : String}
    {e : GoogleCalendarEvent} {r : SyncedEventRecord} (he : e ∈ events)
    (hp : passesFilters t e = true)
    (hl : lookupRecord records (analyzerKey s e) = some r)
    (hs : ¬(r.event_signature = computeSignature e)) :
    (e, r) ∈ (analyzeEvents events records s t).toUpdate := by
  rw [analyzeEvents_eq]
  exact List.mem_filterMap.mpr ⟨e, he, updateEntry_of_parts hp hl hs⟩

/-- Injectivity of non-empty event ids over a well-formed fetch. -/
theorem event_id_inj {events : List GoogleCalendarEvent}
    (hnodup : ((events.filter (fun e => e.id ≠ "")).map (·.id)).Nodup)
    {a b : GoogleCalendarEvent} (ha : a ∈ events) (hb : b ∈ events)
    (hne : ¬(a.id = "")) (hid : a.id = b.id) : a = b := by
  have ha' : a ∈ events.filter (fun e => e.id ≠ "") :=
    List.mem_filter.mpr ⟨ha, by simpa using hne⟩
  have hb' : b ∈ events.filter (fun e => e.id ≠ "") :=
    List.mem_filter.mpr ⟨hb, by simp [← hid]; exact hne⟩
  exact List.inj_on_of_nodup_map hnodup ha' hb' hid

/-- Every pending row rewrite of the pass comes from a `toUpdate` pair of one
of the two directions, whose record is a ledger row. -/
theorem passUpdates_mem {cfg : SyncConfig} {api : CalendarApi}
    {eventsA eventsB : List GoogleCalendarEvent} {ledger : List SyncedEventRecord}
    {u : PendingSheetUpdate}
    (hu : u ∈ passUpdates cfg api eventsA eventsB ledger) :
    ∃ p : GoogleCalendarEvent × SyncedEventRecord,
      u = mkPendingUpdate p.1 p.2 ∧ p.2 ∈ ledger ∧
      ((p ∈ (analyzeEvents eventsA ledger cfg.calendarAId cfg.calendarBId).toUpdate ∧
          recordKey p.2 = analyzerKey cfg.calendarAId p.1 ∧ p.1 ∈ eventsA ∧
          passesFilters cfg.calendarBId p.1 = true ∧
          lookupRecord ledger (analyzerKey cfg.calendarAId p.1) = some p.2 ∧
          ¬(p.2.event_signature = computeSignature p.1)) ∨
        (p ∈ (analyzeEvents eventsB ledger cfg.calendarBId cfg.calendarAId).toUpdate ∧
          recordKey p.2 = analyzerKey cfg.calendarBId p.1 ∧ p.1 ∈ eventsB ∧
          passesFilters cfg.calendarAId p.1 = true ∧
          lookupRecord ledger (analyzerKey cfg.calendarBId p.1) = some p.2 ∧
          ¬(p.2.event_signature = computeSignature p.1))) := by
  rcases List.mem_append.mp hu with h | h
  · rcases List.mem_map.mp h with ⟨p, hp, rfl⟩
    have hp' := List.mem_filter.mp hp
    rcases toUpdate_mem_spec hp'.1 with ⟨h1, h2, h3, h4, h5, h6, _⟩
    exact ⟨p, rfl, h4, Or.inl ⟨hp'.1, h5, h1, h2, h3, h6⟩⟩
  · rcases List.mem_map.mp h with ⟨p, hp, rfl⟩
    have hp' := List.mem_filter.mp hp
    rcases toUpdate_mem_spec hp'.1 with ⟨h1, h2, h3, h4, h5, h6, _⟩
    exact ⟨p, rfl, h4, Or.inr ⟨hp'.1, h5, h1, h2, h3, h6⟩⟩

theorem applyRowUpdates_id_preserved (upds : List PendingSheetUpdate)
    (record : SyncedEventRecord) :
    (applyRowUpdates upds record).id = record.id := by
  unfold applyRowUpdates
  cases h : upds.reverse.find? (fun u => u.rowId == record.id) with
  | none => rfl
  | some u =>
    have := List.find?_some h
    simp only [beq_iff_eq] at this
    exact this

/-- Under unique row ids, a row rewrite preserves the row's primary key
fields (the matched update came from a pair whose record is that very row). -/
theorem applyRowUpdates_primary_preserved {cfg : SyncConfig} {api : CalendarApi}
    {eventsA eventsB : List GoogleCalendarEvent} {ledger : List SyncedEventRecord}
    (hnodup : (ledger.map (·.id)).Nodup)
    {r : SyncedEventRecord} (hr : r ∈ ledger) :
    (applyRowUpdates (passUpdates cfg api eventsA eventsB ledger) r).primary_calendar =
        r.primary_calendar ∧
      (applyRowUpdates (passUpdates cfg api eventsA eventsB ledger) r).primary_event_id =
        r.primary_event_id := by
  unfold applyRowUpdates
  cases h : (passUpdates cfg api eventsA eventsB ledger).reverse.find?
      (fun u => u.rowId == r.id) with
  | none => exact ⟨rfl, rfl⟩
  | some u =>
    have hpred := List.find?_some h
    simp only [beq_iff_eq] at hpred
    have humem : u ∈ passUpdates cfg api eventsA eventsB ledger :=
      List.mem_reverse.mp (List.mem_of_find?_eq_some h)
    rcases passUpdates_mem humem with ⟨p, rfl, hmem, _⟩
    have : p.2 = r := List.inj_on_of_nodup_map hnodup hmem hr hpred
    subst this
    exact ⟨rfl, rfl⟩

theorem recordKey_of_fields {r : SyncedEventRecord} {e : String} {c : String}
    (h1 : r.primary_event_id = e) (h2 : r.primary_calendar = c) :
    recordKey r = e ++ ":" ++ c := by
  unfold recordKey
  rw [h1, h2]

/-! ### Classification helpers for the second pass -/

theorem classification_of_tagged {records : List SyncedEventRecord} {s t : String}
    {e : GoogleCalendarEvent} (h : isSyncedCopy e = true) :
    createPred records s t e = false ∧ updateEntry records s t e = none := by
  constructor
  · simp [createPred, passesFilters, h]
  · simp [updateEntry, passesFilters, h]

theorem classification_of_empty_id {records : List SyncedEventRecord} {s t : String}
    {e : GoogleCalendarEvent} (h : e.id = "") :
    createPred records s t e = false ∧ updateEntry records s t e = none := by
  constructor
  · simp [createPred, passesFilters, h]
  · simp [updateEntry, passesFilters, h]

theorem classification_of_attendee {records : List SyncedEventRecord} {s t : String}
    {e : GoogleCalendarEvent} (h : isTargetCalendarInAttendees e t = true) :
    createPred records s t e = false ∧ updateEntry records s t e = none := by
  constructor
  · simp [createPred, passesFilters, h]
  · simp [updateEntry, passesFilters, h]

theorem classification_of_matching_sig {records : List SyncedEventRecord}
    {s t : String} {e : GoogleCalendarEvent}
    (h : (lookupRecord records (analyzerKey s e)).map (fun r => r.event_signature) =
      some (computeSignature e)) :
    createPred records s t e = false ∧ updateEntry records s t e = none := by
  cases hl : lookupRecord records (analyzerKey s e) with
  | none => rw [hl] at h; simp at h
  | some r =>
    rw [hl] at h
    simp only [Option.map_some', Option.some.injEq] at h
    constructor
    · simp [createPred, hl]
    · unfold updateEntry
      by_cases hp : passesFilters t e = true
      · rw [if_pos hp, hl]
        dsimp only
        rw [if_pos (by simpa using h)]
      · rw [if_neg hp]

theorem lookupRecord_append_none {l₁ l₂ : List SyncedEventRecord} {k : String}
    (h : lookupRecord l₂ k = none) :
    lookupRecord (l₁ ++ l₂) k = lookupRecord l₁ k := by
  rw [lookupRecord_append, h]

theorem lookupRecord_append_some {l₁ l₂ : List SyncedEventRecord} {k : String}
    {r : SyncedEventRecord} (h : lookupRecord l₂ k = some r) :
    lookupRecord (l₁ ++ l₂) k = some r := by
  rw [lookupRecord_append, h]

theorem successfulCreates_mem_spec
    {c : String → EventBody → Except String GoogleCalendarEvent}
    {ev : List GoogleCalendarEvent} {led : List SyncedEventRecord}
    {s t pfx : String} {p : GoogleCalendarEvent × String}
    (h : p ∈ successfulCreates c ev led s t pfx) :
    p.1 ∈ (analyzeEvents ev led s t).toCreate ∧
      createdIdOf c s t pfx p.1 = some p.2 := by
  unfold successfulCreates at h
  rcases List.mem_filterMap.mp h with ⟨x, hx, hxp⟩
  cases hc : createdIdOf c s t pfx x with
  | none => rw [hc] at hxp; simp at hxp
  | some cid =>
    rw [hc] at hxp
    simp only [Option.map_some', Option.some.injEq] at hxp
    rw [← hxp]
    exact ⟨hx, hc⟩

theorem successfulCreates_mem_of
    {c : String → EventBody → Except String GoogleCalendarEvent}
    {ev : List GoogleCalendarEvent} {led : List SyncedEventRecord}
    {s t pfx : String} {e : GoogleCalendarEvent} {cid : String}
    (he : e ∈ (analyzeEvents ev led s t).toCreate)
    (hc : createdIdOf c s t pfx e = some cid) :
    (e, cid) ∈ successfulCreates c ev led s t pfx :=
  List.mem_filterMap.mpr ⟨e, he, by rw [hc]; rfl⟩

theorem createdIdOf_isSome_of_ok
    {c : String → EventBody → Except String GoogleCalendarEvent}
    {s t pfx : String} {e : GoogleCalendarEvent}
    (h : createOk c s t pfx e = true) :
    ∃ cid, createdIdOf c s t pfx e = some cid := by
  unfold createOk exceptOk at h
  cases hc : c t (buildSyncedEventBody e pfx s) with
  | ok created => exact ⟨created.id, by unfold createdIdOf; rw [hc]⟩
  | error m => rw [hc] at h; simp at h

/-! ### Key lemmas for the surviving-ledger lookup (direction A→B) -/

theorem lookup_passInsBA_none_at_A (cfg : SyncConfig) (api : CalendarApi)
    (eventsA eventsB : List GoogleCalendarEvent) (ledger : List SyncedEventRecord)
    (hwf : WellFormedPass cfg eventsA eventsB ledger)
    {a : GoogleCalendarEvent} (ha : a ∈ eventsA) :
    lookupRecord (passInsBA cfg api eventsB ledger)
      (analyzerKey cfg.calendarAId a) = none := by
  rw [lookupRecord_eq_none_iff]
  intro q hq
  rcases List.mem_map.mp hq with ⟨p, hp, rfl⟩
  rcases successfulCreates_mem_spec hp with ⟨hpc, _⟩
  have hp1 : p.1 ∈ eventsB := (toCreate_mem_iff.mp hpc).1
  intro hkeyeq
  have : p.1.id = a.id ∧ cfg.calendarBId = cfg.calendarAId :=
    colon_key_inj (hwf.idsBFree p.1 hp1) (hwf.idsAFree a ha) hkeyeq
  exact hwf.calNe this.2.symm

theorem lookup_passInsAB_none_at_B (cfg : SyncConfig) (api : CalendarApi)
    (eventsA eventsB : List GoogleCalendarEvent) (ledger : List SyncedEventRecord)
    (hwf : WellFormedPass cfg eventsA eventsB ledger)
    {b : GoogleCalendarEvent} (hb : b ∈ eventsB) :
    lookupRecord (passInsAB cfg api eventsA ledger)
      (analyzerKey cfg.calendarBId b) = none := by
  rw [lookupRecord_eq_none_iff]
  intro q hq
  rcases List.mem_map.mp hq with ⟨p, hp, rfl⟩
  rcases successfulCreates_mem_spec hp with ⟨hpc, _⟩
  have hp1 : p.1 ∈ eventsA := (toCreate_mem_iff.mp hpc).1
  intro hkeyeq
  have : p.1.id = b.id ∧ cfg.calendarAId = cfg.calendarBId :=
    colon_key_inj (hwf.idsAFree p.1 hp1) (hwf.idsBFree b hb) hkeyeq
  exact hwf.calNe this.2

/-- A ledger row whose key names a currently fetched event of calendar A is
never scheduled for deletion. -/
theorem key_matching_row_kept_A (cfg : SyncConfig) (api : CalendarApi)
    (eventsA eventsB : List GoogleCalendarEvent) (ledger : List SyncedEventRecord)
    (hwf : WellFormedPass cfg eventsA eventsB ledger)
    {a : GoogleCalendarEvent} (ha : a ∈ eventsA)
    {r : SyncedEventRecord} (hr : r ∈ ledger)
    (hkeyr : recordKey r = analyzerKey cfg.calendarAId a) :
    (passDelIds cfg api eventsA eventsB ledger).contains r.id = false := by
  have hfields : r.primary_event_id = a.id ∧ r.primary_calendar = cfg.calendarAId :=
    colon_key_inj (hwf.recPrimFree r hr).1 (hwf.idsAFree a ha) hkeyr
  by_contra hcon
  have hcon' : (passDelIds cfg api eventsA eventsB ledger).contains r.id = true := by
    cases h : (passDelIds cfg api eventsA eventsB ledger).contains r.id with
    | true => rfl
    | false => exact absurd h hcon
  have hmemid : r.id ∈ passDelIds cfg api eventsA eventsB ledger := by
    simpa using hcon'
  rcases List.mem_map.mp hmemid with ⟨o, ho, hoid⟩
  have ho' : o ∈ orphanList eventsA eventsB ledger cfg.calendarAId cfg.calendarBId :=
    (List.mem_filter.mp ho).1
  have hol := List.mem_filter.mp ho'
  have hor : o = r :=
    List.inj_on_of_nodup_map hwf.rowIdsNodup hol.1 hr hoid
  subst hor
  have horph : isOrphanRecord (eventsA.map (·.id)) (eventsB.map (·.id))
      cfg.calendarAId cfg.calendarBId o = true := hol.2
  unfold isOrphanRecord at horph
  rw [if_neg, if_neg] at horph
  · exact absurd horph (by simp)
  · rw [hfields.2]
    intro hand
    have := (Bool.and_eq_true _ _).mp hand
    have hca : cfg.calendarAId = cfg.calendarBId := by simpa using this.1
    exact hwf.calNe hca
  · rw [hfields.1, hfields.2]
    intro hand
    have := (Bool.and_eq_true _ _).mp hand
    have hmem : a.id ∈ eventsA.map (·.id) := List.mem_map_of_mem _ ha
    have := this.2
    simp [hmem] at this

/-- Symmetric statement for calendar B. -/
theorem key_matching_row_kept_B (cfg : SyncConfig) (api : CalendarApi)
    (eventsA eventsB : List GoogleCalendarEvent) (ledger : List SyncedEventRecord)
    (hwf : WellFormedPass cfg eventsA eventsB ledger)
    {b : GoogleCalendarEvent} (hb : b ∈ eventsB)
    {r : SyncedEventRecord} (hr : r ∈ ledger)
    (hkeyr : recordKey r = analyzerKey cfg.calendarBId b) :
    (passDelIds cfg api eventsA eventsB ledger).contains r.id = false := by
  have hfields : r.primary_event_id = b.id ∧ r.primary_calendar = cfg.calendarBId :=
    colon_key_inj (hwf.recPrimFree r hr).1 (hwf.idsBFree b hb) hkeyr
  by_contra hcon
  have hcon' : (passDelIds cfg api eventsA eventsB ledger).contains r.id = true := by
    cases h : (passDelIds cfg api eventsA eventsB ledger).contains r.id with
    | true => rfl
    | false => exact absurd h hcon
  have hmemid : r.id ∈ passDelIds cfg api eventsA eventsB ledger := by
    simpa using hcon'
  rcases List.mem_map.mp hmemid with ⟨o, ho, hoid⟩
  have ho' : o ∈ orphanList eventsA eventsB ledger cfg.calendarAId cfg.calendarBId :=
    (List.mem_filter.mp ho).1
  have hol := List.mem_filter.mp ho'
  have hor : o = r :=
    List.inj_on_of_nodup_map hwf.rowIdsNodup hol.1 hr hoid
  subst hor
  have horph : isOrphanRecord (eventsA.map (·.id)) (eventsB.map (·.id))
      cfg.calendarAId cfg.calendarBId o = true := hol.2
  unfold isOrphanRecord at horph
  rw [if_neg, if_neg] at horph
  · exact absurd horph (by simp)
  · rw [hfields.1, hfields.2]
    intro hand
    have := (Bool.and_eq_true _ _).mp hand
    have hmem : b.id ∈ eventsB.map (·.id) := List.mem_map_of_mem _ hb
    have := this.2
    simp [hmem] at this
  · rw [hfields.2]
    intro hand
    have := (Bool.and_eq_true _ _).mp hand
    have hcb : cfg.calendarBId = cfg.calendarAId := by simpa using this.1
    exact hwf.calNe hcb.symm

theorem passUpdates_recordKey_preserved {cfg : SyncConfig} {api : CalendarApi}
    {eventsA eventsB : List GoogleCalendarEvent} {ledger : List SyncedEventRecord}
    (hnodup : (ledger.map (·.id)).Nodup)
    {r : SyncedEventRecord} (hr : r ∈ ledger) :
    recordKey (applyRowUpdates (passUpdates cfg api eventsA eventsB ledger) r) =
      recordKey r := by
  rcases @applyRowUpdates_primary_preserved cfg api eventsA eventsB _ hnodup _ hr with ⟨h1, h2⟩
  unfold recordKey
  rw [h1, h2]

/-- Any pending row rewrite targeting the row a passing event `a` of
calendar A resolves to is the rewrite of the pair `(a, r)`, and its
existence implies the pair differed in signature. -/
theorem passUpdates_match_spec_A (cfg : SyncConfig) (api : CalendarApi)
    (eventsA eventsB : List GoogleCalendarEvent) (ledger : List SyncedEventRecord)
    (hwf : WellFormedPass cfg eventsA eventsB ledger)
    {a : GoogleCalendarEvent} (ha : a ∈ eventsA) (hidne : ¬(a.id = ""))
    {r : SyncedEventRecord} (hr : r ∈ ledger)
    (hkeyr : recordKey r = analyzerKey cfg.calendarAId a)
    {v : PendingSheetUpdate}
    (hv : v ∈ passUpdates cfg api eventsA eventsB ledger)
    (hrow : v.rowId = r.id) :
    v = mkPendingUpdate a r ∧ ¬(r.event_signature = computeSignature a) := by
  rcases passUpdates_mem hv with ⟨p, rfl, hpled, hcase⟩
  have hp2 : p.2 = r := by
    have : (mkPendingUpdate p.1 p.2).rowId = p.2.id := rfl
    rw [this] at hrow
    exact List.inj_on_of_nodup_map hwf.rowIdsNodup hpled hr hrow
  subst hp2
  rcases hcase with ⟨_, hkey2, hp1mem, hp1f, _, hsigne⟩ | ⟨_, hkey2, hp1mem, _, _, _⟩
  · rw [hkeyr] at hkey2
    have hkey2' : p.1.id ++ ":" ++ cfg.calendarAId = a.id ++ ":" ++ cfg.calendarAId := by
      simpa [analyzerKey] using hkey2.symm
    have hids : p.1.id = a.id ∧ cfg.calendarAId = cfg.calendarAId :=
      colon_key_inj (hwf.idsAFree p.1 hp1mem) (hwf.idsAFree a ha) hkey2'
    have hp1a : p.1 = a := event_id_inj hwf.idsANodup hp1mem ha
      (by
        rcases passesFilters_not_marked hp1f with ⟨_, _, h⟩
        exact h) hids.1
    subst hp1a
    exact ⟨rfl, hsigne⟩
  · rw [hkeyr] at hkey2
    have hkey2' : p.1.id ++ ":" ++ cfg.calendarBId = a.id ++ ":" ++ cfg.calendarAId := by
      simpa [analyzerKey] using hkey2.symm
    have hids : p.1.id = a.id ∧ cfg.calendarBId = cfg.calendarAId :=
      colon_key_inj (hwf.idsBFree p.1 hp1mem) (hwf.idsAFree a ha) hkey2'
    exact absurd hids.2.symm hwf.calNe

/-- Symmetric statement for a passing event of calendar B. -/
theorem passUpdates_match_spec_B (cfg : SyncConfig) (api : CalendarApi)
    (eventsA eventsB : List GoogleCalendarEvent) (ledger : List SyncedEventRecord)
    (hwf : WellFormedPass cfg eventsA eventsB ledger)
    {b : GoogleCalendarEvent} (hb : b ∈ eventsB) (hidne : ¬(b.id = ""))
    {r : SyncedEventRecord} (hr : r ∈ ledger)
    (hkeyr : recordKey r = analyzerKey cfg.calendarBId b)
    {v : PendingSheetUpdate}
    (hv : v ∈ passUpdates cfg api eventsA eventsB ledger)
    (hrow : v.rowId = r.id) :
    v = mkPendingUpdate b r ∧ ¬(r.event_signature = computeSignature b) := by
  rcases passUpdates_mem hv with ⟨p, rfl, hpled, hcase⟩
  have hp2 : p.2 = r := by
    have : (mkPendingUpdate p.1 p.2).rowId = p.2.id := rfl
    rw [this] at hrow
    exact List.inj_on_of_nodup_map hwf.rowIdsNodup hpled hr hrow
  subst hp2
  rcases hcase with ⟨_, hkey2, hp1mem, _, _, _⟩ | ⟨_, hkey2, hp1mem, hp1f, _, hsigne⟩
  · rw [hkeyr] at hkey2
    have hkey2' : p.1.id ++ ":" ++ cfg.calendarAId = b.id ++ ":" ++ cfg.calendarBId := by
      simpa [analyzerKey] using hkey2.symm
    have hids : p.1.id = b.id ∧ cfg.calendarAId = cfg.calendarBId :=
      colon_key_inj (hwf.idsAFree p.1 hp1mem) (hwf.idsBFree b hb) hkey2'
    exact absurd hids.2 hwf.calNe
  · rw [hkeyr] at hkey2
    have hkey2' : p.1.id ++ ":" ++ cfg.calendarBId = b.id ++ ":" ++ cfg.calendarBId := by
      simpa [analyzerKey] using hkey2.symm
    have hids : p.1.id = b.id ∧ cfg.calendarBId = cfg.calendarBId :=
      colon_key_inj (hwf.idsBFree p.1 hp1mem) (hwf.idsBFree b hb) hkey2'
    have hp1b : p.1 = b := event_id_inj hwf.idsBNodup hp1mem hb
      (by
        rcases passesFilters_not_marked hp1f with ⟨_, _, h⟩
        exact h) hids.1
    subst hp1b
    exact ⟨rfl, hsigne⟩

/-- For a filter-passing event of calendar A, the reloaded ledger resolves
its key to a record whose stored signature is the event's current signature
— whichever of the three first-pass classifications applied. -/
theorem survivor_lookup_sig_A (cfg : SyncConfig) (api : CalendarApi)
    (eventsA eventsB : List GoogleCalendarEvent) (ledger : List SyncedEventRecord)
    (hwf : WellFormedPass cfg eventsA eventsB ledger)
    (hcreA : ∀ a ∈ (analyzeEvents eventsA ledger cfg.calendarAId cfg.calendarBId).toCreate,
      createOk api.createCall cfg.calendarAId cfg.calendarBId cfg.prefA a = true)
    (hupdA : ∀ p ∈ (analyzeEvents eventsA ledger cfg.calendarAId cfg.calendarBId).toUpdate,
      updateOk api.updateCall cfg.calendarAId cfg.calendarBId cfg.prefA p = true)
    (a : GoogleCalendarEvent) (ha : a ∈ eventsA)
    (hp : passesFilters cfg.calendarBId a = true) :
    (lookupRecord (afterLedger cfg api eventsA eventsB ledger)
        (analyzerKey cfg.calendarAId a)).map (fun r => r.event_signature) =
      some (computeSignature a) := by
  have hidne : ¬(a.id = "") := (passesFilters_not_marked hp).2.2
  rw [afterLedger_eq, lookupRecord_reindexFrom]
  rw [lookupRecord_append_none (lookup_passInsBA_none_at_A cfg api eventsA eventsB ledger hwf ha)]
  have hkeep : ∀ r ∈ ledger, recordKey r = analyzerKey cfg.calendarAId a →
      (!((passDelIds cfg api eventsA eventsB ledger).contains
        (applyRowUpdates (passUpdates cfg api eventsA eventsB ledger) r).id)) = true := by
    intro r hr hkeyr
    rw [applyRowUpdates_id_preserved]
    rw [key_matching_row_kept_A cfg api eventsA eventsB ledger hwf ha hr hkeyr]
    rfl
  have hkeypres : ∀ r ∈ ledger,
      recordKey (applyRowUpdates (passUpdates cfg api eventsA eventsB ledger) r) =
        recordKey r :=
    fun r hr => passUpdates_recordKey_preserved hwf.rowIdsNodup hr
  cases hl1 : lookupRecord ledger (analyzerKey cfg.calendarAId a) with
  | none =>
    have hamem : a ∈ (analyzeEvents eventsA ledger cfg.calendarAId cfg.calendarBId).toCreate :=
      toCreate_mem_iff.mpr ⟨ha, by simp [createPred, hp, hl1]⟩
    obtain ⟨cid, hcid⟩ := createdIdOf_isSome_of_ok (hcreA a hamem)
    have hmemS : (a, cid) ∈ successfulCreates api.createCall eventsA ledger
        cfg.calendarAId cfg.calendarBId cfg.prefA :=
      successfulCreates_mem_of hamem hcid
    have hABsome : lookupRecord (passInsAB cfg api eventsA ledger)
        (analyzerKey cfg.calendarAId a) =
        some (recordOfInsert (mkPendingInsert cfg.calendarAId cfg.calendarBId a cid)) := by
      apply lookupRecord_eq_some_of_unique
      · exact List.mem_map_of_mem _ hmemS
      · rfl
      · intro q hq hqkey
        rcases List.mem_map.mp hq with ⟨p, hpmem, rfl⟩
        rcases successfulCreates_mem_spec hpmem with ⟨hpc, hpid⟩
        have hp1 : p.1 ∈ eventsA := (toCreate_mem_iff.mp hpc).1
        have hqkey' : p.1.id ++ ":" ++ cfg.calendarAId =
            a.id ++ ":" ++ cfg.calendarAId := by
          simpa [recordKey, recordOfInsert, mkPendingInsert, analyzerKey] using hqkey
        have hids := colon_key_inj (hwf.idsAFree p.1 hp1) (hwf.idsAFree a ha) hqkey'
        have hp1f : passesFilters cfg.calendarBId p.1 = true := by
          have := (toCreate_mem_iff.mp hpc).2
          simp only [createPred, Bool.and_eq_true] at this
          exact this.1
        have hp1a : p.1 = a := event_id_inj hwf.idsANodup hp1 ha
          (by
            rcases passesFilters_not_marked hp1f with ⟨_, _, h⟩
            exact h) hids.1
        have hp2 : p.2 = cid := by
          rw [hp1a] at hpid
          rw [hcid] at hpid
          exact (Option.some.inj hpid).symm
        have : p = (a, cid) := Prod.ext hp1a hp2
        rw [this]
    rw [lookupRecord_append_some hABsome]
    rfl
  | some r =>
    rcases lookupRecord_mem ledger (analyzerKey cfg.calendarAId a) r hl1 with ⟨hrmem, hkeyr⟩
    have hABnone : lookupRecord (passInsAB cfg api eventsA ledger)
        (analyzerKey cfg.calendarAId a) = none := by
      rw [lookupRecord_eq_none_iff]
      intro q hq hqkey
      rcases List.mem_map.mp hq with ⟨p, hpmem, rfl⟩
      rcases successfulCreates_mem_spec hpmem with ⟨hpc, _⟩
      have hp1 : p.1 ∈ eventsA := (toCreate_mem_iff.mp hpc).1
      have hqkey' : p.1.id ++ ":" ++ cfg.calendarAId =
          a.id ++ ":" ++ cfg.calendarAId := by
        simpa [recordKey, recordOfInsert, mkPendingInsert, analyzerKey] using hqkey
      have hids := colon_key_inj (hwf.idsAFree p.1 hp1) (hwf.idsAFree a ha) hqkey'
      have hp1f : passesFilters cfg.calendarBId p.1 = true := by
        have := (toCreate_mem_iff.mp hpc).2
        simp only [createPred, Bool.and_eq_true] at this
        exact this.1
      have hp1a : p.1 = a := event_id_inj hwf.idsANodup hp1 ha
        (by
          rcases passesFilters_not_marked hp1f with ⟨_, _, h⟩
          exact h) hids.1
      have := (toCreate_mem_iff.mp hpc).2
      rw [hp1a] at this
      simp only [createPred, Bool.and_eq_true] at this
      rw [hl1] at this
      simp at this
    rw [lookupRecord_append_none hABnone]
    have hkept : lookupRecord (passKept cfg api eventsA eventsB ledger)
        (analyzerKey cfg.calendarAId a) =
        some (applyRowUpdates (passUpdates cfg api eventsA eventsB ledger) r) := by
      unfold passKept
      rw [lookupRecord_filter_map_key hkeypres hkeep, hl1]
      rfl
    rw [hkept]
    by_cases hsig : r.event_signature = computeSignature a
    · have hnone : applyRowUpdates (passUpdates cfg api eventsA eventsB ledger) r = r := by
        apply applyRowUpdates_eq_self
        intro u hu hurow
        rcases passUpdates_match_spec_A cfg api eventsA eventsB ledger hwf ha hidne
          hrmem hkeyr hu hurow with ⟨_, hne⟩
        exact hne hsig
      rw [hnone]
      simp [hsig]
    · have hpair : (a, r) ∈ (analyzeEvents eventsA ledger cfg.calendarAId
          cfg.calendarBId).toUpdate :=
        toUpdate_mem_of_parts ha hp hl1 hsig
      have hmemU : (a, r) ∈ successfulUpdates api.updateCall eventsA ledger
          cfg.calendarAId cfg.calendarBId cfg.prefA :=
        List.mem_filter.mpr ⟨hpair, hupdA (a, r) hpair⟩
      have hu₀ : mkPendingUpdate a r ∈ passUpdates cfg api eventsA eventsB ledger :=
        List.mem_append_left _ (List.mem_map_of_mem _ hmemU)
      have happ : applyRowUpdates (passUpdates cfg api eventsA eventsB ledger) r =
          recordOfUpdate (mkPendingUpdate a r) := by
        apply applyRowUpdates_eq_update hu₀ rfl
        intro v hv hvrow
        exact (passUpdates_match_spec_A cfg api eventsA eventsB ledger hwf ha hidne
          hrmem hkeyr hv hvrow).1
      rw [happ]
      rfl

/-- Symmetric statement for a filter-passing event of calendar B. -/
theorem survivor_lookup_sig_B (cfg : SyncConfig) (api : CalendarApi)
    (eventsA eventsB : List GoogleCalendarEvent) (ledger : List SyncedEventRecord)
    (hwf : WellFormedPass cfg eventsA eventsB ledger)
    (hcreB : ∀ b ∈ (analyzeEvents eventsB ledger cfg.calendarBId cfg.calendarAId).toCreate,
      createOk api.createCall cfg.calendarBId cfg.calendarAId cfg.prefB b = true)
    (hupdB : ∀ p ∈ (analyzeEvents eventsB ledger cfg.calendarBId cfg.calendarAId).toUpdate,
      updateOk api.updateCall cfg.calendarBId cfg.calendarAId cfg.prefB p = true)
    (b : GoogleCalendarEvent) (hb : b ∈ eventsB)
    (hp : passesFilters cfg.calendarAId b = true) :
    (lookupRecord (afterLedger cfg api eventsA eventsB ledger)
        (analyzerKey cfg.calendarBId b)).map (fun r => r.event_signature) =
      some (computeSignature b) := by
  have hidne : ¬(b.id = "") := (passesFilters_not_marked hp).2.2
  rw [afterLedger_eq, lookupRecord_reindexFrom]
  have hkeep : ∀ r ∈ ledger, recordKey r = analyzerKey cfg.calendarBId b →
      (!((passDelIds cfg api eventsA eventsB ledger).contains
        (applyRowUpdates (passUpdates cfg api eventsA eventsB ledger) r).id)) = true := by
    intro r hr hkeyr
    rw [applyRowUpdates_id_preserved]
    rw [key_matching_row_kept_B cfg api eventsA eventsB ledger hwf hb hr hkeyr]
    rfl
  have hkeypres : ∀ r ∈ ledger,
      recordKey (applyRowUpdates (passUpdates cfg api eventsA eventsB ledger) r) =
        recordKey r :=
    fun r hr => passUpdates_recordKey_preserved hwf.rowIdsNodup hr
  cases hl1 : lookupRecord ledger (analyzerKey cfg.calendarBId b) with
  | none =>
    have hbmem : b ∈ (analyzeEvents eventsB ledger cfg.calendarBId cfg.calendarAId).toCreate :=
      toCreate_mem_iff.mpr ⟨hb, by simp [createPred, hp, hl1]⟩
    obtain ⟨cid, hcid⟩ := createdIdOf_isSome_of_ok (hcreB b hbmem)
    have hmemS : (b, cid) ∈ successfulCreates api.createCall eventsB ledger
        cfg.calendarBId cfg.calendarAId cfg.prefB :=
      successfulCreates_mem_of hbmem hcid
    have hBAsome : lookupRecord (passInsBA cfg api eventsB ledger)
        (analyzerKey cfg.calendarBId b) =
        some (recordOfInsert (mkPendingInsert cfg.calendarBId cfg.calendarAId b cid)) := by
      apply lookupRecord_eq_some_of_unique
      · exact List.mem_map_of_mem _ hmemS
      · rfl
      · intro q hq hqkey
        rcases List.mem_map.mp hq with ⟨p, hpmem, rfl⟩
        rcases successfulCreates_mem_spec hpmem with ⟨hpc, hpid⟩
        have hp1 : p.1 ∈ eventsB := (toCreate_mem_iff.mp hpc).1
        have hqkey' : p.1.id ++ ":" ++ cfg.calendarBId =
            b.id ++ ":" ++ cfg.calendarBId := by
          simpa [recordKey, recordOfInsert, mkPendingInsert, analyzerKey] using hqkey
        have hids := colon_key_inj (hwf.idsBFree p.1 hp1) (hwf.idsBFree b hb) hqkey'
        have hp1f : passesFilters cfg.calendarAId p.1 = true := by
          have := (toCreate_mem_iff.mp hpc).2
          simp only [createPred, Bool.and_eq_true] at this
          exact this.1
        have hp1b : p.1 = b := event_id_inj hwf.idsBNodup hp1 hb
          (by
            rcases passesFilters_not_marked hp1f with ⟨_, _, h⟩
            exact h) hids.1
        have hp2 : p.2 = cid := by
          rw [hp1b] at hpid
          rw [hcid] at hpid
          exact (Option.some.inj hpid).symm
        have : p = (b, cid) := Prod.ext hp1b hp2
        rw [this]
    rw [lookupRecord_append_some hBAsome]
    rfl
  | some r =>
    rcases lookupRecord_mem ledger (analyzerKey cfg.calendarBId b) r hl1 with ⟨hrmem, hkeyr⟩
    have hBAnone : lookupRecord (passInsBA cfg api eventsB ledger)
        (analyzerKey cfg.calendarBId b) = none := by
      rw [lookupRecord_eq_none_iff]
      intro q hq hqkey
      rcases List.mem_map.mp hq with ⟨p, hpmem, rfl⟩
      rcases successfulCreates_mem_spec hpmem with ⟨hpc, _⟩
      have hp1 : p.1 ∈ eventsB := (toCreate_mem_iff.mp hpc).1
      have hqkey' : p.1.id ++ ":" ++ cfg.calendarBId =
          b.id ++ ":" ++ cfg.calendarBId := by
        simpa [recordKey, recordOfInsert, mkPendingInsert, analyzerKey] using hqkey
      have hids := colon_key_inj (hwf.idsBFree p.1 hp1) (hwf.idsBFree b hb) hqkey'
      have hp1f : passesFilters cfg.calendarAId p.1 = true := by
        have := (toCreate_mem_iff.mp hpc).2
        simp only [createPred, Bool.and_eq_true] at this
        exact this.1
      have hp1b : p.1 = b := event_id_inj hwf.idsBNodup hp1 hb
        (by
          rcases passesFilters_not_marked hp1f with ⟨_, _, h⟩
          exact h) hids.1
      have := (toCreate_mem_iff.mp hpc).2
      rw [hp1b] at this
      simp only [createPred, Bool.and_eq_true] at this
      rw [hl1] at this
      simp at this
    rw [lookupRecord_append_none hBAnone]
    have hABnone : lookupRecord (passInsAB cfg api eventsA ledger)
        (analyzerKey cfg.calendarBId b) = none :=
      lookup_passInsAB_none_at_B cfg api eventsA eventsB ledger hwf hb
    rw [lookupRecord_append_none hABnone]
    have hkept : lookupRecord (passKept cfg api eventsA eventsB ledger)
        (analyzerKey cfg.calendarBId b) =
        some (applyRowUpdates (passUpdates cfg api eventsA eventsB ledger) r) := by
      unfold passKept
      rw [lookupRecord_filter_map_key hkeypres hkeep, hl1]
      rfl
    rw [hkept]
    by_cases hsig : r.event_signature = computeSignature b
    · have hnone : applyRowUpdates (passUpdates cfg api eventsA eventsB ledger) r = r := by
        apply applyRowUpdates_eq_self
        intro u hu hurow
        rcases passUpdates_match_spec_B cfg api eventsA eventsB ledger hwf hb hidne
          hrmem hkeyr hu hurow with ⟨_, hne⟩
        exact hne hsig
      rw [hnone]
      simp [hsig]
    · have hpair : (b, r) ∈ (analyzeEvents eventsB ledger cfg.calendarBId
          cfg.calendarAId).toUpdate :=
        toUpdate_mem_of_parts hb hp hl1 hsig
      have hmemU : (b, r) ∈ successfulUpdates api.updateCall eventsB ledger
          cfg.calendarBId cfg.calendarAId cfg.prefB :=
        List.mem_filter.mpr ⟨hpair, hupdB (b, r) hpair⟩
      have hu₀ : mkPendingUpdate b r ∈ passUpdates cfg api eventsA eventsB ledger :=
        List.mem_append_right _ (List.mem_map_of_mem _ hmemU)
      have happ : applyRowUpdates (passUpdates cfg api eventsA eventsB ledger) r =
          recordOfUpdate (mkPendingUpdate b r) := by
        apply applyRowUpdates_eq_update hu₀ rfl
        intro v hv hvrow
        exact (passUpdates_match_spec_B cfg api eventsA eventsB ledger hwf hb hidne
          hrmem hkeyr hv hvrow).1
      rw [happ]
      rfl

/-! ### The second pass detects no orphans -/

theorem isOrphanRecord_false_of {idsA idsB : List String} {calA calB : String}
    {r : SyncedEventRecord}
    (hA : (r.primary_calendar == calA) = true → idsA.contains r.primary_event_id = true)
    (hB : (r.primary_calendar == calB) = true → idsB.contains r.primary_event_id = true) :
    isOrphanRecord idsA idsB calA calB r = false := by
  unfold isOrphanRecord
  cases hca : (r.primary_calendar == calA) with
  | true =>
    have hmA := hA hca
    simp at hmA
    cases hcb : (r.primary_calendar == calB) with
    | true =>
      have hmB := hB hcb
      simp at hmB
      simp [hca, hcb, hmA, hmB]
    | false => simp [hca, hcb, hmA]
  | false =>
    cases hcb : (r.primary_calendar == calB) with
    | true =>
      have hmB := hB hcb
      simp at hmB
      simp [hca, hcb, hmB]
    | false => simp [hca, hcb]

theorem isOrphanRecord_false_elim {idsA idsB : List String} {calA calB : String}
    {r : SyncedEventRecord}
    (h : isOrphanRecord idsA idsB calA calB r = false) :
    ((r.primary_calendar == calA) = true → idsA.contains r.primary_event_id = true) ∧
      ((r.primary_calendar == calB) = true → idsB.contains r.primary_event_id = true) := by
  unfold isOrphanRecord at h
  constructor
  · intro hca
    cases hcont : idsA.contains r.primary_event_id with
    | true => rfl
    | false =>
      have hnm : r.primary_event_id ∉ idsA := by simpa using hcont
      rw [if_pos (by simp [hca, hnm])] at h
      simp at h
  · intro hcb
    cases hcont : idsB.contains r.primary_event_id with
    | true => rfl
    | false =>
      have hnm : r.primary_event_id ∉ idsB := by simpa using hcont
      by_cases h1 : (r.primary_calendar == calA &&
          !(idsA.contains r.primary_event_id)) = true
      · rw [if_pos h1] at h; simp at h
      · rw [if_neg h1, if_pos (by simp [hcb, hnm])] at h
        simp at h

theorem passDeadA_mem {cfg : SyncConfig} {api : CalendarApi}
    {eventsA eventsB : List GoogleCalendarEvent} {ledger : List SyncedEventRecord}
    {x : String} (h : x ∈ passDeadA cfg api eventsA eventsB ledger) :
    ∃ o ∈ orphanList eventsA eventsB ledger cfg.calendarAId cfg.calendarBId,
      o.secondary_calendar = cfg.calendarAId ∧ o.secondary_event_id = x := by
  rcases List.mem_map.mp h with ⟨o, ho, rfl⟩
  have ho' := List.mem_filter.mp ho
  exact ⟨o, (List.mem_filter.mp ho'.1).1, by simpa using ho'.2, rfl⟩

theorem passDeadB_mem {cfg : SyncConfig} {api : CalendarApi}
    {eventsA eventsB : List GoogleCalendarEvent} {ledger : List SyncedEventRecord}
    {x : String} (h : x ∈ passDeadB cfg api eventsA eventsB ledger) :
    ∃ o ∈ orphanList eventsA eventsB ledger cfg.calendarAId cfg.calendarBId,
      o.secondary_calendar = cfg.calendarBId ∧ o.secondary_event_id = x := by
  rcases List.mem_map.mp h with ⟨o, ho, rfl⟩
  have ho' := List.mem_filter.mp ho
  exact ⟨o, (List.mem_filter.mp ho'.1).1, by simpa using ho'.2, rfl⟩

theorem notDeadA_of_untagged (cfg : SyncConfig) (api : CalendarApi)
    (eventsA eventsB : List GoogleCalendarEvent) (ledger : List SyncedEventRecord)
    (hwf : WellFormedPass cfg eventsA eventsB ledger)
    {a : GoogleCalendarEvent} (ha : a ∈ eventsA) (htag : isSyncedCopy a = false) :
    (passDeadA cfg api eventsA eventsB ledger).contains a.id = false := by
  cases hc : (passDeadA cfg api eventsA eventsB ledger).contains a.id with
  | false => rfl
  | true =>
    have hmem : a.id ∈ passDeadA cfg api eventsA eventsB ledger := by simpa using hc
    rcases passDeadA_mem hmem with ⟨o, ho, hsec, hsecid⟩
    have := hwf.orphanSecondaryTaggedA o ho hsec a ha hsecid.symm
    rw [this] at htag
    exact absurd htag (by simp)

theorem notDeadB_of_untagged (cfg : SyncConfig) (api : CalendarApi)
    (eventsA eventsB : List GoogleCalendarEvent) (ledger : List SyncedEventRecord)
    (hwf : WellFormedPass cfg eventsA eventsB ledger)
    {b : GoogleCalendarEvent} (hb : b ∈ eventsB) (htag : isSyncedCopy b = false) :
    (passDeadB cfg api eventsA eventsB ledger).contains b.id = false := by
  cases hc : (passDeadB cfg api eventsA eventsB ledger).contains b.id with
  | false => rfl
  | true =>
    have hmem : b.id ∈ passDeadB cfg api eventsA eventsB ledger := by simpa using hc
    rcases passDeadB_mem hmem with ⟨o, ho, hsec, hsecid⟩
    have := hwf.orphanSecondaryTaggedB o ho hsec b hb hsecid.symm
    rw [this] at htag
    exact absurd htag (by simp)

theorem eventA_id_in_after (cfg : SyncConfig) (api : CalendarApi)
    (eventsA eventsB : List GoogleCalendarEvent) (ledger : List SyncedEventRecord)
    {a : GoogleCalendarEvent} (ha : a ∈ eventsA)
    (hnotdead : (passDeadA cfg api eventsA eventsB ledger).contains a.id = false) :
    a.id ∈ (afterEventsA cfg api eventsA eventsB ledger).map (·.id) := by
  rw [afterEventsA_eq, List.map_append]
  apply List.mem_append_left
  rw [List.map_map]
  refine List.mem_map.mpr ⟨a, ?_, ?_⟩
  · exact List.mem_filter.mpr ⟨ha, by rw [hnotdead]; rfl⟩
  · exact contentAfterUpdates_id _ _ _ a

theorem eventB_id_in_after (cfg : SyncConfig) (api : CalendarApi)
    (eventsA eventsB : List GoogleCalendarEvent) (ledger : List SyncedEventRecord)
    {b : GoogleCalendarEvent} (hb : b ∈ eventsB)
    (hnotdead : (passDeadB cfg api eventsA eventsB ledger).contains b.id = false) :
    b.id ∈ (afterEventsB cfg api eventsA eventsB ledger).map (·.id) := by
  rw [afterEventsB_eq, List.map_append]
  apply List.mem_append_left
  rw [List.map_map]
  refine List.mem_map.mpr ⟨b, ?_, ?_⟩
  · exact List.mem_filter.mpr ⟨hb, by rw [hnotdead]; rfl⟩
  · exact contentAfterUpdates_id _ _ _ b

theorem secondPass_orphans_empty (cfg : SyncConfig) (api : CalendarApi)
    (eventsA eventsB : List GoogleCalendarEvent) (ledger : List SyncedEventRecord)
    (hwf : WellFormedPass cfg eventsA eventsB ledger)
    (hdel : ∀ o ∈ orphanList eventsA eventsB ledger cfg.calendarAId cfg.calendarBId,
      orphanDeleteOk api.deleteCall o = true) :
    orphanList (afterEventsA cfg api eventsA eventsB ledger)
      (afterEventsB cfg api eventsA eventsB ledger)
      (afterLedger cfg api eventsA eventsB ledger)
      cfg.calendarAId cfg.calendarBId = [] := by
  unfold orphanList
  rw [List.filter_eq_nil_iff]
  intro rec hrec
  rw [afterLedger_eq] at hrec
  rcases reindexFrom_mem hrec with ⟨r₀, hr₀, heq⟩
  have hko : isOrphanRecord ((afterEventsA cfg api eventsA eventsB ledger).map (·.id))
      ((afterEventsB cfg api eventsA eventsB ledger).map (·.id))
      cfg.calendarAId cfg.calendarBId rec =
      isOrphanRecord ((afterEventsA cfg api eventsA eventsB ledger).map (·.id))
        ((afterEventsB cfg api eventsA eventsB ledger).map (·.id))
        cfg.calendarAId cfg.calendarBId r₀ := by
    rw [heq]
    rfl
  intro hcon
  rw [hko] at hcon
  have hfalse : isOrphanRecord ((afterEventsA cfg api eventsA eventsB ledger).map (·.id))
      ((afterEventsB cfg api eventsA eventsB ledger).map (·.id))
      cfg.calendarAId cfg.calendarBId r₀ = false := by
    rcases List.mem_append.mp hr₀ with h01 | hBA
    · rcases List.mem_append.mp h01 with hkept | hAB
      · -- a surviving original row
        have hkept' := List.mem_filter.mp hkept
        rcases List.mem_map.mp hkept'.1 with ⟨r, hr, rfl⟩
        rcases @applyRowUpdates_primary_preserved cfg api eventsA eventsB _
          hwf.rowIdsNodup _ hr with ⟨hc1, hc2⟩
        have hkeepb := hkept'.2
        rw [applyRowUpdates_id_preserved] at hkeepb
        have hnotdel : (passDelIds cfg api eventsA eventsB ledger).contains r.id = false := by
          cases hdc : (passDelIds cfg api eventsA eventsB ledger).contains r.id with
          | false => rfl
          | true => rw [hdc] at hkeepb; simp at hkeepb
        have hnon : isOrphanRecord (eventsA.map (·.id)) (eventsB.map (·.id))
            cfg.calendarAId cfg.calendarBId r = false := by
          cases ho : isOrphanRecord (eventsA.map (·.id)) (eventsB.map (·.id))
              cfg.calendarAId cfg.calendarBId r with
          | false => rfl
          | true =>
            have horphmem : r ∈ orphanList eventsA eventsB ledger
                cfg.calendarAId cfg.calendarBId := List.mem_filter.mpr ⟨hr, ho⟩
            have hok := hdel r horphmem
            have hsucc : r ∈ successfulOrphans api.deleteCall eventsA eventsB ledger
                cfg.calendarAId cfg.calendarBId := List.mem_filter.mpr ⟨horphmem, hok⟩
            have : r.id ∈ passDelIds cfg api eventsA eventsB ledger :=
              List.mem_map_of_mem _ hsucc
            simp [this] at hnotdel
        rcases isOrphanRecord_false_elim hnon with ⟨hAside, hBside⟩
        apply isOrphanRecord_false_of
        · intro hca
          rw [hc1] at hca
          rw [hc2]
          have hin := hAside hca
          have hmemid : r.primary_event_id ∈ eventsA.map (·.id) := by simpa using hin
          rcases List.mem_map.mp hmemid with ⟨a, hamem, haid⟩
          have hnotdead : (passDeadA cfg api eventsA eventsB ledger).contains a.id = false := by
            cases hdc : (passDeadA cfg api eventsA eventsB ledger).contains a.id with
            | false => rfl
            | true =>
              have hmem : a.id ∈ passDeadA cfg api eventsA eventsB ledger := by simpa using hdc
              rcases passDeadA_mem hmem with ⟨o, ho, hsec, hsecid⟩
              exact absurd ⟨by rw [(by simpa using hca : r.primary_calendar = cfg.calendarAId), hsec],
                  by rw [← haid, hsecid]⟩
                (hwf.orphanSecondaryNotPrimary o ho r hr hnon)
          have := eventA_id_in_after cfg api eventsA eventsB ledger hamem hnotdead
          rw [haid] at this
          simpa using this
        · intro hcb
          rw [hc1] at hcb
          rw [hc2]
          have hin := hBside hcb
          have hmemid : r.primary_event_id ∈ eventsB.map (·.id) := by simpa using hin
          rcases List.mem_map.mp hmemid with ⟨b, hbmem, hbid⟩
          have hnotdead : (passDeadB cfg api eventsA eventsB ledger).contains b.id = false := by
            cases hdc : (passDeadB cfg api eventsA eventsB ledger).contains b.id with
            | false => rfl
            | true =>
              have hmem : b.id ∈ passDeadB cfg api eventsA eventsB ledger := by simpa using hdc
              rcases passDeadB_mem hmem with ⟨o, ho, hsec, hsecid⟩
              exact absurd ⟨by rw [(by simpa using hcb : r.primary_calendar = cfg.calendarBId), hsec],
                  by rw [← hbid, hsecid]⟩
                (hwf.orphanSecondaryNotPrimary o ho r hr hnon)
          have := eventB_id_in_after cfg api eventsA eventsB ledger hbmem hnotdead
          rw [hbid] at this
          simpa using this
      · -- a row inserted for an A→B create
        rcases List.mem_map.mp hAB with ⟨p, hpmem, rfl⟩
        rcases successfulCreates_mem_spec hpmem with ⟨hpc, _⟩
        have hp1 : p.1 ∈ eventsA := (toCreate_mem_iff.mp hpc).1
        have hp1f : passesFilters cfg.calendarBId p.1 = true := by
          have := (toCreate_mem_iff.mp hpc).2
          simp only [createPred, Bool.and_eq_true] at this
          exact this.1
        have htag : isSyncedCopy p.1 = false := (passesFilters_not_marked hp1f).1
        have hnotdead := notDeadA_of_untagged cfg api eventsA eventsB ledger hwf hp1 htag
        apply isOrphanRecord_false_of
        · intro _
          have := eventA_id_in_after cfg api eventsA eventsB ledger hp1 hnotdead
          simpa using this
        · intro hcb
          have : cfg.calendarAId = cfg.calendarBId := by simpa using hcb
          exact absurd this hwf.calNe
    · -- a row inserted for a B→A create
      rcases List.mem_map.mp hBA with ⟨p, hpmem, rfl⟩
      rcases successfulCreates_mem_spec hpmem with ⟨hpc, _⟩
      have hp1 : p.1 ∈ eventsB := (toCreate_mem_iff.mp hpc).1
      have hp1f : passesFilters cfg.calendarAId p.1 = true := by
        have := (toCreate_mem_iff.mp hpc).2
        simp only [createPred, Bool.and_eq_true] at this
        exact this.1
      have htag : isSyncedCopy p.1 = false := (passesFilters_not_marked hp1f).1
      have hnotdead := notDeadB_of_untagged cfg api eventsA eventsB ledger hwf hp1 htag
      apply isOrphanRecord_false_of
      · intro hca
        have : cfg.calendarBId = cfg.calendarAId := by simpa using hca
        exact absurd this.symm hwf.calNe
      · intro _
        have := eventB_id_in_after cfg api eventsA eventsB ledger hp1 hnotdead
        simpa using this
  rw [hfalse] at hcon
  exact absurd hcon (by simp)

/-! ### The second pass classifies every event as skip or unchanged -/

theorem secondPass_memberA (cfg : SyncConfig) (api : CalendarApi)
    (eventsA eventsB : List GoogleCalendarEvent) (ledger : List SyncedEventRecord)
    (hwf : WellFormedPass cfg eventsA eventsB ledger)
    (hcreA : ∀ a ∈ (analyzeEvents eventsA ledger cfg.calendarAId cfg.calendarBId).toCreate,
      createOk api.createCall cfg.calendarAId cfg.calendarBId cfg.prefA a = true)
    (hupdA : ∀ p ∈ (analyzeEvents eventsA ledger cfg.calendarAId cfg.calendarBId).toUpdate,
      updateOk api.updateCall cfg.calendarAId cfg.calendarBId cfg.prefA p = true)
    {e : GoogleCalendarEvent} (he : e ∈ afterEventsA cfg api eventsA eventsB ledger) :
    createPred (afterLedger cfg api eventsA eventsB ledger)
        cfg.calendarAId cfg.calendarBId e = false ∧
      updateEntry (afterLedger cfg api eventsA eventsB ledger)
        cfg.calendarAId cfg.calendarBId e = none := by
  rw [afterEventsA_eq] at he
  rcases List.mem_append.mp he with hsurv | hcre
  · rcases List.mem_map.mp hsurv with ⟨a, haf, rfl⟩
    have ha : a ∈ eventsA := (List.mem_filter.mp haf).1
    rcases contentAfterUpdates_cases _ _ _ a with heq | htag
    · rw [heq]
      by_cases hid : a.id = ""
      · exact classification_of_empty_id hid
      · cases htg : isSyncedCopy a with
        | true => exact classification_of_tagged htg
        | false =>
          cases hatt : isTargetCalendarInAttendees a cfg.calendarBId with
          | true => exact classification_of_attendee hatt
          | false =>
            exact classification_of_matching_sig
              (survivor_lookup_sig_A cfg api eventsA eventsB ledger hwf hcreA hupdA a ha
                (passesFilters_intro hid htg hatt))
    · exact classification_of_tagged htag
  · rcases List.mem_map.mp hcre with ⟨p, hpmem, rfl⟩
    exact classification_of_tagged (eventFromBody_isSyncedCopy p.1 cfg.prefB cfg.calendarBId p.2)

theorem secondPass_memberB (cfg : SyncConfig) (api : CalendarApi)
    (eventsA eventsB : List GoogleCalendarEvent) (ledger : List SyncedEventRecord)
    (hwf : WellFormedPass cfg eventsA eventsB ledger)
    (hcreB : ∀ b ∈ (analyzeEvents eventsB ledger cfg.calendarBId cfg.calendarAId).toCreate,
      createOk api.createCall cfg.calendarBId cfg.calendarAId cfg.prefB b = true)
    (hupdB : ∀ p ∈ (analyzeEvents eventsB ledger cfg.calendarBId cfg.calendarAId).toUpdate,
      updateOk api.updateCall cfg.calendarBId cfg.calendarAId cfg.prefB p = true)
    {e : GoogleCalendarEvent} (he : e ∈ afterEventsB cfg api eventsA eventsB ledger) :
    createPred (afterLedger cfg api eventsA eventsB ledger)
        cfg.calendarBId cfg.calendarAId e = false ∧
      updateEntry (afterLedger cfg api eventsA eventsB ledger)
        cfg.calendarBId cfg.calendarAId e = none := by
  rw [afterEventsB_eq] at he
  rcases List.mem_append.mp he with hsurv | hcre
  · rcases List.mem_map.mp hsurv with ⟨b, hbf, rfl⟩
    have hb : b ∈ eventsB := (List.mem_filter.mp hbf).1
    rcases contentAfterUpdates_cases _ _ _ b with heq | htag
    · rw [heq]
      by_cases hid : b.id = ""
      · exact classification_of_empty_id hid
      · cases htg : isSyncedCopy b with
        | true => exact classification_of_tagged htg
        | false =>
          cases hatt : isTargetCalendarInAttendees b cfg.calendarAId with
          | true => exact classification_of_attendee hatt
          | false =>
            exact classification_of_matching_sig
              (survivor_lookup_sig_B cfg api eventsA eventsB ledger hwf hcreB hupdB b hb
                (passesFilters_intro hid htg hatt))
    · exact classification_of_tagged htag
  · rcases List.mem_map.mp hcre with ⟨p, hpmem, rfl⟩
    exact classification_of_tagged (eventFromBody_isSyncedCopy p.1 cfg.prefA cfg.calendarAId p.2)

theorem secondPass_analysisA_trivial (cfg : SyncConfig) (api : CalendarApi)
    (eventsA eventsB : List GoogleCalendarEvent) (ledger : List SyncedEventRecord)
    (hwf : WellFormedPass cfg eventsA eventsB ledger)
    (hcreA : ∀ a ∈ (analyzeEvents eventsA ledger cfg.calendarAId cfg.calendarBId).toCreate,
      createOk api.createCall cfg.calendarAId cfg.calendarBId cfg.prefA a = true)
    (hupdA : ∀ p ∈ (analyzeEvents eventsA ledger cfg.calendarAId cfg.calendarBId).toUpdate,
      updateOk api.updateCall cfg.calendarAId cfg.calendarBId cfg.prefA p = true) :
    (analyzeEvents (afterEventsA cfg api eventsA eventsB ledger)
        (afterLedger cfg api eventsA eventsB ledger)
        cfg.calendarAId cfg.calendarBId).toCreate = [] ∧
      (analyzeEvents (afterEventsA cfg api eventsA eventsB ledger)
        (afterLedger cfg api eventsA eventsB ledger)
        cfg.calendarAId cfg.calendarBId).toUpdate = [] := by
  rw [analyzeEvents_eq]
  constructor
  · refine List.filter_eq_nil_iff.mpr ?_
    intro e he
    simp [(secondPass_memberA cfg api eventsA eventsB ledger hwf hcreA hupdA he).1]
  · refine List.filterMap_eq_nil_iff.mpr ?_
    intro e he
    exact (secondPass_memberA cfg api eventsA eventsB ledger hwf hcreA hupdA he).2

theorem secondPass_analysisB_trivial (cfg : SyncConfig) (api : CalendarApi)
    (eventsA eventsB : List GoogleCalendarEvent) (ledger : List SyncedEventRecord)
    (hwf : WellFormedPass cfg eventsA eventsB ledger)
    (hcreB : ∀ b ∈ (analyzeEvents eventsB ledger cfg.calendarBId cfg.calendarAId).toCreate,
      createOk api.createCall cfg.calendarBId cfg.calendarAId cfg.prefB b = true)
    (hupdB : ∀ p ∈ (analyzeEvents eventsB ledger cfg.calendarBId cfg.calendarAId).toUpdate,
      updateOk api.updateCall cfg.calendarBId cfg.calendarAId cfg.prefB p = true) :
    (analyzeEvents (afterEventsB cfg api eventsA eventsB ledger)
        (afterLedger cfg api eventsA eventsB ledger)
        cfg.calendarBId cfg.calendarAId).toCreate = [] ∧
      (analyzeEvents (afterEventsB cfg api eventsA eventsB ledger)
        (afterLedger cfg api eventsA eventsB ledger)
        cfg.calendarBId cfg.calendarAId).toUpdate = [] := by
  rw [analyzeEvents_eq]
  constructor
  · refine List.filter_eq_nil_iff.mpr ?_
    intro e he
    simp [(secondPass_memberB cfg api eventsA eventsB ledger hwf hcreB hupdB he).1]
  · refine List.filterMap_eq_nil_iff.mpr ?_
    intro e he
    exact (secondPass_memberB cfg api eventsA eventsB ledger hwf hcreB hupdB he).2

/-- C1. Amended idempotence: over well-formed inputs (distinct calendars,
colon-free ids, per-calendar unique event ids, unique row ids, and orphans
whose secondary events are genuine synced copies), if a full pass completes
with zero errors and only the pass's own successful operations change the
two calendars and the ledger, then a second pass over the resulting state —
under any Calendar API behaviour — performs zero creates, zero updates and
zero deletes: both direction syncers report all-zero stats with no pending
sheet inserts or updates, and the orphan detector deletes nothing.  (The
unqualified claim, for every ledger snapshot, is refuted by the chained-orphan
counterexample.) -/
theorem full_pass_idempotent (cfg : SyncConfig) (api api₂ : CalendarApi)
    (eventsA eventsB : List GoogleCalendarEvent) (ledger : List SyncedEventRecord)
    (out : PassResult)
    (hwf : WellFormedPass cfg eventsA eventsB ledger)
    (hrun : syncGoogleCalendarsWorkflow cfg api (.fulfilled eventsA) (.fulfilled eventsB)
      ledger = some out)
    (herr : out.totalErrors = 0) :
    syncGoogleCalendarsWorkflow cfg api₂
        (.fulfilled (afterEventsA cfg api eventsA eventsB ledger))
        (.fulfilled (afterEventsB cfg api eventsA eventsB ledger))
        (afterLedger cfg api eventsA eventsB ledger) =
      some ⟨⟨⟨0, 0, 0, 0⟩, [], []⟩, ⟨⟨0, 0, 0, 0⟩, [], []⟩, ⟨0, 0, []⟩⟩ := by
  unfold syncGoogleCalendarsWorkflow at hrun
  simp only [fetchedOrEmpty, syncDirection_eq, detectAndDeleteOrphans_eq,
    Option.some.injEq] at hrun
  subst hrun
  unfold PassResult.totalErrors at herr
  dsimp only at herr
  have hfcA : (analyzeEvents eventsA ledger cfg.calendarAId cfg.calendarBId).toCreate.countP
      (fun e => !createOk api.createCall cfg.calendarAId cfg.calendarBId cfg.prefA e) = 0 := by
    omega
  have hfuA : (analyzeEvents eventsA ledger cfg.calendarAId cfg.calendarBId).toUpdate.countP
      (fun q => !updateOk api.updateCall cfg.calendarAId cfg.calendarBId cfg.prefA q) = 0 := by
    omega
  have hfcB : (analyzeEvents eventsB ledger cfg.calendarBId cfg.calendarAId).toCreate.countP
      (fun e => !createOk api.createCall cfg.calendarBId cfg.calendarAId cfg.prefB e) = 0 := by
    omega
  have hfuB : (analyzeEvents eventsB ledger cfg.calendarBId cfg.calendarAId).toUpdate.countP
      (fun q => !updateOk api.updateCall cfg.calendarBId cfg.calendarAId cfg.prefB q) = 0 := by
    omega
  have hfd : (orphanList eventsA eventsB ledger cfg.calendarAId cfg.calendarBId).countP
      (fun r => !orphanDeleteOk api.deleteCall r) = 0 := by
    omega
  have hcreA : ∀ a ∈ (analyzeEvents eventsA ledger cfg.calendarAId cfg.calendarBId).toCreate,
      createOk api.createCall cfg.calendarAId cfg.calendarBId cfg.prefA a = true := by
    intro a hamem
    have := List.countP_eq_zero.mp hfcA a hamem
    simpa using this
  have hupdA : ∀ p ∈ (analyzeEvents eventsA ledger cfg.calendarAId cfg.calendarBId).toUpdate,
      updateOk api.updateCall cfg.calendarAId cfg.calendarBId cfg.prefA p = true := by
    intro p hpmem
    have := List.countP_eq_zero.mp hfuA p hpmem
    simpa using this
  have hcreB : ∀ b ∈ (analyzeEvents eventsB ledger cfg.calendarBId cfg.calendarAId).toCreate,
      createOk api.createCall cfg.calendarBId cfg.calendarAId cfg.prefB b = true := by
    intro b hbmem
    have := List.countP_eq_zero.mp hfcB b hbmem
    simpa using this
  have hupdB : ∀ p ∈ (analyzeEvents eventsB ledger cfg.calendarBId cfg.calendarAId).toUpdate,
      updateOk api.updateCall cfg.calendarBId cfg.calendarAId cfg.prefB p = true := by
    intro p hpmem
    have := List.countP_eq_zero.mp hfuB p hpmem
    simpa using this
  have hdelOk : ∀ o ∈ orphanList eventsA eventsB ledger cfg.calendarAId cfg.calendarBId,
      orphanDeleteOk api.deleteCall o = true := by
    intro o homem
    have := List.countP_eq_zero.mp hfd o homem
    simpa using this
  have hA := secondPass_analysisA_trivial cfg api eventsA eventsB ledger hwf hcreA hupdA
  have hB := secondPass_analysisB_trivial cfg api eventsA eventsB ledger hwf hcreB hupdB
  have horph := secondPass_orphans_empty cfg api eventsA eventsB ledger hwf hdelOk
  unfold syncGoogleCalendarsWorkflow
  simp only [fetchedOrEmpty, syncDirection_eq, detectAndDeleteOrphans_eq,
    successfulCreates, successfulUpdates, successfulOrphans]
  rw [hA.1, hA.2, hB.1, hB.2, horph]
  simp

/-- Configuration of the concrete idempotence scenarios. -/
def c1Cfg : SyncConfig := ⟨"cal-a", "cal-b", "[A]", "[B]"⟩

/-- An API whose deletes always succeed (creates and updates are never
reached in the concrete scenarios). -/
def c1Api : CalendarApi :=
  ⟨fun _ _ => .error "unavailable", fun _ _ _ => .error "unavailable",
    fun _ _ => .ok ()⟩

/-- Event `y` on calendar A: the secondary event of ledger row 2 and the
primary event of ledger row 3. -/
def c1yEvent : GoogleCalendarEvent :=
  { emptyEvent with
      id := "y"
      summary := some "Y" }

/-- Row 2: its primary event `x` has vanished from calendar B, so it is an
orphan; deleting it removes its secondary event `y` from calendar A. -/
def c1r1 : SyncedEventRecord :=
  ⟨2, "cal-b", "x", "cal-a", "y", "X", "", "", "sig-x", "", "", ""⟩

/-- Row 3: its primary event is `y` on calendar A — alive and unchanged on
the first pass, but removed by the first pass's own orphan deletion. -/
def c1r2 : SyncedEventRecord :=
  ⟨3, "cal-a", "y", "cal-b", "z", "Y", "", "", computeSignature c1yEvent, "", "", ""⟩

/-- The chained-orphan ledger. -/
def c1Ledger : List SyncedEventRecord := [c1r1, c1r2]

/-- Counterexample to the unqualified C1: with ledger rows (B:x → A:y) and
(A:y → B:z) and event `y` alive on calendar A, the first pass completes with
zero errors (`y` is unchanged; the single orphan delete succeeds), yet the
second pass — with no external changes — deletes a row: the first pass's own
orphan deletion of `y` turned the second row into a new orphan. -/
theorem full_pass_idempotent_counterexample :
    ((syncGoogleCalendarsWorkflow c1Cfg c1Api (.fulfilled [c1yEvent]) (.fulfilled [])
        c1Ledger).map PassResult.totalErrors = some 0) ∧
      ((syncGoogleCalendarsWorkflow c1Cfg c1Api
          (.fulfilled (afterEventsA c1Cfg c1Api [c1yEvent] [] c1Ledger))
          (.fulfilled (afterEventsB c1Cfg c1Api [c1yEvent] [] c1Ledger))
          (afterLedger c1Cfg c1Api [c1yEvent] [] c1Ledger)).map
        (fun o => o.orphan.deleted) = some 1) := by
  decide

/-- An ordinary tracked event on calendar A. -/
def c1wEvent : GoogleCalendarEvent :=
  { emptyEvent with
      id := "ev-1"
      summary := some "Standup" }

/-- The ledger row tracking `c1wEvent`, with a matching signature. -/
def c1wRecord : SyncedEventRecord :=
  ⟨2, "cal-a", "ev-1", "cal-b", "copy-1", "Standup", "", "",
    computeSignature c1wEvent, "", "", ""⟩

theorem full_pass_idempotent_witness :
    syncGoogleCalendarsWorkflow c1Cfg c1Api
        (.fulfilled (afterEventsA c1Cfg c1Api [c1wEvent] [] [c1wRecord]))
        (.fulfilled (afterEventsB c1Cfg c1Api [c1wEvent] [] [c1wRecord]))
        (afterLedger c1Cfg c1Api [c1wEvent] [] [c1wRecord]) =
      some ⟨⟨⟨0, 0, 0, 0⟩, [], []⟩, ⟨⟨0, 0, 0, 0⟩, [], []⟩, ⟨0, 0, []⟩⟩ :=
  full_pass_idempotent c1Cfg c1Api c1Api [c1wEvent] [] [c1wRecord]
    ⟨⟨⟨0, 0, 0, 0⟩, [], []⟩, ⟨⟨0, 0, 0, 0⟩, [], []⟩, ⟨0, 0, []⟩⟩
    ⟨by decide, by decide, by decide, by decide, by decide, by decide,
      by decide, by decide, by decide, by decide, by decide, by decide⟩
    (by decide) (by decide)

end CalSync
